import Mathlib

/-!
# Kustomize: resource identifiers, remote repository specs, transformers,
plugin loading and the fake file system

A shallow embedding of `pkg/resid/resid.go`, `pkg/git/repospec.go`, the
builtin plugins `ImageTagTransformer`, `NamespaceTransformer`,
`HashTransformer` (and the copy of it that pluginator generates in
`plugin/builtin/HashTransformer.go`), `LegacyOrderTransformer`,
`PatchJson6902Transformer` and `InventoryTransformer`, the plugin loader of
`pkg/plugins` and the fake file system of `pkg/fs/fakefs.go`, with a model of
the descriptor reader and writer of `pkg/commands/kustfile`, of which the
sources have the test only.

Go strings are byte sequences.  They are modelled as `List Char`, one
character per byte; every string constant of the embedded sources is ASCII,
so a literal `"abc".toList` denotes exactly the bytes of the Go constant.
Indices are `Int` where the source relies on the `-1` result of
`strings.Index`, and slices `s[a:b]` are `List.take` / `List.drop`.

Values of type `interface{}` are trees (`Value`).  A function that changes an
object in place returns the object as it leaves it (`Walk`), and a resource
map is the list of its resources in their order.  What the plugins call in
packages that are not among the sources is a parameter (`GvkOps`,
`TransformerOps`, `ResourceOps`, `Regexp`, `ConfigOps`, `InventoryOps`,
`LoaderOps`) or is modelled from the spec.  Where a call reads files or loads
code, the state it works on is passed in and returned, so that "nothing was
loaded" is the statement that this state comes back as it went in.
-/

namespace Kustomize

/-- A Go string: a sequence of bytes, one `Char` per byte. -/
abbrev Str := List Char

/-! ## The fragment of Go's `strings` package the sources use -/

namespace strings

/-- Position of the first occurrence of `sub` in `s`, if there is one. -/
def indexNat (sub : Str) : Str → Option Nat
  | [] => if sub.isEmpty then some 0 else none
  | c :: cs =>
    if sub.isPrefixOf (c :: cs) then some 0
    else (indexNat sub cs).map (· + 1)

/-- Go `strings.Index(s, substr)`: the index of the first instance of
`substr` in `s`, or `-1` if `substr` is not present in `s`. -/
def Index (s substr : Str) : Int :=
  match indexNat substr s with
  | some i => (i : Int)
  | none => -1

/-- Go `strings.Contains(s, substr)`, which is `Index(s, substr) >= 0`. -/
def Contains (s substr : Str) : Bool :=
  decide (Index s substr ≥ 0)

/-- Go `strings.HasPrefix(s, p)`. -/
def HasPrefix (s p : Str) : Bool :=
  p.isPrefixOf s

/-- Go `strings.HasSuffix(s, p)`. -/
def HasSuffix (s p : Str) : Bool :=
  p.isSuffixOf s

/-- Lower-casing of one byte: `A`..`Z` go to `a`..`z`, every other byte is
kept. -/
def lowerByte (c : Char) : Char :=
  if 65 ≤ c.toNat ∧ c.toNat ≤ 90 then Char.ofNat (c.toNat + 32) else c

/-- Go `strings.ToLower(s)` on ASCII input.  Bytes outside `A`..`Z` are
kept, so on a string with non-ASCII bytes this is the byte-wise ASCII
lower-casing and not Go's Unicode case mapping.  The comparison
`ToLower(n[:len(p)]) == p` of `parseHostSpec` has the same truth value under
both readings: `p` is ASCII and has as many bytes as the slice, and Go's
mapping sends no multi-byte sequence to a sequence of ASCII bytes of the same
length. -/
def ToLower (s : Str) : Str :=
  s.map lowerByte

/-- Go `strings.TrimLeft(s, cutset)`: `s` with all leading bytes contained
in `cutset` removed. -/
def TrimLeft (s cutset : Str) : Str :=
  s.dropWhile (fun c => cutset.contains c)

/-- The pieces of `s` between the occurrences of the separator byte `sep`,
with the piece being accumulated in `cur` (reversed). -/
def splitAux (sep : Char) : Str → Str → List Str
  | [], cur => [cur.reverse]
  | c :: cs, cur =>
    if c = sep then cur.reverse :: splitAux sep cs []
    else splitAux sep cs (c :: cur)

/-- Go `strings.Split(s, sep)` for a separator of one byte. -/
def Split (s : Str) (sep : Char) : List Str :=
  splitAux sep s []

/-- Go `strings.Join(elems, sep)`. -/
def Join (elems : List Str) (sep : Str) : Str :=
  sep.intercalate elems

end strings

/-! ## `pkg/gvk` (not part of the sources at hand) and `pkg/resid` -/

/-- Modelled from the spec: the type `gvk.Gvk` of package `pkg/gvk`, which is
missing from the sources.  "A triple (group, version, kind). Group and
version may be empty (legacy)." -/
structure Gvk where
  Group : Str
  Version : Str
  Kind : Str
  deriving DecidableEq, Repr

/-- Modelled from the spec: `Gvk.Equals` of the missing package `pkg/gvk`,
the strict equality of the spec: "all three match". -/
def Gvk.Equals (x o : Gvk) : Bool :=
  x.Group == o.Group && x.Version == o.Version && x.Kind == o.Kind

/-- The operations of the missing package `pkg/gvk` that `resid.go` calls and
whose results the spec leaves open: `Gvk.String` and
`Gvk.IsNamespaceableKind`. -/
structure GvkOps where
  String : Gvk → Str
  IsNamespaceableKind : Gvk → Bool

/-- ResId is an identifier of a k8s resource object. -/
structure ResId where
  Gvk : Gvk
  Name : Str
  Namespace : Str
  deriving DecidableEq, Repr

def noNamespace : Str := "~X".toList
def noName : Str := "~N".toList
def separator : Str := "|".toList
def TotallyNotANamespace : Str := "_non_namespaceable_".toList
def DefaultNamespace : Str := "default".toList

/-- `func (id ResId) String() string` -/
def ResId.String (ops : GvkOps) (id : ResId) : Str :=
  let ns := id.Namespace
  let ns := if ns = [] then noNamespace else ns
  let nm := id.Name
  let nm := if nm = [] then noName else nm
  strings.Join [ops.String id.Gvk, ns, nm] separator

/-- `func (id ResId) GvknEquals(o ResId) bool` -/
def ResId.GvknEquals (id o : ResId) : Bool :=
  id.Name == o.Name && id.Gvk.Equals o.Gvk

/-- `func (id ResId) isPutativelyDefaultNs() bool` -/
def ResId.isPutativelyDefaultNs (id : ResId) : Bool :=
  id.Namespace == [] || id.Namespace == DefaultNamespace

/-- `func (id ResId) IsNamespaceableKind() bool`, promoted from the embedded
`gvk.Gvk`. -/
def ResId.IsNamespaceableKind (ops : GvkOps) (id : ResId) : Bool :=
  ops.IsNamespaceableKind id.Gvk

/-- `func (id ResId) EffectiveNamespace() string` -/
def ResId.EffectiveNamespace (ops : GvkOps) (id : ResId) : Str :=
  if !id.IsNamespaceableKind ops then TotallyNotANamespace
  else if id.isPutativelyDefaultNs then DefaultNamespace
  else id.Namespace

/-- `func (id ResId) IsNsEquals(o ResId) bool` -/
def ResId.IsNsEquals (ops : GvkOps) (id o : ResId) : Bool :=
  id.EffectiveNamespace ops == o.EffectiveNamespace ops

/-- `func (id ResId) Equals(o ResId) bool` -/
def ResId.Equals (ops : GvkOps) (id o : ResId) : Bool :=
  id.IsNsEquals ops o && id.GvknEquals o

/-- `func (id ResId) IsInDefaultNs() bool` -/
def ResId.IsInDefaultNs (ops : GvkOps) (id : ResId) : Bool :=
  id.IsNamespaceableKind ops && id.isPutativelyDefaultNs

/-! ## `pkg/git/repospec.go` -/

namespace filepath

/-- Go `filepath.IsAbs(path)` on Unix: the path begins with a slash. -/
def IsAbs (path : Str) : Bool :=
  strings.HasPrefix path "/".toList

end filepath

/-- Used as a temporary non-empty occupant of the cloneDir field.
`fs.ConfirmedDir` is a string type. -/
def notCloned : Str := "/notCloned".toList

/-- RepoSpec specifies a git repository and a branch and path therein. -/
structure RepoSpec where
  raw : Str
  Host : Str
  OrgRepo : Str
  Dir : Str
  Path : Str
  Ref : Str
  GitSuffix : Str
  deriving DecidableEq, Repr

/-- `func isAzureHost(host string) bool` -/
def isAzureHost (host : Str) : Bool :=
  strings.Contains host "dev.azure.com".toList ||
    strings.Contains host "visualstudio.com".toList

/-- `func isAWSHost(host string) bool` -/
def isAWSHost (host : Str) : Bool :=
  strings.Contains host "amazonaws.com".toList

/-- `func (x *RepoSpec) CloneSpec() string` -/
def RepoSpec.CloneSpec (x : RepoSpec) : Str :=
  if isAzureHost x.Host || isAWSHost x.Host then x.Host ++ x.OrgRepo
  else x.Host ++ x.OrgRepo ++ x.GitSuffix

/-- `func (x *RepoSpec) CloneDir() fs.ConfirmedDir` -/
def RepoSpec.CloneDir (x : RepoSpec) : Str := x.Dir

/-- `func (x *RepoSpec) Raw() string` -/
def RepoSpec.Raw (x : RepoSpec) : Str := x.raw

def refQuery : Str := "?ref=".toList
def gitSuffix : Str := ".git".toList
def gitDelimiter : Str := "_git/".toList

/-- The regular expression `refQueryRegex`, `\?(version|ref)=`, tried at the
start of `s`: the length of its match there, if it matches.  The two
alternatives are tried in the order of the expression. -/
def refQueryRegexMatchAt (s : Str) : Option Nat :=
  if "?version=".toList.isPrefixOf s then some "?version=".toList.length
  else if "?ref=".toList.isPrefixOf s then some "?ref=".toList.length
  else none

/-- Leftmost match of `refQueryRegex` in `s`, whose first byte has index `k`
in the whole string: the location `(start, end)` of the match. -/
def refQueryRegexFind : Str → Nat → Option (Nat × Nat)
  | [], _ => none
  | c :: cs, k =>
    match refQueryRegexMatchAt (c :: cs) with
    | some len => some (k, k + len)
    | none => refQueryRegexFind cs (k + 1)

/-- Go `r.FindStringIndex(arg)` for `r` compiled from `refQueryRegex`: the
location of the leftmost match, `none` standing for the nil slice. -/
def refQueryRegexFindStringIndex (arg : Str) : Option (Nat × Nat) :=
  refQueryRegexFind arg 0

/-- Go `r.FindString(arg)` for `r` compiled from `refQueryRegex`: the text of
the leftmost match, or the empty string. -/
def refQueryRegexFindString (arg : Str) : Str :=
  match refQueryRegexFindStringIndex arg with
  | some (a, b) => (arg.take b).drop a
  | none => []

/-- `func peelQuery(arg string) (string, string)` -/
def peelQuery (arg : Str) : Str × Str :=
  match refQueryRegexFindStringIndex arg with
  | some (j0, _) =>
    (arg.take j0, arg.drop (j0 + (refQueryRegexFindString arg).length))
  | none => (arg, [])

/-- `func normalizeGitHostSpec(host string) string` -/
def normalizeGitHostSpec (host : Str) : Str :=
  let s := strings.ToLower host
  let host :=
    if strings.Contains s "github.com".toList then
      if strings.Contains s "git@".toList || strings.Contains s "ssh:".toList then
        "git@github.com:".toList
      else
        "https://github.com/".toList
    else host
  if strings.HasPrefix s "git::".toList then strings.TrimLeft s "git::".toList
  else host

/-- The first loop of `parseHostSpec`: each listed prefix that `n` begins
with (compared in lower case, and only when `n` is longer) is moved from `n`
to the end of `host`.  The result is `(host, n)`. -/
def parseHostSpecAccumulate : List Str → Str → Str → Str × Str
  | [], host, n => (host, n)
  | p :: ps, host, n =>
    if p.length < n.length ∧ strings.ToLower (n.take p.length) = p then
      parseHostSpecAccumulate ps (host ++ p) (n.drop p.length)
    else
      parseHostSpecAccumulate ps host n

/-- The second loop of `parseHostSpec`: at the first listed scheme that
`host` ends with, the domain part of `n` (up to and including its first
slash) is moved to `host`, and the loop is left. -/
def parseHostSpecDomain : List Str → Str → Str → Str × Str
  | [], host, n => (host, n)
  | p :: ps, host, n =>
    if strings.HasSuffix host p then
      let i := strings.Index n "/".toList
      if i > -1 then (host ++ n.take (i + 1).toNat, n.drop (i + 1).toNat)
      else (host, n)
    else parseHostSpecDomain ps host n

/-- `func parseHostSpec(n string) (string, string)` -/
def parseHostSpec (n : Str) : Str × Str :=
  let (host, n) := parseHostSpecAccumulate
    ["git::".toList, "gh:".toList, "ssh://".toList, "https://".toList,
      "http://".toList, "git@".toList, "github.com:".toList,
      "github.com/".toList] [] n
  if host = "git@".toList then
    let i := strings.Index n "/".toList
    if i > -1 then
      (host ++ n.take (i + 1).toNat, n.drop (i + 1).toNat)
    else
      let i := strings.Index n ":".toList
      if i > -1 then
        (host ++ n.take (i + 1).toNat, n.drop (i + 1).toNat)
      else (host, n)
  else
    let (host, n) := parseHostSpecDomain
      ["ssh://".toList, "https://".toList, "http://".toList] host n
    (normalizeGitHostSpec host, n)

/-- The five results of `parseGitUrl`. -/
structure GitUrlParts where
  host : Str
  orgRepo : Str
  path : Str
  gitRef : Str
  gitSuff : Str
  deriving DecidableEq, Repr

/-- `func parseGitUrl(n string) (host, orgRepo, path, gitRef, gitSuff string)` -/
def parseGitUrl (n : Str) : GitUrlParts :=
  if strings.Contains n gitDelimiter then
    let index := strings.Index n gitDelimiter
    let host := normalizeGitHostSpec (n.take (index + gitDelimiter.length).toNat)
    let orgRepo :=
      ((strings.Split
        ((strings.Split (n.drop (index + gitDelimiter.length).toNat) '/').headD [])
        '?').headD [])
    let (path, gitRef) :=
      peelQuery (n.drop (index + gitDelimiter.length + orgRepo.length).toNat)
    { host := host, orgRepo := orgRepo, path := path, gitRef := gitRef, gitSuff := [] }
  else
    let (host, n) := parseHostSpec n
    let gitSuff := gitSuffix
    if strings.Contains n gitSuffix then
      let index := strings.Index n gitSuffix
      let orgRepo := n.take index.toNat
      let n := n.drop (index + gitSuffix.length).toNat
      let (path, gitRef) := peelQuery n
      { host := host, orgRepo := orgRepo, path := path, gitRef := gitRef,
        gitSuff := gitSuff }
    else
      let i := strings.Index n "/".toList
      if i < 1 then
        { host := [], orgRepo := [], path := [], gitRef := [], gitSuff := [] }
      else
        let j := strings.Index (n.drop (i + 1).toNat) "/".toList
        if j ≥ 0 then
          let j := j + (i + 1)
          let orgRepo := n.take j.toNat
          let (path, gitRef) := peelQuery (n.drop (j + 1).toNat)
          { host := host, orgRepo := orgRepo, path := path, gitRef := gitRef,
            gitSuff := gitSuff }
        else
          let path : Str := []
          let (orgRepo, gitRef) := peelQuery n
          { host := host, orgRepo := orgRepo, path := path, gitRef := gitRef,
            gitSuff := gitSuff }

/-- `func NewRepoSpecFromUrl(n string) (*RepoSpec, error)`; the error is its
message. -/
def NewRepoSpecFromUrl (n : Str) : Except Str RepoSpec :=
  if filepath.IsAbs n then
    .error ("uri looks like abs path: ".toList ++ n)
  else
    let parts := parseGitUrl n
    if parts.orgRepo = [] then
      .error ("url lacks orgRepo: ".toList ++ n)
    else if parts.host = [] then
      .error ("url lacks host: ".toList ++ n)
    else
      .ok { raw := n, Host := parts.host, OrgRepo := parts.orgRepo,
            Dir := notCloned, Path := parts.path, Ref := parts.gitRef,
            GitSuffix := parts.gitSuff }

/-! ## Sample instances and the predicates of the statements -/

/-- A sample instance of the missing `pkg/gvk` operations: the string of a
Gvk joins its fields with `_`, and every kind but `ClusterRole` is
namespaceable. -/
def kindOps : GvkOps :=
  { String := fun g => g.Group ++ "_".toList ++ g.Version ++ "_".toList ++ g.Kind
    IsNamespaceableKind := fun g => g.Kind != "ClusterRole".toList }

/-- The two texts `refQueryRegex` matches. -/
def IsRefMarker (m : Str) : Prop :=
  m = "?ref=".toList ∨ m = "?version=".toList

/-- The prefixes the first loop of `parseHostSpec` goes through. -/
def hostPrefixes : List Str :=
  ["git::".toList, "gh:".toList, "ssh://".toList, "https://".toList,
    "http://".toList, "git@".toList, "github.com:".toList, "github.com/".toList]

/-- The schemes the second loop of `parseHostSpec` goes through. -/
def hostSchemes : List Str :=
  ["ssh://".toList, "https://".toList, "http://".toList]

/-- The bytes a GitHub organisation, repository or ref name is made of here:
ASCII letters, digits and the hyphen. -/
def IsNameByte (c : Char) : Bool :=
  c.isAlphanum || c == '-'

/-- A segment of a URL as in `https://host/org/repo/path`: a non-empty string
without slash, question mark, colon and at sign. -/
def IsSegment (s : Str) : Prop :=
  s ≠ [] ∧ '/' ∉ s ∧ '?' ∉ s ∧ ':' ∉ s ∧ '@' ∉ s

instance : DecidablePred IsSegment := fun s => by
  unfold IsSegment
  infer_instance

/-! ## Values of type `interface{}` and results of calls -/

/-- A Go value of type `interface{}` as the YAML and JSON decoders produce it:
nil, a boolean, a number, a string, a `[]interface{}` or a
`map[string]interface{}`.  A map is the list of its entries; a key is looked
up at its first entry. -/
inductive Value where
  | null
  | bool (b : Bool)
  | num (isFloat : Bool) (text : Str)
  | str (s : Str)
  | list (l : List Value)
  | map (m : List (Str × Value))
  deriving Repr

/-- A `map[string]interface{}`. -/
abbrev Object := List (Str × Value)

/-- How a call ends: it returns a value, it returns an error (its message),
or it panics at run time. -/
inductive Result (α : Type) where
  | ok (a : α)
  | err (msg : Str)
  | panic (msg : Str)
  deriving Repr, DecidableEq

/-- Go `v, found := m[key]`. -/
def Object.get (m : Object) (key : Str) : Option Value :=
  match m with
  | [] => none
  | (k, v) :: rest => if k = key then some v else Object.get rest key

/-- Go `m[key] = v`: the entry of `key` is replaced, or added when the key is
new. -/
def Object.set (m : Object) (key : Str) (v : Value) : Object :=
  match m with
  | [] => [(key, v)]
  | (k, w) :: rest => if k = key then (k, v) :: rest else (k, w) :: Object.set rest key v

/-- The name `%T` prints for the dynamic type of a value. -/
def Value.typeName : Value → Str
  | .null => "<nil>".toList
  | .bool _ => "bool".toList
  | .num isFloat _ => if isFloat then "float64".toList else "int64".toList
  | .str _ => "string".toList
  | .list _ => "[]interface \x7b\x7d".toList
  | .map _ => "map[string]interface \x7b\x7d".toList

namespace strings

/-- Position of the last occurrence of `sub` in `s`, if there is one. -/
def lastIndexNat (sub : Str) : Str → Option Nat
  | [] => if sub.isEmpty then some 0 else none
  | c :: cs =>
    match lastIndexNat sub cs with
    | some i => some (i + 1)
    | none => if sub.isPrefixOf (c :: cs) then some 0 else none

/-- Go `strings.LastIndex(s, substr)`: the index of the last instance of
`substr` in `s`, or `-1` if `substr` is not present in `s`. -/
def LastIndex (s substr : Str) : Int :=
  match lastIndexNat substr s with
  | some i => (i : Int)
  | none => -1

end strings

/-! ## Regular expressions

Package `regexp` of the Go library is a parameter of the embedding.  A
matcher for a fragment of its syntax is given as an instance, to evaluate the
definitions on concrete patterns. -/

/-- Go's `regexp.Compile` followed by `MatchString`:
`MatchString pattern s` is `none` when `pattern` does not compile (`Compile`
then returns a nil `*Regexp`), and otherwise whether `s` contains a match of
`pattern`. -/
structure Regexp where
  MatchString : Str → Str → Option Bool

/-- Regular expressions of the fragment the instance `goRegexp` covers. -/
inductive Regex where
  | empty
  | lit (c : Char)
  | any
  | cls (neg : Bool) (ranges : List (Char × Char))
  | bot
  | eot
  | cat (a b : Regex)
  | alt (a b : Regex)
  | star (a : Regex)
  deriving Repr, DecidableEq

/-- The positions reached from the positions `S` by zero to `n` matches of a
step `f`. -/
def Regex.closure (f : Nat → List Nat) : Nat → List Nat → List Nat
  | 0, S => S
  | n + 1, S => Regex.closure f n (S ++ S.flatMap f).dedup

/-- The end positions of the matches of a regular expression in `text` that
begin at position `i`.  `^` and `$` match at the beginning and at the end of
the text, and `.` matches every character but the newline, as in Go without
flags. -/
def Regex.ends (text : Str) : Regex → Nat → List Nat
  | .empty, i => [i]
  | .lit c, i => if text.get? i = some c then [i + 1] else []
  | .any, i =>
    match text.get? i with
    | some c => if c = '\n' then [] else [i + 1]
    | none => []
  | .cls neg ranges, i =>
    match text.get? i with
    | some c =>
      if (ranges.any (fun r => decide (r.1 ≤ c ∧ c ≤ r.2))) != neg then [i + 1] else []
    | none => []
  | .bot, i => if i = 0 then [i] else []
  | .eot, i => if i = text.length then [i] else []
  | .cat a b, i => ((a.ends text i).flatMap (fun j => b.ends text j)).dedup
  | .alt a b, i => (a.ends text i ++ b.ends text i).dedup
  | .star a, i => Regex.closure (fun j => a.ends text j) (text.length + 1) [i]

/-- Whether `text` contains a match of the regular expression. -/
def Regex.matchString (r : Regex) (text : Str) : Bool :=
  (List.range (text.length + 1)).any (fun i => !(r.ends text i).isEmpty)

/-- What a repetition operator would apply to. -/
inductive Regex.Last where
  | nothing
  | atom
  | repeated
  | lazy
  deriving Repr, DecidableEq

/-- A group being read: its finished alternatives, the items of the current
alternative (last one first), and what the last item is. -/
structure Regex.Frame where
  alts : List Regex
  seq : List Regex
  last : Regex.Last
  deriving Repr

/-- Where the reader of a pattern is. -/
inductive Regex.Mode where
  | normal
  | escape
  | groupOpen
  | clsOpen
  | clsOpenNeg
  | clsBody (neg : Bool) (raw : List Char)
  deriving Repr

/-- Whether the reader has just read the `(` of a group. -/
def Regex.Mode.isGroupOpen : Regex.Mode → Bool
  | .groupOpen => true
  | _ => false

/-- The concatenation of the items of an alternative. -/
def Regex.ofSeq (seq : List Regex) : Regex :=
  seq.foldl (fun acc r => Regex.cat r acc) Regex.empty

/-- The regular expression of a group that has been read to its end. -/
def Regex.ofFrame (f : Regex.Frame) : Regex :=
  match f.alts with
  | [] => Regex.ofSeq f.seq
  | a :: as => (as ++ [Regex.ofSeq f.seq]).foldl Regex.alt a

/-- The ranges of a bracket expression with the characters `raw` between the
brackets; `none` for a range whose bounds are out of order. -/
def Regex.classRanges : List Char → Option (List (Char × Char))
  | a :: '-' :: b :: rest =>
    if a ≤ b then (Regex.classRanges rest).map (fun rs => (a, b) :: rs) else none
  | a :: rest => (Regex.classRanges rest).map (fun rs => (a, a) :: rs)
  | [] => some []

/-- An item is added to the current alternative. -/
def Regex.Frame.push (f : Regex.Frame) (r : Regex) : Regex.Frame :=
  { f with seq := r :: f.seq, last := .atom }

/-- Reads a pattern character by character.  `stack` holds the enclosing
groups, `cur` the group being read.  The result is `none` for a pattern that
does not compile, and also for a pattern outside the fragment: one with a
counted repetition `{`, a group that begins with `(?`, a backslash before a
letter or digit, or a backslash or `[` inside a bracket expression. -/
def Regex.parseFrom : Str → Regex.Mode → List Regex.Frame → Regex.Frame → Option Regex
  | [], .normal, [], cur => some (Regex.ofFrame cur)
  | [], _, _, _ => none
  | c :: cs, .escape, stack, cur =>
    if c.isAlphanum ∨ 128 ≤ c.toNat then none
    else Regex.parseFrom cs .normal stack (cur.push (.lit c))
  | c :: cs, .clsOpen, stack, cur =>
    if c = '^' then Regex.parseFrom cs .clsOpenNeg stack cur
    else if c = '\\' ∨ c = '[' then none
    else Regex.parseFrom cs (.clsBody false [c]) stack cur
  | c :: cs, .clsOpenNeg, stack, cur =>
    if c = '\\' ∨ c = '[' then none
    else Regex.parseFrom cs (.clsBody true [c]) stack cur
  | c :: cs, .clsBody neg raw, stack, cur =>
    if c = ']' then
      match Regex.classRanges raw.reverse with
      | some ranges => Regex.parseFrom cs .normal stack (cur.push (.cls neg ranges))
      | none => none
    else if c = '\\' ∨ c = '[' then none
    else Regex.parseFrom cs (.clsBody neg (c :: raw)) stack cur
  | c :: cs, mode, stack, cur =>
    if c = '?' ∧ mode.isGroupOpen = true then none
    else if c = '\\' then Regex.parseFrom cs .escape stack cur
    else if c = '[' then Regex.parseFrom cs .clsOpen stack cur
    else if c = '{' then none
    else if c = '(' then
      Regex.parseFrom cs .groupOpen (cur :: stack) { alts := [], seq := [], last := .nothing }
    else if c = ')' then
      match stack with
      | [] => none
      | outer :: stack => Regex.parseFrom cs .normal stack (outer.push (Regex.ofFrame cur))
    else if c = '|' then
      Regex.parseFrom cs .normal stack
        { alts := cur.alts ++ [Regex.ofSeq cur.seq], seq := [], last := .nothing }
    else if c = '*' ∨ c = '+' ∨ c = '?' then
      match cur.last, cur.seq with
      | .atom, r :: seq =>
        let r :=
          if c = '*' then Regex.star r
          else if c = '+' then Regex.cat r (Regex.star r)
          else Regex.alt r Regex.empty
        Regex.parseFrom cs .normal stack { cur with seq := r :: seq, last := .repeated }
      | .repeated, _ =>
        if c = '?' then Regex.parseFrom cs .normal stack { cur with last := .lazy }
        else none
      | _, _ => none
    else if c = '.' then Regex.parseFrom cs .normal stack (cur.push .any)
    else if c = '^' then Regex.parseFrom cs .normal stack (cur.push .bot)
    else if c = '$' then Regex.parseFrom cs .normal stack (cur.push .eot)
    else Regex.parseFrom cs .normal stack (cur.push (.lit c))

/-- The regular expression a pattern of the fragment denotes. -/
def Regex.parse (pattern : Str) : Option Regex :=
  Regex.parseFrom pattern .normal [] { alts := [], seq := [], last := .nothing }

/-- Package `regexp` on the fragment of its syntax that `Regex.parse` reads:
literals, `.`, `^`, `$`, bracket expressions of characters and ranges,
groups, `|`, `*`, `+`, `?` and escaped punctuation. -/
def goRegexp : Regexp :=
  { MatchString := fun pattern s => (Regex.parse pattern).map (fun r => r.matchString s) }

/-! ## Packages missing from the sources, as far as the plugins use them -/

/-- Modelled from the spec: `Gvk.IsSelected` of the missing package `pkg/gvk`,
the selection equality: "an empty field in the selector matches any value of
that field on the target". -/
def Gvk.IsSelected (x selector : Gvk) : Bool :=
  (selector.Group = [] || x.Group = selector.Group) &&
  (selector.Version = [] || x.Version = selector.Version) &&
  (selector.Kind = [] || x.Kind = selector.Kind)

/-- `ResId.IsSelected`, promoted from the embedded `gvk.Gvk`. -/
def ResId.IsSelected (id : ResId) (selector : Kustomize.Gvk) : Bool :=
  id.Gvk.IsSelected selector

/-- Modelled from the spec: the type `config.FieldSpec` of the missing package
`pkg/transformers/config`, "a (Gvk selector, JSON-style path,
create-if-not-present flag) tuple". -/
structure FieldSpec where
  Gvk : Gvk
  Path : Str
  CreateIfNotPresent : Bool
  deriving Repr

/-- Modelled from the spec: the type `image.Image` of the missing package
`pkg/image`, the configuration `{name, newName, newTag, digest}`. -/
structure Image where
  Name : Str
  NewName : Str
  NewTag : Str
  Digest : Str
  deriving Repr

/-- Modelled from the spec: the type `resource.Resource` of the missing
package `pkg/resource`, as far as the plugins read it: the structured
content `Map()`, the original id `OrgId()` and the flag `NeedHashSuffix()`. -/
structure Resource where
  Map : Object
  OrgId : ResId
  NeedHashSuffix : Bool
  deriving Repr

/-- How a call that works on an object in place ends: it returns, with an
error or without, and leaves the object in the state `a`; or it panics. -/
inductive Walk (α : Type) where
  | done (a : α) (err : Option Str)
  | panic (msg : Str)
  deriving Repr

/-- The state `x` of an earlier element is put in front of the state a walk
leaves the rest of a list in. -/
def Walk.cons {α : Type} (x : α) : Walk (List α) → Walk (List α)
  | .done l err => .done (x :: l) err
  | .panic msg => .panic msg

/-- Functions of missing packages that the plugins call and the spec does not
determine: `FieldSpec.PathSlice` and `transformers.MutateField`, which
applies a function at a path of an object, in place. -/
structure TransformerOps where
  PathSlice : FieldSpec → List Str
  MutateField : Object → List Str → Bool → (Value → Result Value) → Walk Object

/-! ## `plugin/builtin/imagetagtransformer/ImageTagTransformer.go` -/

namespace ImageTagTransformer

/-- `type plugin struct` -/
structure plugin where
  ImageTag : Image
  FieldSpecs : List FieldSpec
  deriving Repr

/-- `func isImageMatched(s, t string) bool`.  The error of `regexp.Compile`
is dropped: when the pattern does not compile, `MatchString` is called on a
nil `*Regexp` and panics. -/
def isImageMatched (re : Regexp) (s t : Str) : Result Bool :=
  match re.MatchString ("^".toList ++ t ++ "(@sha256)?(:[a-zA-Z0-9_.-]*)?$".toList) s with
  | some b => .ok b
  | none => .panic "invalid memory address or nil pointer dereference".toList

/-- `func split(imageName string) (name string, tag string)`.  The slices
`imageName[:i]` and `imageName[i:]` panic for a negative `i`. -/
def split (imageName : Str) : Result (Str × Str) :=
  let ic : Int := -1
  let slashIndex := strings.Index imageName "/".toList
  let ic :=
    if slashIndex < 0 then strings.LastIndex imageName ":".toList
    else
      let lastIc := strings.LastIndex (imageName.drop slashIndex.toNat) ":".toList
      if lastIc > 0 then slashIndex + lastIc else ic
  let ia := strings.LastIndex imageName "@".toList
  if ic < 0 ∧ ia < 0 then .ok (imageName, [])
  else
    let i := if ia > 0 then ia else ic
    if i < 0 then .panic "slice bounds out of range".toList
    else .ok (imageName.take i.toNat, imageName.drop i.toNat)

/-- `func (p *plugin) mutateImage(in interface{}) (interface{}, error)` -/
def mutateImage (re : Regexp) (p : plugin) (v : Value) : Result Value :=
  match v with
  | .str original =>
    match isImageMatched re original p.ImageTag.Name with
    | .ok false => .ok (.str original)
    | .ok true =>
      match split original with
      | .ok (name, tag) =>
        let name := if p.ImageTag.NewName ≠ [] then p.ImageTag.NewName else name
        let tag := if p.ImageTag.NewTag ≠ [] then ":".toList ++ p.ImageTag.NewTag else tag
        let tag := if p.ImageTag.Digest ≠ [] then "@".toList ++ p.ImageTag.Digest else tag
        .ok (.str (name ++ tag))
      | .err msg => .err msg
      | .panic msg => .panic msg
    | .err msg => .err msg
    | .panic msg => .panic msg
  | _ => .err ("image path is not of type string but ".toList ++ v.typeName)

/-- The loop of `updateContainers` over the entries of a containers list. -/
def updateContainerList (re : Regexp) (p : plugin) : List Value → Walk (List Value)
  | [] => .done [] none
  | c :: rest =>
    match c with
    | .map container =>
      match Object.get container "image".toList with
      | none => Walk.cons c (updateContainerList re p rest)
      | some (.str imageName) =>
        match isImageMatched re imageName p.ImageTag.Name with
        | .ok true =>
          match mutateImage re p (.str imageName) with
          | .ok newImage =>
            Walk.cons (.map (Object.set container "image".toList newImage))
              (updateContainerList re p rest)
          | .err msg => .done (c :: rest) (some msg)
          | .panic msg => .panic msg
        | .ok false => Walk.cons c (updateContainerList re p rest)
        | .err msg => .panic msg
        | .panic msg => .panic msg
      | some w =>
        .panic ("interface conversion: interface \x7b\x7d is ".toList ++ w.typeName ++
          ", not string".toList)
    | _ =>
      .panic ("interface conversion: interface \x7b\x7d is ".toList ++ c.typeName ++
        ", not map[string]interface \x7b\x7d".toList)

/-- `func (p *plugin) updateContainers(in interface{}) (interface{}, error)`.
The containers are changed in place; the result is the state of `in` after
the call. -/
def updateContainers (re : Regexp) (p : plugin) (v : Value) : Walk Value :=
  match v with
  | .list containers =>
    match updateContainerList re p containers with
    | .done l err => .done (.list l) err
    | .panic msg => .panic msg
  | _ =>
    .done v (some ("containers path is not of type []interface\x7b\x7d but ".toList ++ v.typeName))

/-- One round of the loop of `findAndReplaceImage` over the paths
`containers` and `initContainers`: the state of the object after the round,
the error of `updateContainers` if any, and whether the path was found. -/
def updatePath (re : Regexp) (p : plugin) (obj : Object) (path : Str) :
    Walk Object × Bool :=
  match Object.get obj path with
  | some containers =>
    match updateContainers re p containers with
    | .done v err => (.done (Object.set obj path v) err, true)
    | .panic msg => (.panic msg, true)
  | none => (.done obj none, false)

/-- The body of `findAndReplaceImage`, given what `findContainers` does on
the object (`deep`), which is called when neither path is found. -/
def findAndReplaceImageWith (re : Regexp) (p : plugin) (obj : Object)
    (deep : Walk Object) : Walk Object :=
  match updatePath re p obj "containers".toList with
  | (.done obj₁ none, updated₁) =>
    match updatePath re p obj₁ "initContainers".toList with
    | (.done obj₂ none, updated₂) =>
      if !(updated₁ || updated₂) then deep else .done obj₂ none
    | (w, _) => w
  | (w, _) => w

mutual
/-- The cases of `findContainers` on the value of a key. -/
def findContainersValue (re : Regexp) (p : plugin) : Value → Walk Value
  | .map typedV =>
    match findAndReplaceImageWith re p typedV (findContainers re p typedV) with
    | .done m err => .done (.map m) err
    | .panic msg => .panic msg
  | .list typedV =>
    match findContainersItems re p typedV with
    | .done l err => .done (.list l) err
    | .panic msg => .panic msg
  | v => .done v none
/-- The loop of `findContainers` over the items of a list: the items that
are maps are searched. -/
def findContainersItems (re : Regexp) (p : plugin) : List Value → Walk (List Value)
  | [] => .done [] none
  | item :: rest =>
    match findContainersItem re p item with
    | .done item' none => Walk.cons item' (findContainersItems re p rest)
    | .done item' (some e) => .done (item' :: rest) (some e)
    | .panic msg => .panic msg
/-- One item of a list in `findContainers`. -/
def findContainersItem (re : Regexp) (p : plugin) : Value → Walk Value
  | .map typedItem =>
    match findAndReplaceImageWith re p typedItem (findContainers re p typedItem) with
    | .done m err => .done (.map m) err
    | .panic msg => .panic msg
  | v => .done v none
/-- `func (p *plugin) findContainers(obj map[string]interface{}) error`.  The
keys are visited in the order of the entries; Go leaves the order open. -/
def findContainers (re : Regexp) (p : plugin) : Object → Walk Object
  | [] => .done [] none
  | (key, v) :: rest =>
    match findContainersValue re p v with
    | .done v' none => Walk.cons (key, v') (findContainers re p rest)
    | .done v' (some e) => .done ((key, v') :: rest) (some e)
    | .panic msg => .panic msg
end

/-- `func (p *plugin) findAndReplaceImage(obj map[string]interface{}) error` -/
def findAndReplaceImage (re : Regexp) (p : plugin) (obj : Object) : Walk Object :=
  findAndReplaceImageWith re p obj (findContainers re p obj)

/-- The loop of `Transform` over the field specs, for one resource. -/
def mutateFields (re : Regexp) (ops : TransformerOps) (p : plugin) :
    List FieldSpec → Resource → Walk Resource
  | [], r => .done r none
  | path :: rest, r =>
    if !r.OrgId.IsSelected path.Gvk then mutateFields re ops p rest r
    else
      match ops.MutateField r.Map (ops.PathSlice path) false (mutateImage re p) with
      | .done m none => mutateFields re ops p rest { r with Map := m }
      | .done m (some e) => .done { r with Map := m } (some e)
      | .panic msg => .panic msg

/-- The body of the loop of `Transform` over the resources. -/
def transformResource (re : Regexp) (ops : TransformerOps) (p : plugin)
    (r : Resource) : Walk Resource :=
  match mutateFields re ops p p.FieldSpecs r with
  | .done r₁ none =>
    match findAndReplaceImage re p r₁.Map with
    | .done m err =>
      if err.isSome ∧ r₁.OrgId.Gvk.Kind ≠ "CustomResourceDefinition".toList then
        .done { r₁ with Map := m } err
      else .done { r₁ with Map := m } none
    | .panic msg => .panic msg
  | w => w

/-- `func (p *plugin) Transform(m resmap.ResMap) error`, on the resources of
the map in their order. -/
def Transform (re : Regexp) (ops : TransformerOps) (p : plugin) :
    List Resource → Walk (List Resource)
  | [] => .done [] none
  | r :: rest =>
    match transformResource re ops p r with
    | .done r' none => Walk.cons r' (Transform re ops p rest)
    | .done r' (some e) => .done (r' :: rest) (some e)
    | .panic msg => .panic msg

end ImageTagTransformer

/-- A sample of the functions of the missing packages, for configurations
without field specs: `PathSlice` splits the path at the slashes and
`MutateField` leaves the object as it is. -/
def noFieldOps : TransformerOps :=
  { PathSlice := fun fs => strings.Split fs.Path '/'
    MutateField := fun obj _ _ _ => .done obj none }

/-! ## Paths the walk of `findAndReplaceImage` takes -/

/-- A step of the walk from a mapping to a mapping below it: to the mapping at
a key, or to an item of the list at a key. -/
inductive Step where
  | key (k : Str)
  | item (k : Str) (i : Nat)
  deriving Repr

/-- The mapping a step leads to. -/
def Object.descend (obj : Object) : Step → Option Object
  | .key k =>
    match Object.get obj k with
    | some (.map m) => some m
    | _ => none
  | .item k i =>
    match Object.get obj k with
    | some (.list l) =>
      match l.get? i with
      | some (.map m) => some m
      | _ => none
    | _ => none

/-- Whether a mapping has the key `containers` or the key `initContainers`. -/
def Object.holdsContainers (obj : Object) : Bool :=
  (Object.get obj "containers".toList).isSome || (Object.get obj "initContainers".toList).isSome

/-- The mapping at the end of a path on which no mapping before the end has
the key `containers` or `initContainers`. -/
def Object.walkTo : Object → List Step → Option Object
  | obj, [] => some obj
  | obj, s :: path =>
    if Object.holdsContainers obj then none
    else
      match Object.descend obj s with
      | some m => Object.walkTo m path
      | none => none

namespace ImageTagTransformer

/-- What a successful `updateContainers` loop does to the entries. -/
def EntryRewritten (re : Regexp) (p : plugin) (x x' : Value) : Prop :=
  ∃ e, x = .map e ∧
    ((Object.get e "image".toList = none ∧ x' = x) ∨
      ∃ s v, Object.get e "image".toList = some (.str s) ∧
        mutateImage re p (.str s) = .ok v ∧
        x' = .map (Object.set e "image".toList v))

/-- The resource of kind `CustomResourceDefinition` of the examples: the
`containers` of its schema is a mapping, not a list. -/
def sampleCrd : Resource :=
  { Map := [("kind".toList, .str "CustomResourceDefinition".toList),
            ("spec".toList, .map [("properties".toList,
              .map [("containers".toList, .map [("type".toList, .str "array".toList)])])])],
    OrgId := { Gvk := { Group := [], Version := "v1".toList,
                        Kind := "CustomResourceDefinition".toList },
               Name := "crd".toList, Namespace := [] },
    NeedHashSuffix := false }

/-- A resource of kind `CustomResourceDefinition` with a well-formed
`containers` list. -/
def sampleCrdWithContainers : Resource :=
  { Map := [("kind".toList, .str "CustomResourceDefinition".toList),
            ("containers".toList, .list [.map [("image".toList, .str "nginx".toList)]])],
    OrgId := { Gvk := { Group := [], Version := "v1".toList,
                        Kind := "CustomResourceDefinition".toList },
               Name := "crd".toList, Namespace := [] },
    NeedHashSuffix := false }

/-- The configuration of the examples: images named `nginx` get the tag
`v2`. -/
def sampleTagPlugin : plugin :=
  { ImageTag := { Name := "nginx".toList, NewName := [], NewTag := "v2".toList, Digest := [] },
    FieldSpecs := [] }

/-- A tree with a `containers` list at the root and another one below the
key `other`. -/
def sampleNested : Object :=
  [("containers".toList, .list []),
   ("other".toList, .map [("containers".toList,
      .list [.map [("image".toList, .str "nginx".toList)]])])]

/-- A tree with a `containers` list below the key `spec`. -/
def samplePod : Object :=
  [("spec".toList, .map [("containers".toList,
      .list [.map [("name".toList, .str "web".toList),
                   ("image".toList, .str "nginx".toList)]])])]

end ImageTagTransformer

/-- Functions of the missing packages `pkg/resource` and `pkg/resmap` that the
plugins call and the spec does not determine: the current id `CurId()` of a
resource, its `GetName()` and `SetName(n)`, what `%#v` prints for a list of
resources, and what `ResMap.Append` does with a resource whose current id is
already in the map (it fails, replaces or merges, by the behavior of the
resource). -/
structure ResourceOps where
  CurId : Resource → ResId
  GetName : Resource → Str
  SetName : Resource → Str → Resource
  GoString : List Resource → Str
  AppendDuplicate : List Resource → Resource → List Resource

/-! ## `plugin/builtin/namespacetransformer/NamespaceTransformer.go` -/

namespace NamespaceTransformer

/-- `type plugin struct`; `Namespace` is the field of the embedded
`types.ObjectMeta`. -/
structure plugin where
  Namespace : Str
  FieldSpecs : List FieldSpec
  deriving Repr

def metaNamespace : Str := "metadata/namespace".toList

/-- `func (p *plugin) applicableFieldSpecs(id resid.ResId) []config.FieldSpec`:
the loop that appends to `res`, begun with the field specs `fss` and the
result `res` so far. -/
def applicableFieldSpecsFrom (ops : GvkOps) (id : ResId) :
    List FieldSpec → List FieldSpec → List FieldSpec
  | [], res => res
  | fs :: fss, res =>
    if id.IsSelected fs.Gvk ∧
        (fs.Path ≠ metaNamespace ∨ (fs.Path = metaNamespace ∧ id.IsNamespaceableKind ops = true))
    then applicableFieldSpecsFrom ops id fss (res ++ [fs])
    else applicableFieldSpecsFrom ops id fss res

/-- `func (p *plugin) applicableFieldSpecs(id resid.ResId) []config.FieldSpec` -/
def applicableFieldSpecs (ops : GvkOps) (p : plugin) (id : ResId) : List FieldSpec :=
  applicableFieldSpecsFrom ops id p.FieldSpecs []

/-- The body of the loop of `changeNamespace` over the items of a list: what
the item at an index is after the round. -/
def changeNamespaceItem (o : plugin) (item : Value) : Value :=
  match item with
  | .map inMap =>
    match Object.get inMap "name".toList with
    | none => item
    | some (.str name) =>
      if name ≠ "default".toList then item
      else .map (Object.set inMap "namespace".toList (.str o.Namespace))
    | some _ => item
  | _ => item

/-- The function that `func (o *plugin) changeNamespace(referrer
*resource.Resource)` returns.  A list is changed in place; the result is the
list after the call. -/
def changeNamespace (o : plugin) (_referrer : Resource) (v : Value) : Result Value :=
  match v with
  | .str _ => .ok (.str o.Namespace)
  | .list l => .ok (.list (l.map (changeNamespaceItem o)))
  | .map inMap => if inMap.length = 0 then .ok (.str o.Namespace) else .ok v
  | _ => .ok v

/-- The loop of `Transform` over the applicable field specs, for one
resource. -/
def mutateFields (tops : TransformerOps) (o : plugin) :
    List FieldSpec → Resource → Walk Resource
  | [], r => .done r none
  | fs :: rest, r =>
    match tops.MutateField r.Map (tops.PathSlice fs) fs.CreateIfNotPresent
        (changeNamespace o r) with
    | .done m none => mutateFields tops o rest { r with Map := m }
    | .done m (some e) => .done { r with Map := m } (some e)
    | .panic msg => .panic msg

/-- Modelled from the spec: `ResMap.GetMatchingResourcesByCurrentId` of the
missing package `pkg/resmap`, which "returns all matches without ambiguity
failure": the resources whose current id the matcher accepts, in the order
of the map. -/
def GetMatchingResourcesByCurrentId (rops : ResourceOps) (m : List Resource)
    (matcher : ResId → Bool) : List Resource :=
  m.filter (fun r => matcher (rops.CurId r))

/-- The loop of `Transform` over the resources of the map: `seen` are the
resources the loop is through with, in the state it left them in. -/
def transformFrom (gops : GvkOps) (tops : TransformerOps) (rops : ResourceOps)
    (p : plugin) : List Resource → List Resource → Walk (List Resource)
  | seen, [] => .done seen none
  | seen, r :: rest =>
    if r.Map.length = 0 then transformFrom gops tops rops p (seen ++ [r]) rest
    else
      let id := r.OrgId
      let applicableFs := applicableFieldSpecs gops p id
      match mutateFields tops p applicableFs r with
      | .done r' none =>
        let found := GetMatchingResourcesByCurrentId rops (seen ++ r' :: rest)
          ((rops.CurId r').Equals gops)
        if found.length ≠ 1 then
          .done (seen ++ r' :: rest)
            (some ("namespace tranformation produces ID conflict: ".toList ++
              rops.GoString found))
        else transformFrom gops tops rops p (seen ++ [r']) rest
      | .done r' (some e) => .done (seen ++ r' :: rest) (some e)
      | .panic msg => .panic msg

/-- `func (p *plugin) Transform(m resmap.ResMap) error` -/
def Transform (gops : GvkOps) (tops : TransformerOps) (rops : ResourceOps)
    (p : plugin) (m : List Resource) : Walk (List Resource) :=
  if p.Namespace.length = 0 then .done m none
  else transformFrom gops tops rops p [] m

end NamespaceTransformer

/-! ## `plugin/builtin/hashtransformer/HashTransformer.go` -/

namespace HashTransformer

/-- `type plugin struct`; the hasher is its method `Hash`. -/
structure plugin where
  hasher : Resource → Result Str

/-- `func (p *plugin) Transform(m resmap.ResMap) error` -/
def Transform (rops : ResourceOps) (p : plugin) : List Resource → Walk (List Resource)
  | [] => .done [] none
  | res :: rest =>
    if res.NeedHashSuffix then
      match p.hasher res with
      | .ok h =>
        Walk.cons (rops.SetName res (rops.GetName res ++ "-".toList ++ h))
          (Transform rops p rest)
      | .err e => .done (res :: rest) (some e)
      | .panic msg => .panic msg
    else Walk.cons res (Transform rops p rest)

end HashTransformer

/-! ## `plugin/builtin/legacyordertransformer/LegacyOrderTransformer.go` -/

namespace LegacyOrderTransformer

/-- Modelled from the spec: the part of the missing package `pkg/resmap` that
sorts and finds by id.  `Less` is the order of `resmap.IdSlice` ("sort all
resources by the Gvk order, with ties broken by name"), `SortIds` is what
`sort.Sort` makes of a slice of ids with it, and `Matches id x` says whether
a lookup by `id` finds a resource whose current id is `x`. -/
structure IdOps where
  Less : ResId → ResId → Bool
  SortIds : List ResId → List ResId
  Matches : ResId → ResId → Bool

/-- Modelled from the spec: `ResMap.AllIds` of the missing package
`pkg/resmap`, the current ids of the resources in the order of the map. -/
def AllIds (rops : ResourceOps) (m : List Resource) : List ResId :=
  m.map rops.CurId

/-- Modelled from the spec: `ResMap.GetByCurrentId` of the missing package
`pkg/resmap`, which "returns the unique match or fails" when there is none or
more than one. -/
def GetByCurrentId (rops : ResourceOps) (iops : IdOps) (m : List Resource) (id : ResId) :
    Result Resource :=
  match m.filter (fun r => iops.Matches id (rops.CurId r)) with
  | [r] => .ok r
  | [] => .err "no matches for Id".toList
  | _ => .err "multiple matches for Id; unable to disambiguate".toList

/-- Modelled from the spec: `ResMap.Append` of the missing package
`pkg/resmap`, which adds the resource at the end of the map and "fails on
duplicate current id unless `r` has a non-default behavior". -/
def Append (rops : ResourceOps) (iops : IdOps) (m : List Resource) (r : Resource) :
    List Resource :=
  if m.any (fun x => iops.Matches (rops.CurId r) (rops.CurId x)) then rops.AppendDuplicate m r
  else m ++ [r]

/-- The first loop of `Transform`: the resources of the ids, or the first
error of `GetByCurrentId`. -/
def lookupAll (rops : ResourceOps) (iops : IdOps) (m : List Resource) :
    List ResId → Result (List Resource)
  | [] => .ok []
  | id :: ids =>
    match GetByCurrentId rops iops m id with
    | .ok r =>
      match lookupAll rops iops m ids with
      | .ok rs => .ok (r :: rs)
      | .err e => .err e
      | .panic msg => .panic msg
    | .err e => .err e
    | .panic msg => .panic msg

/-- `func (p *plugin) Transform(m resmap.ResMap) (err error)` -/
def Transform (rops : ResourceOps) (iops : IdOps) (m : List Resource) :
    Walk (List Resource) :=
  let ids := iops.SortIds (AllIds rops m)
  match lookupAll rops iops m ids with
  | .ok resources => .done (resources.foldl (Append rops iops) []) none
  | .err e => .done m (some ("expected match for sorting: ".toList ++ e))
  | .panic msg => .panic msg

end LegacyOrderTransformer

/-! ## Sample resources and sample functions of the missing packages -/

/-- A sample of `ResourceOps`: the current id of a resource is its original
id, its name is the name of that id, `%#v` prints nothing, and `Append`
leaves a map alone that has the id already. -/
def sampleResourceOps : ResourceOps :=
  { CurId := fun r => r.OrgId
    GetName := fun r => r.OrgId.Name
    SetName := fun r n => { r with OrgId := { r.OrgId with Name := n } }
    GoString := fun _ => []
    AppendDuplicate := fun m _ => m }

/-- A resource with the given kind, name and namespace and some content. -/
def sampleResource (kind name ns : String) (needHash : Bool) : Resource :=
  { Map := [("kind".toList, .str kind.toList)],
    OrgId := { Gvk := { Group := [], Version := "v1".toList, Kind := kind.toList },
               Name := name.toList, Namespace := ns.toList },
    NeedHashSuffix := needHash }

/-- A sample order of kinds, to evaluate the definitions with: the kinds of
`TestLegacyOrderTransformer` in the order the test expects them.  The order
of kinds of the missing package `pkg/gvk` is not among the sources and the
spec names three of its kinds only; nothing is proved of it. -/
def sampleKindOrder : List Str :=
  ["Namespace".toList, "Role".toList, "ConfigMap".toList, "Secret".toList,
   "Service".toList, "LimitRange".toList, "Deployment".toList, "Ingress".toList,
   "ValidatingWebhookConfiguration".toList]

/-- The place of the kind of an id in `sampleKindOrder`. -/
def sampleRank (id : ResId) : Nat :=
  sampleKindOrder.indexOf id.Gvk.Kind

/-- A sample of `IdOps`: ids are ordered by the place of their kind in
`sampleKindOrder`, sorted by insertion, and matched by `Equals`. -/
def sampleIdOps : LegacyOrderTransformer.IdOps :=
  { Less := fun a b => decide (sampleRank a < sampleRank b)
    SortIds := List.insertionSort (fun a b => sampleRank a ≤ sampleRank b)
    Matches := fun a b => a.Equals kindOps b }

namespace LegacyOrderTransformer

/-- The resources of scenario S5 and of `TestLegacyOrderTransformer`, as the
test puts them in. -/
def sampleInput : List Resource :=
  [sampleResource "Service" "papaya" "" false,
   sampleResource "Role" "banana" "" false,
   sampleResource "ValidatingWebhookConfiguration" "pomegranate" "" false,
   sampleResource "LimitRange" "peach" "" false,
   sampleResource "Deployment" "pear" "" false,
   sampleResource "Namespace" "apple" "" false,
   sampleResource "Secret" "quince" "" false,
   sampleResource "Ingress" "durian" "" false,
   sampleResource "ConfigMap" "apricot" "" false]

/-- The resources of scenario S5 and of `TestLegacyOrderTransformer`, as the
test expects them. -/
def sampleExpected : List Resource :=
  [sampleResource "Namespace" "apple" "" false,
   sampleResource "Role" "banana" "" false,
   sampleResource "ConfigMap" "apricot" "" false,
   sampleResource "Secret" "quince" "" false,
   sampleResource "Service" "papaya" "" false,
   sampleResource "LimitRange" "peach" "" false,
   sampleResource "Deployment" "pear" "" false,
   sampleResource "Ingress" "durian" "" false,
   sampleResource "ValidatingWebhookConfiguration" "pomegranate" "" false]

end LegacyOrderTransformer

/-! ## `plugin/builtin/patchjson6902transformer/PatchJson6902Transformer.go` -/

namespace PatchJson6902Transformer

/-- Modelled from the spec: the type `types.PatchTarget` of the missing
package `pkg/types`, the `target` of the input `{target, path|jsonOp}`, with
the fields `Config` and `Transform` read. -/
structure PatchTarget where
  Group : Str
  Version : Str
  Kind : Str
  Name : Str
  Namespace : Str
  deriving Repr, DecidableEq

/-- `type plugin struct`.  A `jsonpatch.Patch` is a slice of operations, each
a JSON object; the loader `ldr` is the state the calls of `Config` pass
on. -/
structure plugin where
  decodedPatch : List Object
  Target : PatchTarget
  Path : Str
  JsonOp : Str
  deriving Repr

/-- The functions of other packages that `Config` calls: `Load` of the
`ifc.Loader`, which works on the state `σ` of the loader and of the files
behind it, `Unmarshal` and `YAMLToJSON` of `sigs.k8s.io/yaml` and
`DecodePatch` of `github.com/evanphx/json-patch`. -/
structure ConfigOps (σ : Type) where
  Load : σ → Str → Result Str × σ
  Unmarshal : Str → plugin → Walk plugin
  YAMLToJSON : Str → Result Str
  DecodePatch : Str → Result (List Object)

/-- Lines 43 to 55 of `Config`: with a path, the patch is read from the file
of that path. -/
def loadPatch {σ : Type} (ops : ConfigOps σ) (ldr : σ) (p : plugin) : Walk plugin × σ :=
  if p.Path ≠ [] then
    if p.JsonOp ≠ [] then
      (.done p (some "must specify a file path or jsonOp, not both".toList), ldr)
    else
      match ops.Load ldr p.Path with
      | (.ok rawOp, ldr') =>
        let p := { p with JsonOp := rawOp }
        if p.JsonOp = [] then
          (.done p (some ("patch file '".toList ++ p.Path ++
            "' empty seems to be empty".toList)), ldr')
        else (.done p none, ldr')
      | (.err e, ldr') => (.done p (some e), ldr')
      | (.panic msg, ldr') => (.panic msg, ldr')
  else (.done p none, ldr)

/-- Lines 56 to 64 of `Config`: a patch that does not begin with `[` is
taken for YAML and converted. -/
def toJson {σ : Type} (ops : ConfigOps σ) (p : plugin) : Walk plugin :=
  match p.JsonOp with
  | [] => .panic "index out of range [0] with length 0".toList
  | c :: _ =>
    if c ≠ '[' then
      match ops.YAMLToJSON p.JsonOp with
      | .ok op => .done { p with JsonOp := op } none
      | .err e => .done p (some e)
      | .panic msg => .panic msg
    else .done p none

/-- Lines 65 to 73 of `Config`: the patch is decoded, and a patch without
operations is an error.  `DecodePatch` returns a nil patch with an error. -/
def decode {σ : Type} (ops : ConfigOps σ) (p : plugin) : Walk plugin :=
  match ops.DecodePatch p.JsonOp with
  | .ok patch =>
    let p := { p with decodedPatch := patch }
    if p.decodedPatch.length = 0 then
      .done p (some ("patch appears to be empty; file=".toList ++ p.Path ++
        ", JsonOp=".toList ++ p.JsonOp))
    else .done p none
  | .err e =>
    .done { p with decodedPatch := [] }
      (some ("decoding ".toList ++ p.JsonOp ++ ": ".toList ++ e))
  | .panic msg => .panic msg

/-- `func (p *plugin) Config(ldr ifc.Loader, rf *resmap.Factory, c []byte)
(err error)`: the plugin as `Config` leaves it, the error it returns, and the
state of the loader after the call. -/
def Config {σ : Type} (ops : ConfigOps σ) (ldr : σ) (p : plugin) (c : Str) :
    Walk plugin × σ :=
  match ops.Unmarshal c p with
  | .done p (some e) => (.done p (some e), ldr)
  | .panic msg => (.panic msg, ldr)
  | .done p none =>
    if p.Target.Name = [] then
      (.done p (some "must specify the target name".toList), ldr)
    else if p.Path = [] ∧ p.JsonOp = [] then
      (.done p (some "empty file path and empty jsonOp".toList), ldr)
    else
      match loadPatch ops ldr p with
      | (.done p none, ldr') =>
        match toJson ops p with
        | .done p none => (decode ops p, ldr')
        | other => (other, ldr')
      | other => other

/-- The configurations the YAML decoder of `sampleConfigOps` knows, each with
the target, the path and the `jsonOp` it reads in it. -/
def sampleConfigs : List (Str × PatchTarget × Str × Str) :=
  [("target: \x7bname: myDeploy\x7d, jsonOp: '[]'".toList,
      { Group := [], Version := [], Kind := [], Name := "myDeploy".toList, Namespace := [] },
      [], "[]".toList),
   ("target: \x7bname: myDeploy\x7d, path: patch.json".toList,
      { Group := [], Version := [], Kind := [], Name := "myDeploy".toList, Namespace := [] },
      "patch.json".toList, []),
   ("target: \x7bname: myDeploy\x7d, path: patch.json, jsonOp: '[]'".toList,
      { Group := [], Version := [], Kind := [], Name := "myDeploy".toList, Namespace := [] },
      "patch.json".toList, "[]".toList),
   ("target: \x7bname: myDeploy\x7d".toList,
      { Group := [], Version := [], Kind := [], Name := "myDeploy".toList, Namespace := [] },
      [], []),
   ("path: patch.json".toList,
      { Group := [], Version := [], Kind := [], Name := [], Namespace := [] },
      "patch.json".toList, [])]

/-- The patch in the file `patch.json` of `sampleConfigOps`. -/
def samplePatchText : Str :=
  "[\x7b\"op\": \"remove\", \"path\": \"/spec/replicas\"\x7d]".toList

/-- A sample of the functions `Config` calls.  The state of the loader is the
list of the paths it was asked for; it knows the file `patch.json`.  The YAML
decoder knows the configurations of `sampleConfigs`, and the patch decoder
knows the patch without operations and the patch of `patch.json`. -/
def sampleConfigOps : ConfigOps (List Str) :=
  { Load := fun loaded path =>
      (if path = "patch.json".toList then .ok samplePatchText
       else .err ("cannot read file ".toList ++ path), loaded ++ [path])
    Unmarshal := fun c p =>
      match sampleConfigs.lookup c with
      | some (target, path, jsonOp) =>
        .done { p with Target := target, Path := path, JsonOp := jsonOp } none
      | none => .done p (some "error converting YAML to JSON".toList)
    YAMLToJSON := fun s => .ok s
    DecodePatch := fun s =>
      if s = "[]".toList then .ok []
      else if s = samplePatchText then
        .ok [[("op".toList, .str "remove".toList),
              ("path".toList, .str "/spec/replicas".toList)]]
      else .err "invalid character".toList }

/-- The plugin before `Config`: the zero value of the struct. -/
def zero : plugin :=
  { decodedPatch := [],
    Target := { Group := [], Version := [], Kind := [], Name := [], Namespace := [] },
    Path := [], JsonOp := [] }

end PatchJson6902Transformer

/-! ## `plugin/builtin/inventorytransformer/InventoryTransformer.go` -/

/-- `func NewResIdWithNamespace(k gvk.Gvk, n, ns string) ResId` -/
def NewResIdWithNamespace (k : Gvk) (n ns : Str) : ResId :=
  { Gvk := k, Name := n, Namespace := ns }

namespace InventoryTransformer

/-- Modelled from the spec: `types.GarbageCollect.String()` of the missing
package `pkg/types`, the name of the policy under which "every prior
resource is removed". -/
def GarbageCollect : Str := "GarbageCollect".toList

/-- Modelled from the spec: `types.GarbageIgnore.String()` of the missing
package `pkg/types`, the name of the policy under which the prior resources
stay. -/
def GarbageIgnore : Str := "GarbageIgnore".toList

/-- `type plugin struct`; `Name` and `Namespace` are the fields of the
embedded `types.ObjectMeta`. -/
structure plugin where
  Name : Str
  Namespace : Str
  Policy : Str
  deriving Repr

/-- Modelled from the spec: the type `inventory.Inventory` of the missing
package `pkg/inventory`, which records "all produced ResIds and their
reference edges": the map `Current` from the id of a resource to the ids of
the resources that refer to it, as the list of its entries in the order they
were added. -/
structure Inventory where
  Current : List (ResId × List ResId)
  deriving Repr

/-- `inventory.NewInventory()` -/
def NewInventory : Inventory := { Current := [] }

/-- Functions of missing packages that the plugin calls and the spec does
not determine: `GetGvk`, `GetNamespace` and `GetRefBy` of a resource,
`hasher.SortArrayAndComputeHash`, the key `inventory.HashAnnotation`,
`Inventory.UpdateAnnotations`, which writes the inventory into a map of
annotations, `Factory.MakeConfigMap` for generator options with these
annotations and arguments with a name and a namespace, and what
`ResMap.Append` does and returns for a resource whose current id is already
in the map. -/
structure InventoryOps where
  GetGvk : Resource → Gvk
  GetNamespace : Resource → Str
  GetRefBy : Resource → List ResId
  SortArrayAndComputeHash : List Str → Result Str
  HashAnnotation : Str
  UpdateAnnotations : Inventory → List (Str × Str) → Walk (List (Str × Str))
  MakeConfigMap : List (Str × Str) → Str → Str → Result Resource
  AppendDuplicate : List Resource → Resource → Walk (List Resource)

/-- Modelled from the spec: `ResMap.Remove` of the missing package
`pkg/resmap`, "`Remove(id)` — idempotent": the map without the resources
whose current id is `id`.  The plugin drops what `Remove` returns. -/
def Remove (rops : ResourceOps) (m : List Resource) (id : ResId) : List Resource :=
  m.filter (fun r => decide (rops.CurId r ≠ id))

/-- Modelled from the spec: `ResMap.Append` of the missing package
`pkg/resmap` with the error it returns: the resource is added at the end of
the map, and `Append` "fails on duplicate current id unless `r` has a
non-default behavior". -/
def Append (rops : ResourceOps) (iops : LegacyOrderTransformer.IdOps) (ops : InventoryOps)
    (m : List Resource) (r : Resource) : Walk (List Resource) :=
  if m.any (fun x => iops.Matches (rops.CurId r) (rops.CurId x)) then ops.AppendDuplicate m r
  else .done (m ++ [r]) none

/-- The id `makeInventory` and `computeRefs` make of a resource:
`resid.NewResIdWithNamespace(r.GetGvk(), r.GetName(), r.GetNamespace())`. -/
def item (rops : ResourceOps) (ops : InventoryOps) (r : Resource) : ResId :=
  NewResIdWithNamespace (ops.GetGvk r) (rops.GetName r) (ops.GetNamespace r)

/-- The loop of `computeRefs` over the ids of `r.GetRefBy()`, with the
`refs` found so far. -/
def computeRefsFrom (rops : ResourceOps) (iops : LegacyOrderTransformer.IdOps)
    (ops : InventoryOps) (m : List Resource) : List ResId → List ResId → Result (List ResId)
  | [], refs => .ok refs
  | refid :: rest, refs =>
    match LegacyOrderTransformer.GetByCurrentId rops iops m refid with
    | .ok ref => computeRefsFrom rops iops ops m rest (refs ++ [item rops ops ref])
    | .err e => .err e
    | .panic msg => .panic msg

/-- `func computeRefs(r *resource.Resource, m resmap.ResMap) (refs
[]resid.ResId, err error)` -/
def computeRefs (rops : ResourceOps) (iops : LegacyOrderTransformer.IdOps)
    (ops : InventoryOps) (r : Resource) (m : List Resource) : Result (List ResId) :=
  computeRefsFrom rops iops ops m (ops.GetRefBy r) []

/-- The loop of `makeInventory` over the resources of the map, with the
inventory and the keys so far. -/
def makeInventoryFrom (gops : GvkOps) (rops : ResourceOps)
    (iops : LegacyOrderTransformer.IdOps) (ops : InventoryOps) (m : List Resource) :
    List Resource → Inventory → List Str → Result (Inventory × List Str)
  | [], inv, keys => .ok (inv, keys)
  | r :: rest, inv, keys =>
    let item := item rops ops r
    if inv.Current.any (fun e => decide (e.1 = item)) then
      .err ("item '".toList ++ item.String gops ++ "' already in inventory".toList)
    else
      match computeRefs rops iops ops r m with
      | .ok refs =>
        makeInventoryFrom gops rops iops ops m rest
          { inv with Current := inv.Current ++ [(item, refs)] } (keys ++ [item.String gops])
      | .err e => .err e
      | .panic msg => .panic msg

/-- `func makeInventory(m resmap.ResMap) (inv *inventory.Inventory, hash
string, err error)`, as far as `Transform` reads the result: the inventory
and the hash when there is no error. -/
def makeInventory (gops : GvkOps) (rops : ResourceOps)
    (iops : LegacyOrderTransformer.IdOps) (ops : InventoryOps) (m : List Resource) :
    Result (Inventory × Str) :=
  match makeInventoryFrom gops rops iops ops m m NewInventory [] with
  | .ok (inv, keys) =>
    match ops.SortArrayAndComputeHash keys with
    | .ok h => .ok (inv, h)
    | .err e => .err e
    | .panic msg => .panic msg
  | .err e => .err e
  | .panic msg => .panic msg

/-- `func (p *plugin) Transform(m resmap.ResMap) error` -/
def Transform (gops : GvkOps) (rops : ResourceOps) (iops : LegacyOrderTransformer.IdOps)
    (ops : InventoryOps) (p : plugin) (m : List Resource) : Walk (List Resource) :=
  match makeInventory gops rops iops ops m with
  | .err e => .done m (some e)
  | .panic msg => .panic msg
  | .ok (inv, h) =>
    match ops.UpdateAnnotations inv [( ops.HashAnnotation, h)] with
    | .done _ (some e) => .done m (some e)
    | .panic msg => .panic msg
    | .done annotations none =>
      match ops.MakeConfigMap annotations p.Name p.Namespace with
      | .err e => .done m (some e)
      | .panic msg => .panic msg
      | .ok cm =>
        let m :=
          if p.Policy = GarbageCollect then
            (LegacyOrderTransformer.AllIds rops m).foldl (Remove rops) m
          else m
        Append rops iops ops m cm

/-- A sample of `InventoryOps`: kind and namespace of a resource are those of
its id, no resource is referred to, the hash is the number of keys written in
strokes, the inventory is written into the annotations as the list of the
names it has, the ConfigMap has the annotations as its content, and `Append`
fails on an id that is in the map. -/
def sampleInventoryOps : InventoryOps :=
  { GetGvk := fun r => r.OrgId.Gvk
    GetNamespace := fun r => r.OrgId.Namespace
    GetRefBy := fun _ => []
    SortArrayAndComputeHash := fun keys => .ok (keys.map (fun _ => '|'))
    HashAnnotation := "kustomize.config.k8s.io/InventoryHash".toList
    UpdateAnnotations := fun inv a =>
      .done (a ++ [("kustomize.config.k8s.io/Inventory".toList,
        strings.Join (inv.Current.map (fun e => e.1.Name)) ",".toList)]) none
    MakeConfigMap := fun a name ns =>
      .ok { Map := [("kind".toList, .str "ConfigMap".toList),
                    ("annotations".toList, .map (a.map (fun e => (e.1, Value.str e.2))))],
            OrgId := { Gvk := { Group := [], Version := "v1".toList,
                                Kind := "ConfigMap".toList },
                       Name := name, Namespace := ns },
            NeedHashSuffix := false }
    AppendDuplicate := fun m _ =>
      .done m (some "may not add resource with an already registered id".toList) }

/-- The ConfigMap `sampleInventoryOps` makes for a map with the resources
`pear` and `papaya` and a plugin with the name `inventory` in the namespace
`default`. -/
def sampleConfigMap : Resource :=
  { Map := [("kind".toList, .str "ConfigMap".toList),
            ("annotations".toList,
              .map [("kustomize.config.k8s.io/InventoryHash".toList, .str "||".toList),
                    ("kustomize.config.k8s.io/Inventory".toList, .str "pear,papaya".toList)])],
    OrgId := { Gvk := { Group := [], Version := "v1".toList, Kind := "ConfigMap".toList },
               Name := "inventory".toList, Namespace := "default".toList },
    NeedHashSuffix := false }

end InventoryTransformer

/-! ## `pkg/plugins/config.go` and `pkg/plugins/loader.go` -/

namespace plugins

/-- Modelled from the spec: the type `types.PluginConfig` of the missing
package `pkg/types`, with the two fields `config.go` and `loader.go` use. -/
structure PluginConfig where
  Enabled : Bool
  DirectoryPath : Str
  deriving Repr, DecidableEq

def flagEnablePluginsName : Str := "enable_alpha_plugins".toList

def flagEnablePluginsHelp : Str :=
  ("enable plugins, an alpha feature.\n" ++
   "See https://github.com/kubernetes-sigs/kustomize/blob/master/docs/plugins.md\n").toList

/-- `func DefaultPluginConfig() *types.PluginConfig`; `dir` is the value of
`filepath.Join(pgmconfig.ConfigRoot(), pgmconfig.PluginRoot)`, which depends
on the environment. -/
def DefaultPluginConfig (dir : Str) : PluginConfig :=
  { Enabled := false, DirectoryPath := dir }

/-- `func ActivePluginConfig() *types.PluginConfig` -/
def ActivePluginConfig (dir : Str) : PluginConfig :=
  let pc := DefaultPluginConfig dir
  { pc with Enabled := true }

/-- `func NotEnabledErr(name string) error`: the message, `flagErrorFmt` with
the name, the name of the flag and its help put in. -/
def NotEnabledErr (name : Str) : Str :=
  "\nunable to load plugin ".toList ++ name ++
    " because plugins disabled\nspecify the flag\n  --".toList ++ flagEnablePluginsName ++
    "\nto ".toList ++ flagEnablePluginsHelp

/-- `type Loader struct`, without the factory it passes on. -/
structure Loader where
  pc : PluginConfig
  deriving Repr

/-- What the loader works with: plugins are values of a type `C`, and looking
for a plugin, loading it and configuring it work on a state `σ` of the
process and of the files (the executables, the shared objects, the package
variable `registry`).  `loadPlugin` is `func (l *Loader) loadPlugin(resId
resid.ResId) (Configurable, error)`, which looks for an executable with
`NewExecPlugin(...).isAvailable()` of a file that is not among the sources
and else opens a shared object with `plugin.Open`; `AsYAML` is the method of
the missing package `pkg/resource`; `Config` is the method of the plugin
loaded; `IsGenerator` and `IsTransformer` say whether the type assertions
`c.(transformers.Generator)` and `c.(transformers.Transformer)` hold. -/
structure LoaderOps (σ C : Type) where
  loadPlugin : Loader → σ → ResId → Result C × σ
  AsYAML : Resource → Result Str
  Config : C → σ → Str → Result C × σ
  IsGenerator : C → Bool
  IsTransformer : C → Bool

/-- `func (l *Loader) loadAndConfigurePlugin(ldr ifc.Loader, res
*resource.Resource) (Configurable, error)` -/
def Loader.loadAndConfigurePlugin {σ C : Type} (gops : GvkOps) (ops : LoaderOps σ C)
    (l : Loader) (s : σ) (res : Resource) : Result C × σ :=
  if !l.pc.Enabled then (.err (NotEnabledErr res.OrgId.Gvk.Kind), s)
  else
    match ops.loadPlugin l s res.OrgId with
    | (.ok c, s₁) =>
      match ops.AsYAML res with
      | .ok yaml =>
        match ops.Config c s₁ yaml with
        | (.ok c', s₂) => (.ok c', s₂)
        | (.err e, s₂) =>
          (.err ("plugin ".toList ++ res.OrgId.String gops ++
            " fails configuration: ".toList ++ e), s₂)
        | (.panic msg, s₂) => (.panic msg, s₂)
      | .err e =>
        (.err ("marshalling yaml from res ".toList ++ res.OrgId.String gops ++
          ": ".toList ++ e), s₁)
      | .panic msg => (.panic msg, s₁)
    | (.err e, s₁) => (.err e, s₁)
    | (.panic msg, s₁) => (.panic msg, s₁)

/-- `func (l *Loader) LoadGenerator(ldr ifc.Loader, res *resource.Resource)
(transformers.Generator, error)` -/
def Loader.LoadGenerator {σ C : Type} (gops : GvkOps) (ops : LoaderOps σ C)
    (l : Loader) (s : σ) (res : Resource) : Result C × σ :=
  match l.loadAndConfigurePlugin gops ops s res with
  | (.ok c, s') =>
    if ops.IsGenerator c then (.ok c, s')
    else (.err ("plugin ".toList ++ res.OrgId.String gops ++ " not a generator".toList), s')
  | (.err e, s') => (.err e, s')
  | (.panic msg, s') => (.panic msg, s')

/-- `func (l *Loader) LoadTransformer(ldr ifc.Loader, res *resource.Resource)
(transformers.Transformer, error)` -/
def Loader.LoadTransformer {σ C : Type} (gops : GvkOps) (ops : LoaderOps σ C)
    (l : Loader) (s : σ) (res : Resource) : Result C × σ :=
  match l.loadAndConfigurePlugin gops ops s res with
  | (.ok c, s') =>
    if ops.IsTransformer c then (.ok c, s')
    else (.err ("plugin ".toList ++ res.OrgId.String gops ++ " not a transformer".toList), s')
  | (.err e, s') => (.err e, s')
  | (.panic msg, s') => (.panic msg, s')

/-- A sample of `LoaderOps`: the state is the list of the ids plugins were
looked for, a plugin is the kind it was loaded for, every plugin is there,
takes every configuration and is a transformer and no generator. -/
def sampleLoaderOps : LoaderOps (List ResId) Str :=
  { loadPlugin := fun _ s id => (.ok id.Gvk.Kind, s ++ [id])
    AsYAML := fun r =>
      match Object.get r.Map "kind".toList with
      | some (.str k) => .ok ("kind: ".toList ++ k)
      | _ => .err "no kind".toList
    Config := fun c s _ => (.ok c, s)
    IsGenerator := fun _ => false
    IsTransformer := fun _ => true }

end plugins

/-! ## `pkg/fs/fakefs.go` -/

namespace fs

/-- The type `FakeFile` of `fakefile.go`, which is not among the sources, as
far as `fakefs.go` uses it: the fields `content`, `dir` and `open` (here
`opened`). -/
structure FakeFile where
  content : Str
  dir : Bool
  opened : Bool
  deriving Repr, DecidableEq

/-- `makeDir(name)` of `fakefile.go`, which is not among the sources: the
file `Mkdir` puts in, "a fake directory". -/
def makeDir (_name : Str) : FakeFile :=
  { content := [], dir := true, opened := false }

/-- `func (f *FakeFile) Write(p []byte)` of `fakefile.go`, which is not among
the sources: the file has the bytes written as its content. -/
def FakeFile.Write (f : FakeFile) (p : Str) : FakeFile :=
  { f with content := p }

/-- `type fakeFs struct`: the map `m` as the list of its entries.  A key is
looked up at its first entry. -/
structure fakeFs where
  m : List (Str × FakeFile)
  deriving Repr, DecidableEq

/-- Go `f, found := fs.m[name]`. -/
def fakeFs.get (fs : fakeFs) (name : Str) : Option FakeFile :=
  (fs.m.find? (fun e => decide (e.1 = name))).map Prod.snd

/-- Go `fs.m[name] = f`: the entry of `name` is replaced, or added when the
key is new. -/
def fakeFs.set (fs : fakeFs) (name : Str) (f : FakeFile) : fakeFs :=
  if fs.m.any (fun e => decide (e.1 = name)) then
    { m := fs.m.map (fun e => if e.1 = name then (name, f) else e) }
  else { m := fs.m ++ [(name, f)] }

/-- Go `delete(fs.m, k)`. -/
def fakeFs.delete (fs : fakeFs) (k : Str) : fakeFs :=
  { m := fs.m.filter (fun e => decide (e.1 ≠ k)) }

/-- The keys of the map, which `for k := range fs.m` goes through. -/
def fakeFs.keys (fs : fakeFs) : List Str :=
  fs.m.map Prod.fst

/-- `func (fs *fakeFs) Mkdir(name string) error`: the file system after the
call; the error is nil. -/
def fakeFs.Mkdir (fs : fakeFs) (name : Str) : fakeFs × Option Str :=
  (fs.set name (makeDir name), none)

/-- `func (fs *fakeFs) MkdirAll(name string) error` -/
def fakeFs.MkdirAll (fs : fakeFs) (name : Str) : fakeFs × Option Str :=
  fs.Mkdir name

/-- `func MakeFakeFS() *fakeFs` -/
def MakeFakeFS : fakeFs :=
  (fakeFs.Mkdir { m := [] } "/".toList).1

/-- `func (fs *fakeFs) RemoveAll(name string) error`: the file system after
the call, and the error. -/
def fakeFs.RemoveAll (fs : fakeFs) (name : Str) : fakeFs × Option Str :=
  let toRemove := fs.keys.filter (fun k => strings.HasPrefix k name)
  (toRemove.foldl fakeFs.delete fs, none)

/-- `func (fs *fakeFs) Exists(name string) bool` -/
def fakeFs.Exists (fs : fakeFs) (name : Str) : Bool :=
  (fs.get name).isSome

/-- `func (fs *fakeFs) IsDir(name string) bool` -/
def fakeFs.IsDir (fs : fakeFs) (name : Str) : Bool :=
  let found := fs.get name
  if (match found with | some f => f.dir | none => false) then true
  else
    let name := if !strings.HasSuffix name "/".toList then name ++ "/".toList else name
    fs.keys.any (fun k => strings.HasPrefix k name)

/-- `func (fs *fakeFs) ReadFile(name string) ([]byte, error)` -/
def fakeFs.ReadFile (fs : fakeFs) (name : Str) : Result Str :=
  match fs.get name with
  | some ff => .ok ff.content
  | none => .err ("cannot read file \"".toList ++ name ++ "\"".toList)

/-- `func (fs *fakeFs) WriteFile(name string, c []byte) error`: the file
system after the call, and the error. -/
def fakeFs.WriteFile (fs : fakeFs) (name : Str) (c : Str) : fakeFs × Option Str :=
  let ff : FakeFile := { content := [], dir := false, opened := false }
  let ff := ff.Write c
  (fs.set name ff, none)

/-- A file system with the directory `/foo`, a file in it and a file
`/foobar` next to it. -/
def sampleFs : fakeFs :=
  (((MakeFakeFS.Mkdir "/foo".toList).1.WriteFile "/foo/a.yaml".toList "a: 1".toList).1.WriteFile
    "/foobar".toList "b: 2".toList).1

/-- Whether `k` is the path `name` or a path under the directory `name`: it
goes on after `name` with a slash, or `name` ends with the slash already. -/
def IsAtOrUnder (name k : Str) : Bool :=
  decide (k = name) ||
    (if strings.HasSuffix name "/".toList then name else name ++ "/".toList).isPrefixOf k

end fs

/-! ## The descriptor reader and writer of `pkg/commands/kustfile`

`kustomizationfile.go` and the type `types.Kustomization` are not among the
sources; only `kustomizationfile_test.go` is.  A descriptor is taken as the
YAML document decoded: the mapping of its top-level fields, in the order of
the file. -/

/-- Go `delete(m, key)`. -/
def Object.delete (m : Object) (key : Str) : Object :=
  m.filter (fun e => decide (e.1 ≠ key))

namespace kustfile

/-- Modelled from the spec: `determineFieldOrder()` of the missing file
`kustomizationfile.go`, the "recognized fields (ordered on emit)" of the
descriptor.  `TestFieldOrder` expects the Go names of these fields in this
order. -/
def fieldOrder : List Str :=
  ["apiVersion".toList, "kind".toList, "resources".toList, "bases".toList,
   "namePrefix".toList, "nameSuffix".toList, "namespace".toList, "crds".toList,
   "commonLabels".toList, "commonAnnotations".toList, "patchesStrategicMerge".toList,
   "patchesJson6902".toList, "patches".toList, "configMapGenerator".toList,
   "secretGenerator".toList, "generatorOptions".toList, "vars".toList, "images".toList,
   "replicas".toList, "configurations".toList, "generators".toList, "transformers".toList,
   "inventory".toList]

/-- Modelled from the spec: the default `apiVersion` of the missing package
`pkg/types`, with the value `TestFixPatchesField` expects. -/
def KustomizationVersion : Str := "kustomize.config.k8s.io/v1beta1".toList

/-- Modelled from the spec: the default `kind` of the missing package
`pkg/types`, with the value `TestFixPatchesField` expects. -/
def KustomizationKind : Str := "Kustomization".toList

/-- Modelled from the spec: an entry of the `patches` list is a "bare path"
when it is a string; an entry "that carries a target" is a mapping. -/
def isBarePath : Value → Bool
  | .str _ => true
  | _ => false

/-- The list a field of a descriptor holds; none when the field is absent or
holds no list. -/
def listField (k : Object) (key : Str) : List Value :=
  match Object.get k key with
  | some (.list l) => l
  | _ => []

/-- Modelled from the spec: the loop of the fix-patches-field rule over the
entries of `patches`, with the entries promoted so far and the entries kept
so far: "promote entries in the generic `patches` list into
`patchesStrategicMerge` when they are bare paths, keeping `patches` only for
entries that carry a target". -/
def fixPatchesEntries : List Value → List Value → List Value → List Value × List Value
  | [], promoted, kept => (promoted, kept)
  | e :: es, promoted, kept =>
    if isBarePath e then fixPatchesEntries es (promoted ++ [e]) kept
    else fixPatchesEntries es promoted (kept ++ [e])

/-- Modelled from the spec: the fix-patches-field rule of the missing reader.
When an entry is promoted, the field `patchesStrategicMerge` gets the entries
it had and the promoted ones, and the field `patches` keeps the other
entries and is dropped when none is left. -/
def fixPatchesField (k : Object) : Object :=
  match Object.get k "patches".toList with
  | some (.list entries) =>
    match fixPatchesEntries entries [] [] with
    | ([], _) => k
    | (promoted, kept) =>
      let k := Object.set k "patchesStrategicMerge".toList
        (.list (listField k "patchesStrategicMerge".toList ++ promoted))
      if kept.length = 0 then Object.delete k "patches".toList
      else Object.set k "patches".toList (.list kept)
  | _ => k

/-- Modelled from the spec: "default `apiVersion` and `kind` when
absent". -/
def fixDefaults (k : Object) : Object :=
  let k :=
    if (Object.get k "apiVersion".toList).isNone then
      Object.set k "apiVersion".toList (.str KustomizationVersion)
    else k
  if (Object.get k "kind".toList).isNone then
    Object.set k "kind".toList (.str KustomizationKind)
  else k

/-- Modelled from the spec: the state of the missing type
`kustomizationFile` that the writer needs, the fields the descriptor had
when it was read, in the order of the file. -/
structure kustomizationFile where
  originalFields : List Str
  deriving Repr

/-- Modelled from the spec: `Read` of the missing file
`kustomizationfile.go`, for the document decoded: the fix-patches-field rule
is applied, the fields are noted, and `apiVersion` and `kind` get their
defaults. -/
def Read (data : Object) : kustomizationFile × Object :=
  let fixed := fixPatchesField data
  ({ originalFields := fixed.map Prod.fst }, fixDefaults fixed)

/-- Modelled from the spec: "the writer writes a field only if it is present
in the model". -/
def marshalField (k : Object) (field : Str) : Object :=
  match Object.get k field with
  | some v => [(field, v)]
  | none => []

/-- Modelled from the spec: `Write` of the missing file
`kustomizationfile.go`, as the document it writes: the fields the descriptor
had when it was read stay where they were, and the fields it did not have are
appended "in a documented canonical order". -/
def Write (mf : kustomizationFile) (k : Object) : Object :=
  mf.originalFields.flatMap (marshalField k) ++
    (fieldOrder.filter (fun f => decide (f ∉ mf.originalFields))).flatMap (marshalField k)

/-- The descriptor of `TestFixPatchesField`. -/
def sampleBarePatches : Object :=
  [("patches".toList, .list [.str "patch1.yaml".toList, .str "patch2.yaml".toList])]

/-- The descriptor of `TestFixPatchesFieldForExtendedPatch`. -/
def sampleTargetedPatches : Object :=
  [("patches".toList,
    .list [.map [("path".toList, .str "patch1.yaml".toList),
                 ("target".toList, .map [("kind".toList, .str "Deployment".toList)])],
           .map [("path".toList, .str "patch2.yaml".toList),
                 ("target".toList, .map [("kind".toList, .str "Service".toList)])]])]

end kustfile

/-! ## `plugin/builtin/HashTransformer.go`, generated by pluginator -/

namespace builtin

/-- `type HashTransformerPlugin struct`; the hasher is its method `Hash`. -/
structure HashTransformerPlugin where
  hasher : Resource → Result Str

/-- `func (p *HashTransformerPlugin) Transform(m resmap.ResMap) error` -/
def HashTransformerPlugin.Transform (rops : ResourceOps) (p : HashTransformerPlugin) :
    List Resource → Walk (List Resource)
  | [] => .done [] none
  | res :: rest =>
    if res.NeedHashSuffix then
      match p.hasher res with
      | .ok h =>
        Walk.cons (rops.SetName res (rops.GetName res ++ "-".toList ++ h))
          (HashTransformerPlugin.Transform rops p rest)
      | .err e => .done (res :: rest) (some e)
      | .panic msg => .panic msg
    else Walk.cons res (HashTransformerPlugin.Transform rops p rest)

end builtin

/-! ## `FromString` of `pkg/resid/resid.go` -/

/-- `func FromString(s string) ResId`.  `gvkFromString` is `gvk.FromString`
of the missing package `pkg/gvk`.  The index expressions `values[1]` and
`values[2]` panic when `strings.Split` returns fewer values. -/
def FromString (gvkFromString : Str → Gvk) (s : Str) : Result ResId :=
  match strings.Split s '|' with
  | [] => .panic "index out of range [0] with length 0".toList
  | [_] => .panic "index out of range [1] with length 1".toList
  | [_, _] => .panic "index out of range [2] with length 2".toList
  | v0 :: v1 :: v2 :: _ =>
    let g := gvkFromString v0
    let ns := v1
    let ns := if ns = noNamespace then [] else ns
    let nm := v2
    let nm := if nm = noName then [] else nm
    .ok { Gvk := g, Namespace := ns, Name := nm }

/-- A sample of `gvk.FromString` for `kindOps`, whose `String` joins the
fields with `_`: the fields are the pieces between the underscores. -/
def gvkOfString (s : Str) : Gvk :=
  match strings.Split s '_' with
  | [g, v, k] => { Group := g, Version := v, Kind := k }
  | _ => { Group := [], Version := [], Kind := s }

namespace ImageTagTransformer

/-- The bytes of the bracket expression `[a-zA-Z0-9_.-]` in the pattern of
`isImageMatched`. -/
def isTagChar (c : Char) : Bool :=
  decide (('a' ≤ c ∧ c ≤ 'z') ∨ ('A' ≤ c ∧ c ≤ 'Z') ∨ ('0' ≤ c ∧ c ≤ '9') ∨
    c = '_' ∨ c = '.' ∨ c = '-')

/-- Whether `x` is a string of `(@sha256)?(:[a-zA-Z0-9_.-]*)?`, the end of
the pattern of `isImageMatched`: an optional `@sha256`, then nothing or a
colon and bytes of the bracket expression. -/
def isTagSuffix (x : Str) : Bool :=
  let x := if "@sha256".toList.isPrefixOf x then x.drop "@sha256".toList.length else x
  match x with
  | [] => true
  | c :: t => c = ':' && t.all isTagChar

/-- Whether the whole of `s` is a string of the pattern
`^t(@sha256)?(:[a-zA-Z0-9_.-]*)?$` that `isImageMatched` compiles, for a
name `t` of letters and digits, in which every byte stands for itself. -/
def matchesName (t s : Str) : Bool :=
  t.isPrefixOf s && isTagSuffix (s.drop t.length)

/-- A sample configuration: the image `nginx` gets the name `busybox` and
the tag `v2`. -/
def sampleRename : plugin :=
  { ImageTag := { Name := "nginx".toList, NewName := "busybox".toList,
                  NewTag := "v2".toList, Digest := [] },
    FieldSpecs := [] }

/-- A sample configuration: the image `nginx` is pinned to a digest. -/
def sampleDigest : plugin :=
  { ImageTag := { Name := "nginx".toList, NewName := [], NewTag := "v2".toList,
                  Digest := "sha256:0123abc".toList },
    FieldSpecs := [] }

end ImageTagTransformer

/-! ## Facts about the string operations -/

namespace strings

theorem indexNat_eq_none_iff (sub s : Str) :
    indexNat sub s = none ↔ ¬ sub <:+: s := by
  induction s with
  | nil =>
    cases sub <;> simp [indexNat]
  | cons c cs ih =>
    by_cases hp : sub.isPrefixOf (c :: cs) = true
    · have hp2 : sub <+: c :: cs := List.isPrefixOf_iff_prefix.mp hp
      simp [indexNat, hp, List.infix_cons_iff, hp2]
    · have hp2 : ¬ sub <+: c :: cs := fun h => hp (List.isPrefixOf_iff_prefix.mpr h)
      simp only [indexNat, hp, Bool.false_eq_true, if_false, Option.map_eq_none', ih,
        List.infix_cons_iff, hp2, false_or]

theorem indexNat_of_not_mem (sub s : Str) (c : Char) (hc : c ∈ sub) (hs : c ∉ s) :
    indexNat sub s = none := by
  rw [indexNat_eq_none_iff]
  intro h
  exact hs (h.subset hc)

theorem indexNat_some_spec (sub : Str) :
    ∀ (s : Str) (i : Nat), indexNat sub s = some i →
      (∃ b, s = s.take i ++ sub ++ b) ∧ i ≤ s.length ∧
      ∀ a' b', s = a' ++ sub ++ b' → i ≤ a'.length := by
  intro s
  induction s with
  | nil =>
    intro i h
    cases sub with
    | nil =>
      simp [indexNat] at h
      subst h
      simp
    | cons x xs => simp [indexNat] at h
  | cons c cs ih =>
    intro i h
    by_cases hp : sub.isPrefixOf (c :: cs) = true
    · simp [indexNat, hp] at h
      subst h
      obtain ⟨b, hb⟩ := List.isPrefixOf_iff_prefix.mp hp
      exact ⟨⟨b, by simp [hb]⟩, Nat.zero_le _, fun _ _ _ => Nat.zero_le _⟩
    · simp only [indexNat, hp, Bool.false_eq_true, if_false, Option.map_eq_some'] at h
      obtain ⟨j, hj, rfl⟩ := h
      obtain ⟨⟨b, hb⟩, hle, hmin⟩ := ih j hj
      refine ⟨⟨b, ?_⟩, by simpa using hle, ?_⟩
      · simp only [List.take_succ_cons, List.cons_append]
        exact congrArg _ hb
      · intro a' b' hs
        cases a' with
        | nil =>
          exfalso
          apply hp
          apply List.isPrefixOf_iff_prefix.mpr
          exact ⟨b', by simpa using hs.symm⟩
        | cons x xs =>
          simp only [List.cons_append, List.cons.injEq] at hs
          have := hmin xs b' hs.2
          simpa using this

theorem Index_eq_neg_one_iff (s sub : Str) : Index s sub = -1 ↔ ¬ sub <:+: s := by
  rw [← indexNat_eq_none_iff]
  unfold Index
  cases h : indexNat sub s with
  | none => simp
  | some i =>
    show ((i : Int) = -1 ↔ some i = none)
    constructor
    · intro h
      omega
    · intro h
      cases h

theorem Index_nonneg_iff (s sub : Str) : 0 ≤ Index s sub ↔ sub <:+: s := by
  have h := Index_eq_neg_one_iff s sub
  unfold Index at h ⊢
  cases hi : indexNat sub s with
  | none =>
    simp only [hi, true_iff] at h
    simp [h]
  | some i =>
    simp only [hi] at h
    have : ¬ ((i : Int) = -1) := by omega
    simp only [this, false_iff, not_not] at h
    simp [h]

theorem Contains_iff (s sub : Str) : Contains s sub = true ↔ sub <:+: s := by
  simp [Contains, Index_nonneg_iff]

theorem Contains_eq_false_iff (s sub : Str) : Contains s sub = false ↔ ¬ sub <:+: s := by
  rw [← Contains_iff, Bool.not_eq_true]

theorem Index_of_not_mem (s sub : Str) (c : Char) (hc : c ∈ sub) (hs : c ∉ s) :
    Index s sub = -1 := by
  rw [Index_eq_neg_one_iff]
  intro h
  exact hs (h.subset hc)

theorem indexNat_char_append (a b : Str) (c : Char) (h : c ∉ a) :
    indexNat [c] (a ++ c :: b) = some a.length := by
  induction a with
  | nil => simp [indexNat, List.isPrefixOf]
  | cons x xs ih =>
    have hx : c ≠ x := fun e => h (by simp [e])
    have hxs : c ∉ xs := fun e => h (by simp [e])
    simp [indexNat, List.isPrefixOf, hx, ih hxs]

theorem Index_char_append (a b : Str) (c : Char) (h : c ∉ a) :
    Index (a ++ c :: b) [c] = (a.length : Int) := by
  simp [Index, indexNat_char_append a b c h]

end strings

/-! ## Resource identifiers -/

/-- C1: `Equals` holds exactly when `GvknEquals` holds and the effective
namespaces agree; `GvknEquals` is the conjunction of name equality and
`Gvk.Equals`, and its answer does not depend on the `Namespace` fields. -/
theorem ResId.equals_iff_gvknEquals_and_effectiveNamespace
    (ops : GvkOps) (a b : ResId) :
    (a.Equals ops b = true ↔
      (a.GvknEquals b = true ∧ a.EffectiveNamespace ops = b.EffectiveNamespace ops)) ∧
    (a.GvknEquals b = true ↔ (a.Name = b.Name ∧ a.Gvk.Equals b.Gvk = true)) ∧
    (∀ nsa nsb : Str,
      ResId.GvknEquals { a with Namespace := nsa } { b with Namespace := nsb } =
        a.GvknEquals b) := by
  refine ⟨?_, ?_, ?_⟩
  · simp only [ResId.Equals, ResId.IsNsEquals, Bool.and_eq_true, beq_iff_eq]
    exact And.comm
  · simp only [ResId.GvknEquals, Bool.and_eq_true, beq_iff_eq]
  · intro nsa nsb
    rfl

/-- C2: `EffectiveNamespace` is `"_non_namespaceable_"` for a kind that is
not namespaceable, `"default"` for a namespaceable kind with an empty
`Namespace`, and the stored `Namespace` otherwise. -/
theorem ResId.effectiveNamespace_eq (ops : GvkOps) (id : ResId) :
    id.EffectiveNamespace ops =
      if id.IsNamespaceableKind ops = false then "_non_namespaceable_".toList
      else if id.Namespace = [] then "default".toList
      else id.Namespace := by
  unfold ResId.EffectiveNamespace ResId.isPutativelyDefaultNs
  cases hk : id.IsNamespaceableKind ops
  · rfl
  · by_cases he : id.Namespace = []
    · simp [he, DefaultNamespace]
    · by_cases hd : id.Namespace = DefaultNamespace
      · simp [hd, DefaultNamespace]
      · simp [he, hd]

theorem ResId.effectiveNamespace_of_namespaceable (ops : GvkOps) (id : ResId)
    (hk : ops.IsNamespaceableKind id.Gvk = true) :
    id.EffectiveNamespace ops =
      if id.Namespace = [] then "default".toList else id.Namespace := by
  unfold ResId.EffectiveNamespace ResId.isPutativelyDefaultNs ResId.IsNamespaceableKind
  by_cases he : id.Namespace = []
  · simp [hk, he, DefaultNamespace]
  · by_cases hd : id.Namespace = DefaultNamespace
    · simp [hk, hd, DefaultNamespace]
    · simp [hk, he, hd]

/-- C3: two ids with the same namespaceable Gvk and the same name are
unequal when their namespaces differ and are not both among `""` and
`"default"`, and equal when both namespaces are among `""` and `"default"`. -/
theorem ResId.equals_of_same_gvk_name (ops : GvkOps) (a b : ResId)
    (hg : a.Gvk = b.Gvk) (hk : ops.IsNamespaceableKind a.Gvk = true)
    (hn : a.Name = b.Name) :
    ((a.Namespace ≠ b.Namespace ∧
        ¬ ((a.Namespace = [] ∨ a.Namespace = "default".toList) ∧
           (b.Namespace = [] ∨ b.Namespace = "default".toList))) →
      a.Equals ops b = false) ∧
    (((a.Namespace = [] ∨ a.Namespace = "default".toList) ∧
        (b.Namespace = [] ∨ b.Namespace = "default".toList)) →
      a.Equals ops b = true) := by
  have hkb : ops.IsNamespaceableKind b.Gvk = true := hg ▸ hk
  have hgv : a.GvknEquals b = true := by
    simp [ResId.GvknEquals, Gvk.Equals, hg, hn]
  have ha := ResId.effectiveNamespace_of_namespaceable ops a hk
  have hb := ResId.effectiveNamespace_of_namespaceable ops b hkb
  have he : a.Equals ops b = true ↔
      a.EffectiveNamespace ops = b.EffectiveNamespace ops := by
    simp [ResId.Equals, ResId.IsNsEquals, hgv]
  constructor
  · rintro ⟨hne, hnot⟩
    rw [← Bool.not_eq_true, he, ha, hb]
    intro h
    by_cases h1 : a.Namespace = [] <;> by_cases h2 : b.Namespace = [] <;>
      simp_all
  · rintro ⟨h1, h2⟩
    rw [he, ha, hb]
    rcases h1 with h1 | h1 <;> rcases h2 with h2 | h2 <;> simp [h1, h2]

/-- The two Secrets named `dummy` of `TestNamespacedSecrets`, in namespaces
`default` and `kube-system`, are distinct ids. -/
theorem ResId.equals_of_same_gvk_name_witness :
    ResId.Equals kindOps
      ⟨⟨[], "v1".toList, "Secret".toList⟩, "dummy".toList, "default".toList⟩
      ⟨⟨[], "v1".toList, "Secret".toList⟩, "dummy".toList, "kube-system".toList⟩
      = false :=
  (ResId.equals_of_same_gvk_name kindOps
      ⟨⟨[], "v1".toList, "Secret".toList⟩, "dummy".toList, "default".toList⟩
      ⟨⟨[], "v1".toList, "Secret".toList⟩, "dummy".toList, "kube-system".toList⟩
      rfl (by decide) rfl).1 (by decide)

/-- C4: `String` is the Gvk string, the namespace (or `~X` when empty) and
the name (or `~N` when empty), joined by `|`. -/
theorem ResId.string_eq (ops : GvkOps) (id : ResId) :
    id.String ops =
      ops.String id.Gvk ++ "|".toList ++
        (if id.Namespace = [] then "~X".toList else id.Namespace) ++ "|".toList ++
        (if id.Name = [] then "~N".toList else id.Name) := by
  simp [ResId.String, strings.Join, List.intercalate, noNamespace, noName, separator]

/-! ## Remote repository specs -/

/-- C5: `NewRepoSpecFromUrl n` fails exactly when `n` is an absolute path or
`parseGitUrl n` yields an empty orgRepo or an empty host; when it succeeds
the spec has `Raw() = n`, `CloneDir() = "/notCloned"`, a non-empty Host and
OrgRepo, and Host, OrgRepo, Path, Ref, GitSuffix are the five results of
`parseGitUrl n`. -/
theorem NewRepoSpecFromUrl_error_iff_and_fields (n : Str) :
    ((∃ e, NewRepoSpecFromUrl n = .error e) ↔
      (filepath.IsAbs n = true ∨ (parseGitUrl n).orgRepo = [] ∨
        (parseGitUrl n).host = [])) ∧
    (∀ x, NewRepoSpecFromUrl n = .ok x →
      x.Raw = n ∧ x.CloneDir = "/notCloned".toList ∧ x.Host ≠ [] ∧ x.OrgRepo ≠ [] ∧
      x.Host = (parseGitUrl n).host ∧ x.OrgRepo = (parseGitUrl n).orgRepo ∧
      x.Path = (parseGitUrl n).path ∧ x.Ref = (parseGitUrl n).gitRef ∧
      x.GitSuffix = (parseGitUrl n).gitSuff) := by
  unfold NewRepoSpecFromUrl
  by_cases h1 : filepath.IsAbs n = true
  · simp [h1]
  · by_cases h2 : (parseGitUrl n).orgRepo = []
    · simp [h1, h2]
    · by_cases h3 : (parseGitUrl n).host = []
      · simp [h1, h2, h3]
      · simp only [h1, h2, h3, Bool.false_eq_true, if_false, reduceCtorEq, exists_false,
          or_self, Except.ok.injEq, true_and]
        intro x hx
        subst hx
        simp [RepoSpec.Raw, RepoSpec.CloneDir, notCloned, h2, h3]

/-- A successful instance of C5: the docstring's
`https://github.com/someOrg/someRepo?ref=someHash`. -/
theorem NewRepoSpecFromUrl_error_iff_and_fields_witness :
    RepoSpec.Raw
        { raw := "https://github.com/someOrg/someRepo?ref=someHash".toList,
          Host := "https://github.com/".toList, OrgRepo := "someOrg/someRepo".toList,
          Dir := "/notCloned".toList, Path := [], Ref := "someHash".toList,
          GitSuffix := ".git".toList }
      = "https://github.com/someOrg/someRepo?ref=someHash".toList :=
  ((NewRepoSpecFromUrl_error_iff_and_fields
      "https://github.com/someOrg/someRepo?ref=someHash".toList).2 _ rfl).1

/-- C10: `CloneSpec` is `Host + OrgRepo` when the Host contains
`dev.azure.com`, `visualstudio.com` or `amazonaws.com`, and
`Host + OrgRepo + GitSuffix` otherwise. -/
theorem RepoSpec.cloneSpec_eq (x : RepoSpec) :
    x.CloneSpec =
      if "dev.azure.com".toList <:+: x.Host ∨ "visualstudio.com".toList <:+: x.Host ∨
          "amazonaws.com".toList <:+: x.Host
      then x.Host ++ x.OrgRepo
      else x.Host ++ x.OrgRepo ++ x.GitSuffix := by
  simp only [RepoSpec.CloneSpec, isAzureHost, isAWSHost, Bool.or_eq_true,
    strings.Contains_iff, or_assoc]

theorem refQueryRegexMatchAt_eq (s : Str) :
    refQueryRegexMatchAt s =
      if "?version=".toList <+: s then some 9
      else if "?ref=".toList <+: s then some 5 else none := by
  simp [refQueryRegexMatchAt]

theorem refQueryRegexMatchAt_some (s : Str) (len : Nat)
    (h : refQueryRegexMatchAt s = some len) :
    ∃ m r, IsRefMarker m ∧ s = m ++ r ∧ len = m.length := by
  rw [refQueryRegexMatchAt_eq] at h
  split_ifs at h with h1 h2
  · obtain ⟨r, hr⟩ := h1
    exact ⟨_, r, Or.inr rfl, hr.symm, by simpa using (Option.some.inj h).symm⟩
  · obtain ⟨r, hr⟩ := h2
    exact ⟨_, r, Or.inl rfl, hr.symm, by simpa using (Option.some.inj h).symm⟩

theorem refQueryRegexMatchAt_none (s : Str) (h : refQueryRegexMatchAt s = none)
    (m : Str) (hm : IsRefMarker m) : ¬ m <+: s := by
  rw [refQueryRegexMatchAt_eq] at h
  split_ifs at h with h1 h2
  rcases hm with rfl | rfl
  · exact h2
  · exact h1

theorem refQueryRegexFind_none (s : Str) :
    ∀ k, refQueryRegexFind s k = none →
      ∀ m, IsRefMarker m → ¬ m <:+: s := by
  induction s with
  | nil =>
    intro k _ m hm hin
    rw [List.infix_nil] at hin
    rcases hm with rfl | rfl <;> simp at hin
  | cons c cs ih =>
    intro k h m hm hin
    unfold refQueryRegexFind at h
    cases hmt : refQueryRegexMatchAt (c :: cs) with
    | some len => simp [hmt] at h
    | none =>
      simp only [hmt] at h
      rcases List.infix_cons_iff.mp hin with hp | hi
      · exact refQueryRegexMatchAt_none _ hmt m hm hp
      · exact ih (k + 1) h m hm hi

theorem refQueryRegexFind_some (s : Str) :
    ∀ k i e, refQueryRegexFind s k = some (i, e) →
      ∃ a m r, IsRefMarker m ∧ s = a ++ m ++ r ∧ i = k + a.length ∧
        e = i + m.length ∧
        ∀ a' m' r', IsRefMarker m' → s = a' ++ m' ++ r' → a.length ≤ a'.length := by
  induction s with
  | nil => intro k i e h; simp [refQueryRegexFind] at h
  | cons c cs ih =>
    intro k i e h
    unfold refQueryRegexFind at h
    cases hmt : refQueryRegexMatchAt (c :: cs) with
    | some len =>
      simp only [hmt, Option.some.injEq, Prod.mk.injEq] at h
      obtain ⟨m, r, hm, hs, hl⟩ := refQueryRegexMatchAt_some _ _ hmt
      refine ⟨[], m, r, hm, by simpa using hs, by simp [h.1], ?_, fun _ _ _ _ _ => Nat.zero_le _⟩
      rw [← h.2, ← h.1, hl]
    | none =>
      simp only [hmt] at h
      obtain ⟨a, m, r, hm, hs, hi, he, hmin⟩ := ih (k + 1) i e h
      refine ⟨c :: a, m, r, hm, by simp [hs], by simp [hi]; omega, he, ?_⟩
      intro a' m' r' hm' hs'
      cases a' with
      | nil =>
        exfalso
        exact refQueryRegexMatchAt_none _ hmt m' hm' ⟨r', by simpa using hs'.symm⟩
      | cons x xs =>
        simp only [List.cons_append, List.cons.injEq] at hs'
        have := hmin xs m' r' hm' hs'.2
        simpa using this

theorem peelQuery_of_no_marker (arg : Str)
    (h : ∀ m, IsRefMarker m → ¬ m <:+: arg) : peelQuery arg = (arg, []) := by
  unfold peelQuery refQueryRegexFindStringIndex
  cases hf : refQueryRegexFind arg 0 with
  | none => rfl
  | some p =>
    obtain ⟨i, e⟩ := p
    obtain ⟨a, m, r, hm, hs, -⟩ := refQueryRegexFind_some arg 0 i e hf
    exact absurd ⟨a, r, hs.symm⟩ (h m hm)

theorem peelQuery_of_marker (arg : Str) (m₀ : Str) (hm₀ : IsRefMarker m₀)
    (h : m₀ <:+: arg) :
    ∃ a m r, IsRefMarker m ∧ arg = a ++ m ++ r ∧ peelQuery arg = (a, r) ∧
      ∀ a' m' r', IsRefMarker m' → arg = a' ++ m' ++ r' → a.length ≤ a'.length := by
  unfold peelQuery refQueryRegexFindString refQueryRegexFindStringIndex
  cases hf : refQueryRegexFind arg 0 with
  | none => exact absurd h (refQueryRegexFind_none arg 0 hf m₀ hm₀)
  | some p =>
    obtain ⟨i, e⟩ := p
    obtain ⟨a, m, r, hm, hs, hi, he, hmin⟩ := refQueryRegexFind_some arg 0 i e hf
    refine ⟨a, m, r, hm, hs, ?_, hmin⟩
    simp only [Nat.zero_add] at hi
    subst hi he hs
    simp [List.take_append_eq_append_take, List.drop_append_eq_append_drop]

/-- C9: without a `?ref=` or `?version=` marker `peelQuery arg` is
`(arg, "")`; otherwise it is `(p, r)` with `arg = p + marker + r` for one of
the two markers, where no marker occurs in `arg` at an earlier position. -/
theorem peelQuery_spec (arg : Str) :
    ((¬ "?ref=".toList <:+: arg ∧ ¬ "?version=".toList <:+: arg) →
      peelQuery arg = (arg, [])) ∧
    (("?ref=".toList <:+: arg ∨ "?version=".toList <:+: arg) →
      (arg = (peelQuery arg).1 ++ "?ref=".toList ++ (peelQuery arg).2 ∨
        arg = (peelQuery arg).1 ++ "?version=".toList ++ (peelQuery arg).2) ∧
      ∀ p' r' : Str,
        (arg = p' ++ "?ref=".toList ++ r' ∨ arg = p' ++ "?version=".toList ++ r') →
          (peelQuery arg).1.length ≤ p'.length) := by
  constructor
  · rintro ⟨h1, h2⟩
    apply peelQuery_of_no_marker
    rintro m (rfl | rfl)
    · exact h1
    · exact h2
  · intro h
    have hex : ∃ m₀, IsRefMarker m₀ ∧ m₀ <:+: arg := by
      rcases h with h | h
      · exact ⟨_, Or.inl rfl, h⟩
      · exact ⟨_, Or.inr rfl, h⟩
    obtain ⟨m₀, hm₀, hin⟩ := hex
    obtain ⟨a, m, r, hm, hs, hp, hmin⟩ := peelQuery_of_marker arg m₀ hm₀ hin
    rw [hp]
    refine ⟨?_, ?_⟩
    · rcases hm with rfl | rfl
      · exact Or.inl hs
      · exact Or.inr hs
    · rintro p' r' (h' | h')
      · exact hmin p' _ r' (Or.inl rfl) h'
      · exact hmin p' _ r' (Or.inr rfl) h'

/-- An instance of C9 where both markers occur: the first one splits. -/
theorem peelQuery_spec_witness :
    peelQuery "a?version=b?ref=c".toList = ("a".toList, "b?ref=c".toList) ∧
    ("a?version=b?ref=c".toList =
        (peelQuery "a?version=b?ref=c".toList).1 ++ "?ref=".toList ++
          (peelQuery "a?version=b?ref=c".toList).2 ∨
      "a?version=b?ref=c".toList =
        (peelQuery "a?version=b?ref=c".toList).1 ++ "?version=".toList ++
          (peelQuery "a?version=b?ref=c".toList).2) :=
  ⟨by decide,
    ((peelQuery_spec "a?version=b?ref=c".toList).2
      (Or.inl ⟨"a?version=b".toList, "c".toList, by decide⟩)).1⟩

theorem refQueryRegexFind_append_of_not_mem (a s : Str) (h : '?' ∉ a) :
    ∀ k, refQueryRegexFind (a ++ s) k = refQueryRegexFind s (k + a.length) := by
  induction a with
  | nil => intro k; simp
  | cons x xs ih =>
    intro k
    have hx : '?' ≠ x := fun e => h (List.mem_cons.mpr (Or.inl e))
    have hxs : '?' ∉ xs := fun e => h (List.mem_cons.mpr (Or.inr e))
    have hm : refQueryRegexMatchAt (x :: (xs ++ s)) = none := by
      simp [refQueryRegexMatchAt, List.isPrefixOf, hx]
    have hk : k + 1 + xs.length = k + (xs.length + 1) := by omega
    simp only [List.cons_append, refQueryRegexFind, List.append_eq, hm, ih hxs,
      List.length_cons, hk]

theorem peelQuery_of_not_mem (s : Str) (h : '?' ∉ s) : peelQuery s = (s, []) := by
  apply peelQuery_of_no_marker
  rintro m (rfl | rfl) hin
  · exact h (hin.subset (by decide))
  · exact h (hin.subset (by decide))

theorem peelQuery_append_ref (a r : Str) (h : '?' ∉ a) :
    peelQuery (a ++ "?ref=".toList ++ r) = (a, r) := by
  have hf : refQueryRegexFind (a ++ "?ref=".toList ++ r) 0 =
      some (a.length, a.length + 5) := by
    rw [List.append_assoc, refQueryRegexFind_append_of_not_mem a _ h]
    simp [refQueryRegexFind, refQueryRegexMatchAt, List.isPrefixOf]
  simp only [peelQuery, refQueryRegexFindString, refQueryRegexFindStringIndex, hf]
  simp [List.take_append_eq_append_take, List.drop_append_eq_append_drop]

theorem parseHostSpec_of_accumulate (n host n' : Str)
    (h : parseHostSpecAccumulate hostPrefixes [] n = (host, n'))
    (hne : host ≠ "git@".toList) :
    parseHostSpec n =
      (normalizeGitHostSpec (parseHostSpecDomain hostSchemes host n').1,
        (parseHostSpecDomain hostSchemes host n').2) := by
  unfold parseHostSpec
  unfold hostPrefixes at h
  rw [h]
  simp only [hne, if_false]
  rfl

theorem parseGitUrl_two_segments (n host org tail : Str)
    (hd : ¬ gitDelimiter <:+: n)
    (hp : parseHostSpec n = (host, org ++ '/' :: tail))
    (hs : ¬ gitSuffix <:+: org ++ '/' :: tail)
    (ho : org ≠ []) (ho' : '/' ∉ org) (ht : '/' ∉ tail) :
    parseGitUrl n =
      { host := host, orgRepo := (peelQuery (org ++ '/' :: tail)).1, path := [],
        gitRef := (peelQuery (org ++ '/' :: tail)).2, gitSuff := ".git".toList } := by
  have hl : 0 < org.length := List.length_pos.mpr ho
  have h1 : strings.Contains n gitDelimiter = false :=
    (strings.Contains_eq_false_iff _ _).mpr hd
  have h2 : strings.Contains (org ++ '/' :: tail) gitSuffix = false :=
    (strings.Contains_eq_false_iff _ _).mpr hs
  have h3 : strings.Index (org ++ '/' :: tail) "/".toList = (org.length : Int) :=
    strings.Index_char_append org tail '/' ho'
  have h4 : ¬ ((org.length : Int) < 1) := by omega
  have h5 : ((org.length : Int) + 1).toNat = org.length + 1 := by omega
  have h6 : strings.Index tail "/".toList = -1 :=
    strings.Index_of_not_mem tail _ '/' (by decide) ht
  unfold parseGitUrl
  simp only [h1, Bool.false_eq_true, if_false, hp, h2, h3, h4, h5]
  have h7 : List.drop (org.length + 1) (org ++ '/' :: tail) = tail := by
    rw [List.drop_append_eq_append_drop]
    simp
  rw [h7, h6]
  simp [gitSuffix]

theorem parseGitUrl_three_segments (n host org repo path : Str)
    (hd : ¬ gitDelimiter <:+: n)
    (hp : parseHostSpec n = (host, org ++ '/' :: (repo ++ '/' :: path)))
    (hs : ¬ gitSuffix <:+: org ++ '/' :: (repo ++ '/' :: path))
    (ho : org ≠ []) (ho' : '/' ∉ org) (hr : '/' ∉ repo) :
    parseGitUrl n =
      { host := host, orgRepo := org ++ '/' :: repo, path := (peelQuery path).1,
        gitRef := (peelQuery path).2, gitSuff := ".git".toList } := by
  have hl : 0 < org.length := List.length_pos.mpr ho
  have h1 : strings.Contains n gitDelimiter = false :=
    (strings.Contains_eq_false_iff _ _).mpr hd
  have h2 : strings.Contains (org ++ '/' :: (repo ++ '/' :: path)) gitSuffix = false :=
    (strings.Contains_eq_false_iff _ _).mpr hs
  have h3 : strings.Index (org ++ '/' :: (repo ++ '/' :: path)) "/".toList =
      (org.length : Int) :=
    strings.Index_char_append org _ '/' ho'
  have h4 : ¬ ((org.length : Int) < 1) := by omega
  have h5 : ((org.length : Int) + 1).toNat = org.length + 1 := by omega
  have h6 : strings.Index (repo ++ '/' :: path) "/".toList = (repo.length : Int) :=
    strings.Index_char_append repo path '/' hr
  have h7 : List.drop (org.length + 1) (org ++ '/' :: (repo ++ '/' :: path)) =
      repo ++ '/' :: path := by
    rw [List.drop_append_eq_append_drop]
    simp
  have h8 : ((repo.length : Int) + ((org.length : Int) + 1)).toNat =
      org.length + 1 + repo.length := by omega
  have h9 : ((repo.length : Int) + ((org.length : Int) + 1) + 1).toNat =
      org.length + 1 + repo.length + 1 := by omega
  have h10 : (repo.length : Int) ≥ 0 := by omega
  have h11 : List.take (org.length + 1 + repo.length)
      (org ++ '/' :: (repo ++ '/' :: path)) = org ++ '/' :: repo := by
    have e : org.length + 1 + repo.length = (org ++ '/' :: repo).length := by
      simp only [List.length_append, List.length_cons]
      omega
    have e2 : org ++ '/' :: (repo ++ '/' :: path) = (org ++ '/' :: repo) ++ '/' :: path := by
      simp
    rw [e, e2, List.take_left]
  have h12 : List.drop (org.length + 1 + repo.length + 1)
      (org ++ '/' :: (repo ++ '/' :: path)) = path := by
    have e : org.length + 1 + repo.length + 1 = (org ++ '/' :: (repo ++ ['/'])).length := by
      simp only [List.length_append, List.length_cons, List.length_nil]
      omega
    have e2 : org ++ '/' :: (repo ++ '/' :: path) = (org ++ '/' :: (repo ++ ['/'])) ++ path := by
      simp
    rw [e, e2, List.drop_left]
  unfold parseGitUrl
  simp only [h1, Bool.false_eq_true, if_false, hp, h2, h3, h4, h5, h7, h6, h10, if_true,
    h8, h9, h11, h12]
  simp [gitSuffix]

theorem parseHostSpecAccumulate_github_https (rest : Str) (hne : rest ≠ []) :
    parseHostSpecAccumulate hostPrefixes [] ("https://github.com/".toList ++ rest) =
      ("https://github.com/".toList, rest) := by
  have hl : 0 < rest.length := List.length_pos.mpr hne
  simp [hostPrefixes, parseHostSpecAccumulate, strings.ToLower, strings.lowerByte, hl]

theorem parseHostSpecDomain_github_https (rest : Str) :
    parseHostSpecDomain hostSchemes "https://github.com/".toList rest =
      ("https://github.com/".toList, rest) := by
  have h1 : strings.HasSuffix "https://github.com/".toList "ssh://".toList = false := by
    decide
  have h2 : strings.HasSuffix "https://github.com/".toList "https://".toList = false := by
    decide
  have h3 : strings.HasSuffix "https://github.com/".toList "http://".toList = false := by
    decide
  simp only [hostSchemes, parseHostSpecDomain, h1, h2, h3, Bool.false_eq_true, if_false]

theorem parseHostSpec_github_https (rest : Str) (hne : rest ≠ []) :
    parseHostSpec ("https://github.com/".toList ++ rest) =
      ("https://github.com/".toList, rest) := by
  rw [parseHostSpec_of_accumulate _ _ _ (parseHostSpecAccumulate_github_https rest hne)
    (by decide), parseHostSpecDomain_github_https]
  have : normalizeGitHostSpec "https://github.com/".toList = "https://github.com/".toList := by
    decide
  rw [this]

/-- C6: for non-empty `org`, `repo`, `ref` made of ASCII letters, digits and
hyphens, `NewRepoSpecFromUrl` succeeds on
`https://github.com/<org>/<repo>?ref=<ref>` with Host `https://github.com/`,
OrgRepo `<org>/<repo>`, empty Path, Ref `<ref>` and GitSuffix `.git`. -/
theorem NewRepoSpecFromUrl_github_https (org repo ref : Str)
    (ho : org ≠ []) (_hr : repo ≠ []) (_hf : ref ≠ [])
    (hoc : ∀ c ∈ org, IsNameByte c = true) (hrc : ∀ c ∈ repo, IsNameByte c = true)
    (hfc : ∀ c ∈ ref, IsNameByte c = true) :
    ∃ x, NewRepoSpecFromUrl
        ("https://github.com/".toList ++ org ++ "/".toList ++ repo ++ "?ref=".toList ++ ref)
          = .ok x ∧
      x.Host = "https://github.com/".toList ∧
      x.OrgRepo = org ++ "/".toList ++ repo ∧
      x.Path = [] ∧ x.Ref = ref ∧ x.GitSuffix = ".git".toList := by
  have nm : ∀ (s : Str), (∀ c ∈ s, IsNameByte c = true) → ∀ x : Char, ¬ IsNameByte x = true → x ∉ s :=
    fun s hs x hx hmem => hx (hs x hmem)
  have hrest : "https://github.com/".toList ++ org ++ "/".toList ++ repo ++ "?ref=".toList ++ ref
      = "https://github.com/".toList ++ (org ++ '/' :: (repo ++ "?ref=".toList ++ ref)) := by
    simp
  have hrest2 : org ++ '/' :: (repo ++ "?ref=".toList ++ ref) =
      (org ++ '/' :: repo) ++ "?ref=".toList ++ ref := by
    simp
  have hus : ¬ IsNameByte '_' = true := by decide
  have hdot : ¬ IsNameByte '.' = true := by decide
  have hsl : ¬ IsNameByte '/' = true := by decide
  have hq : ¬ IsNameByte '?' = true := by decide
  have hd : ¬ gitDelimiter <:+:
      "https://github.com/".toList ++ (org ++ '/' :: (repo ++ "?ref=".toList ++ ref)) := by
    intro h
    have : '_' ∈ "https://github.com/".toList ++
        (org ++ '/' :: (repo ++ "?ref=".toList ++ ref)) := h.subset (by decide)
    simp [nm org hoc _ hus, nm repo hrc _ hus, nm ref hfc _ hus] at this
  have hs : ¬ gitSuffix <:+: org ++ '/' :: (repo ++ "?ref=".toList ++ ref) := by
    intro h
    have : '.' ∈ org ++ '/' :: (repo ++ "?ref=".toList ++ ref) := h.subset (by decide)
    simp [nm org hoc _ hdot, nm repo hrc _ hdot, nm ref hfc _ hdot] at this
  have ht : '/' ∉ repo ++ "?ref=".toList ++ ref := by
    simp [nm repo hrc _ hsl, nm ref hfc _ hsl]
  have hqq : '?' ∉ org ++ '/' :: repo := by
    simp [nm org hoc _ hq, nm repo hrc _ hq]
  have hparse := parseGitUrl_two_segments _ _ org _ hd
    (parseHostSpec_github_https _ (by simp)) hs ho (nm org hoc _ hsl) ht
  have hpq : peelQuery (org ++ '/' :: (repo ++ "?ref=".toList ++ ref)) =
      (org ++ '/' :: repo, ref) := by
    rw [hrest2]
    exact peelQuery_append_ref _ _ hqq
  rw [hpq] at hparse
  rw [hrest]
  have hnew : NewRepoSpecFromUrl
      ("https://github.com/".toList ++ (org ++ '/' :: (repo ++ "?ref=".toList ++ ref))) =
      .ok { raw := "https://github.com/".toList ++
              (org ++ '/' :: (repo ++ "?ref=".toList ++ ref)),
            Host := "https://github.com/".toList, OrgRepo := org ++ '/' :: repo,
            Dir := notCloned, Path := [], Ref := ref, GitSuffix := ".git".toList } := by
    unfold NewRepoSpecFromUrl
    rw [hparse]
    simp [filepath.IsAbs, strings.HasPrefix]
  exact ⟨_, hnew, rfl, by simp, rfl, rfl, rfl⟩

/-- The docstring's example `https://github.com/someOrg/someRepo?ref=someHash`
as an instance of C6. -/
theorem NewRepoSpecFromUrl_github_https_witness :
    ∃ x, NewRepoSpecFromUrl
        ("https://github.com/".toList ++ "someOrg".toList ++ "/".toList ++
          "someRepo".toList ++ "?ref=".toList ++ "someHash".toList) = .ok x ∧
      x.Host = "https://github.com/".toList ∧
      x.OrgRepo = "someOrg".toList ++ "/".toList ++ "someRepo".toList ∧
      x.Path = [] ∧ x.Ref = "someHash".toList ∧ x.GitSuffix = ".git".toList :=
  NewRepoSpecFromUrl_github_https "someOrg".toList "someRepo".toList "someHash".toList
    (by decide) (by decide) (by decide) (by decide) (by decide) (by decide)

namespace strings

theorem lowerByte_eq_of_not_lower (c x : Char) (hx : x.toNat < 97 ∨ 122 < x.toNat)
    (h : lowerByte c = x) : c = x := by
  unfold lowerByte at h
  split_ifs at h with hc
  · exfalso
    obtain ⟨h1, h2⟩ := hc
    have hcn : c = Char.ofNat c.toNat := (Char.ofNat_toNat c).symm
    generalize c.toNat = k at h h1 h2 hcn
    subst h
    interval_cases k <;> revert hx <;> decide
  · exact h

theorem mem_of_mem_ToLower (s : Str) (x : Char) (hx : x.toNat < 97 ∨ 122 < x.toNat)
    (h : x ∈ ToLower s) : x ∈ s := by
  unfold ToLower at h
  obtain ⟨c, hc, hcx⟩ := List.mem_map.mp h
  rw [← lowerByte_eq_of_not_lower c x hx hcx]
  exact hc

theorem ToLower_append (a b : Str) : ToLower (a ++ b) = ToLower a ++ ToLower b := by
  simp [ToLower]

theorem ToLower_take (k : Nat) (s : Str) : ToLower (s.take k) = (ToLower s).take k := by
  simp [ToLower, List.map_take]

theorem length_ToLower (s : Str) : (ToLower s).length = s.length := by
  simp [ToLower]

end strings

theorem lower_take_eq_iff (p n : Str) :
    strings.ToLower (n.take p.length) = p ↔ p <+: strings.ToLower n := by
  rw [strings.ToLower_take, List.prefix_iff_eq_take]
  exact eq_comm

theorem parseHostSpecAccumulate_cons_neg (p : Str) (ps : List Str) (host n : Str)
    (h : ¬ p <+: strings.ToLower n) :
    parseHostSpecAccumulate (p :: ps) host n = parseHostSpecAccumulate ps host n := by
  have hc : ¬ (p.length < n.length ∧ strings.ToLower (n.take p.length) = p) :=
    fun hc => h ((lower_take_eq_iff p n).mp hc.2)
  rw [parseHostSpecAccumulate, if_neg hc]

theorem parseHostSpecAccumulate_cons_pos (p : Str) (ps : List Str) (host n : Str)
    (h : p <+: strings.ToLower n) (hl : p.length < n.length) :
    parseHostSpecAccumulate (p :: ps) host n =
      parseHostSpecAccumulate ps (host ++ p) (n.drop p.length) := by
  have hc : p.length < n.length ∧ strings.ToLower (n.take p.length) = p :=
    ⟨hl, (lower_take_eq_iff p n).mpr h⟩
  rw [parseHostSpecAccumulate, if_pos hc]

/-- A prefix that has a byte `s` other than the slash, after bytes that are
not slashes, is no prefix of `L ++ "/" ++ R` when `s` does not occur in `L`. -/
theorem not_prefix_of_special (q t L R : Str) (s : Char)
    (hq : '/' ∉ q) (hs : s ≠ '/') (hL : s ∉ L) :
    ¬ (q ++ s :: t) <+: L ++ '/' :: R := by
  intro h
  have h1 : q ++ [s] <+: L ++ '/' :: R :=
    List.IsPrefix.trans ⟨t, by simp⟩ h
  have h2 : L ++ ['/'] <+: L ++ '/' :: R := ⟨R, by simp⟩
  rcases List.prefix_or_prefix_of_prefix h1 h2 with h3 | h3
  · have : s ∈ L ++ ['/'] := h3.subset (by simp)
    simp [hL, hs] at this
  · have : '/' ∈ q ++ [s] := h3.subset (by simp)
    simp [hq, hs.symm] at this

theorem length_eq_of_prefix_slash (q L R : Str) (hq : '/' ∉ q) (hL : '/' ∉ L)
    (h : q ++ ['/'] <+: L ++ '/' :: R) : L.length = q.length := by
  obtain ⟨t, ht⟩ := h
  have h1 := strings.indexNat_char_append L R '/' hL
  have h2 := strings.indexNat_char_append q t '/' hq
  have e : q ++ '/' :: t = L ++ '/' :: R := by simpa using ht
  rw [e, h1] at h2
  exact Option.some.inj h2


theorem parseHostSpec_https_snd (H rest : Str)
    (h1 : '/' ∉ H) (h2 : ':' ∉ H) (h3 : '@' ∉ H) (hr : rest ≠ []) :
    (parseHostSpec ("https://".toList ++ H ++ '/' :: rest)).2 = rest := by
  have hrl : 0 < rest.length := List.length_pos.mpr hr
  have hL1 : '/' ∉ strings.ToLower H := fun h => h1 (strings.mem_of_mem_ToLower _ _ (by decide) h)
  have hL2 : ':' ∉ strings.ToLower H := fun h => h2 (strings.mem_of_mem_ToLower _ _ (by decide) h)
  have hL3 : '@' ∉ strings.ToLower H := fun h => h3 (strings.mem_of_mem_ToLower _ _ (by decide) h)
  have hlow : strings.ToLower (H ++ '/' :: rest) =
      strings.ToLower H ++ '/' :: strings.ToLower rest := by
    simp [strings.ToLower, strings.lowerByte]
  -- the first four prefixes: only `https://` is taken
  have hacc1 : parseHostSpecAccumulate hostPrefixes [] ("https://".toList ++ H ++ '/' :: rest) =
      parseHostSpecAccumulate
        ["http://".toList, "git@".toList, "github.com:".toList, "github.com/".toList]
        "https://".toList (H ++ '/' :: rest) := by
    simp [hostPrefixes, parseHostSpecAccumulate, strings.ToLower, strings.lowerByte]
  -- `http://`, `git@` and `github.com:` need a colon or an at sign in the host
  have hacc2 : parseHostSpecAccumulate
        ["http://".toList, "git@".toList, "github.com:".toList, "github.com/".toList]
        "https://".toList (H ++ '/' :: rest) =
      parseHostSpecAccumulate ["github.com/".toList] "https://".toList (H ++ '/' :: rest) := by
    rw [parseHostSpecAccumulate_cons_neg, parseHostSpecAccumulate_cons_neg,
      parseHostSpecAccumulate_cons_neg]
    · rw [hlow]
      exact not_prefix_of_special "github.com".toList [] _ _ ':' (by decide) (by decide) hL2
    · rw [hlow]
      exact not_prefix_of_special "git".toList [] _ _ '@' (by decide) (by decide) hL3
    · rw [hlow]
      exact not_prefix_of_special "http".toList "//".toList _ _ ':' (by decide) (by decide) hL2
  by_cases hg : "github.com/".toList <+: strings.ToLower (H ++ '/' :: rest)
  · -- the host is github.com
    have hlen : H.length = 10 := by
      rw [hlow] at hg
      have := length_eq_of_prefix_slash "github.com".toList _ _ (by decide) hL1 hg
      rw [strings.length_ToLower] at this
      simpa using this
    have hdrop : List.drop 11 (H ++ '/' :: rest) = rest := by
      have e : 11 = (H ++ ['/']).length := by simp [hlen]
      have e2 : H ++ '/' :: rest = (H ++ ['/']) ++ rest := by simp
      rw [e, e2, List.drop_left]
    have hacc3 : parseHostSpecAccumulate ["github.com/".toList] "https://".toList
        (H ++ '/' :: rest) = ("https://github.com/".toList, rest) := by
      rw [parseHostSpecAccumulate_cons_pos _ _ _ _ hg (by simp [hlen]; omega)]
      simp only [parseHostSpecAccumulate]
      rw [show "github.com/".toList.length = 11 from rfl, hdrop]
      rfl
    rw [parseHostSpec_of_accumulate _ _ _ (hacc1.trans (hacc2.trans hacc3)) (by decide),
      parseHostSpecDomain_github_https]
  · -- any other host: the domain is taken up to the first slash
    have hacc3 : parseHostSpecAccumulate ["github.com/".toList] "https://".toList
        (H ++ '/' :: rest) = ("https://".toList, H ++ '/' :: rest) := by
      rw [parseHostSpecAccumulate_cons_neg _ _ _ _ hg]
      rfl
    rw [parseHostSpec_of_accumulate _ _ _ (hacc1.trans (hacc2.trans hacc3)) (by decide)]
    have hs1 : strings.HasSuffix "https://".toList "ssh://".toList = false := by decide
    have hs2 : strings.HasSuffix "https://".toList "https://".toList = true := by decide
    have hi : strings.Index (H ++ '/' :: rest) "/".toList = (H.length : Int) :=
      strings.Index_char_append H rest '/' h1
    have hi2 : ¬ ((H.length : Int) ≤ -1) := by omega
    have hi3 : ((H.length : Int) + 1).toNat = (H ++ ['/']).length := by
      simp only [List.length_append, List.length_cons, List.length_nil]
      omega
    have e2 : H ++ '/' :: rest = (H ++ ['/']) ++ rest := by simp
    simp only [hostSchemes, parseHostSpecDomain, hs1, hs2, Bool.false_eq_true, if_false,
      if_true, hi, gt_iff_lt, not_le.mp hi2, hi3]
    rw [e2, List.drop_left]

/-- C7 evaluated on `git@gitlab.com:someOrg/someRepo.git`: `NewRepoSpecFromUrl`
succeeds, but the organisation ends up in Host and OrgRepo is `someRepo`
alone.  On the sibling path for `github.com` the same URL shape gives OrgRepo
`someOrg/someRepo`. -/
theorem NewRepoSpecFromUrl_scp_like_orgRepo :
    NewRepoSpecFromUrl
        ("git@".toList ++ "gitlab.com".toList ++ ":".toList ++ "someOrg".toList ++
          "/".toList ++ "someRepo".toList ++ ".git".toList) =
      .ok { raw := "git@gitlab.com:someOrg/someRepo.git".toList,
            Host := "git@gitlab.com:someOrg/".toList, OrgRepo := "someRepo".toList,
            Dir := "/notCloned".toList, Path := [], Ref := [],
            GitSuffix := ".git".toList } ∧
    "someRepo".toList ≠ "someOrg".toList ++ "/".toList ++ "someRepo".toList ∧
    NewRepoSpecFromUrl
        ("git@".toList ++ "github.com".toList ++ ":".toList ++ "someOrg".toList ++
          "/".toList ++ "someRepo".toList ++ ".git".toList) =
      .ok { raw := "git@github.com:someOrg/someRepo.git".toList,
            Host := "git@github.com:".toList,
            OrgRepo := "someOrg".toList ++ "/".toList ++ "someRepo".toList,
            Dir := "/notCloned".toList, Path := [], Ref := [],
            GitSuffix := ".git".toList } :=
  ⟨rfl, by decide, rfl⟩

theorem not_mem_join_slash (segs : List Str) (c : Char) (hc : c ≠ '/')
    (h : ∀ s ∈ segs, c ∉ s) : c ∉ strings.Join segs "/".toList := by
  unfold strings.Join
  induction segs with
  | nil => simp [List.intercalate]
  | cons s ss ih =>
    cases ss with
    | nil => simpa [List.intercalate] using h s (by simp)
    | cons t ts =>
      have ih' := ih (fun x hx => h x (List.mem_cons_of_mem _ hx))
      simp only [List.intercalate, List.intersperse, List.flatten_cons, List.mem_append,
        not_or] at ih' ⊢
      exact ⟨h s (by simp), by simpa using hc, ih'⟩

/-- C8, amended: for `https://host/org/repo/path` with `host`, `org`, `repo`
non-empty and free of `/`, `?`, `:`, `@`, and `path` a non-empty sequence of
such segments joined by `/`, where the URL does not contain `_git/` and
`org/repo/path` does not contain `.git`, `parseGitUrl` returns orgRepo
`org/repo`, path `path` and an empty ref. -/
theorem parseGitUrl_https_path (host org repo : Str) (segs : List Str)
    (hh : IsSegment host) (ho : IsSegment org) (hr : IsSegment repo)
    (_hne : segs ≠ []) (hsegs : ∀ s ∈ segs, IsSegment s)
    (hd : ¬ "_git/".toList <:+:
      "https://".toList ++ host ++ "/".toList ++ org ++ "/".toList ++ repo ++ "/".toList ++
        strings.Join segs "/".toList)
    (hg : ¬ ".git".toList <:+:
      org ++ "/".toList ++ repo ++ "/".toList ++ strings.Join segs "/".toList) :
    (parseGitUrl
      ("https://".toList ++ host ++ "/".toList ++ org ++ "/".toList ++ repo ++ "/".toList ++
        strings.Join segs "/".toList)).orgRepo = org ++ "/".toList ++ repo ∧
    (parseGitUrl
      ("https://".toList ++ host ++ "/".toList ++ org ++ "/".toList ++ repo ++ "/".toList ++
        strings.Join segs "/".toList)).path = strings.Join segs "/".toList ∧
    (parseGitUrl
      ("https://".toList ++ host ++ "/".toList ++ org ++ "/".toList ++ repo ++ "/".toList ++
        strings.Join segs "/".toList)).gitRef = [] := by
  generalize hpath : strings.Join segs "/".toList = path at hd hg ⊢
  have hq : '?' ∉ path := by
    rw [← hpath]
    exact not_mem_join_slash segs '?' (by decide) (fun s hs => (hsegs s hs).2.2.1)
  have hurl : "https://".toList ++ host ++ "/".toList ++ org ++ "/".toList ++ repo ++
      "/".toList ++ path =
      "https://".toList ++ host ++ '/' :: (org ++ '/' :: (repo ++ '/' :: path)) := by
    simp
  have hrest : org ++ "/".toList ++ repo ++ "/".toList ++ path =
      org ++ '/' :: (repo ++ '/' :: path) := by
    simp
  rw [hurl] at hd ⊢
  rw [hrest] at hg
  have hsnd := parseHostSpec_https_snd host (org ++ '/' :: (repo ++ '/' :: path))
    hh.2.1 hh.2.2.2.1 hh.2.2.2.2 (by simp)
  have hp : parseHostSpec
      ("https://".toList ++ host ++ '/' :: (org ++ '/' :: (repo ++ '/' :: path))) =
      ((parseHostSpec
        ("https://".toList ++ host ++ '/' :: (org ++ '/' :: (repo ++ '/' :: path)))).1,
        org ++ '/' :: (repo ++ '/' :: path)) :=
    Prod.ext rfl hsnd
  rw [parseGitUrl_three_segments _ _ org repo path hd hp hg ho.1 ho.2.1 hr.2.1,
    peelQuery_of_not_mem path hq]
  simp

/-- An instance of the amended C8: `https://host/org/repo/path/to`. -/
theorem parseGitUrl_https_path_witness :
    (parseGitUrl "https://host/org/repo/path/to".toList).orgRepo = "org/repo".toList ∧
    (parseGitUrl "https://host/org/repo/path/to".toList).path = "path/to".toList ∧
    (parseGitUrl "https://host/org/repo/path/to".toList).gitRef = [] :=
  parseGitUrl_https_path "host".toList "org".toList "repo".toList
    ["path".toList, "to".toList]
    (by decide) (by decide) (by decide) (by decide) (by decide) (by decide) (by decide)

/-- C8 as stated fails on a repository segment that contains `.git`, and on
an organisation segment that ends in `_git`. -/
theorem parseGitUrl_https_path_counterexample :
    (IsSegment "host".toList ∧ IsSegment "org".toList ∧ IsSegment "repo.git".toList ∧
      IsSegment "path".toList ∧ IsSegment "org_git".toList ∧ IsSegment "repo".toList) ∧
    parseGitUrl
        ("https://".toList ++ "host".toList ++ "/".toList ++ "org".toList ++ "/".toList ++
          "repo.git".toList ++ "/".toList ++ strings.Join ["path".toList] "/".toList) =
      { host := "https://host/".toList, orgRepo := "org/repo".toList,
        path := "/path".toList, gitRef := [], gitSuff := ".git".toList } ∧
    "org/repo".toList ≠ "org".toList ++ "/".toList ++ "repo.git".toList ∧
    "/path".toList ≠ strings.Join ["path".toList] "/".toList ∧
    parseGitUrl
        ("https://".toList ++ "host".toList ++ "/".toList ++ "org_git".toList ++ "/".toList ++
          "repo".toList ++ "/".toList ++ strings.Join ["path".toList] "/".toList) =
      { host := "https://host/org_git/".toList, orgRepo := "repo".toList,
        path := "/path".toList, gitRef := [], gitSuff := [] } ∧
    "repo".toList ≠ "org_git".toList ++ "/".toList ++ "repo".toList := by
  decide

namespace ImageTagTransformer

/-! ## The image tag transformer -/

/-- C11 evaluated: the configured name goes into the pattern as it is, so its
`.` matches any character and `gcrxio/app` is matched by the name
`gcr.io/app`, of which it is no extension; and a name that is no regular
expression, such as `nginx(`, makes `isImageMatched` panic. -/
theorem isImageMatched_name_is_pattern :
    isImageMatched goRegexp "gcrxio/app".toList "gcr.io/app".toList = .ok true ∧
    ¬ "gcr.io/app".toList <+: "gcrxio/app".toList ∧
    isImageMatched goRegexp "nginx(".toList "nginx(".toList =
      .panic "invalid memory address or nil pointer dereference".toList := by
  decide

/-- What `mutateImage` returns on an image that matches and that `split`
takes apart. -/
theorem mutateImage_of_matched (re : Regexp) (p : plugin) (s name tag : Str)
    (hm : isImageMatched re s p.ImageTag.Name = .ok true)
    (hs : split s = .ok (name, tag)) :
    mutateImage re p (.str s) =
      .ok (.str
        ((if p.ImageTag.NewName ≠ [] then p.ImageTag.NewName else name) ++
          (if p.ImageTag.Digest ≠ [] then "@".toList ++ p.ImageTag.Digest
            else if p.ImageTag.NewTag ≠ [] then ":".toList ++ p.ImageTag.NewTag
            else tag))) := by
  simp only [mutateImage, hm, hs]

/-- C12 evaluated: the image `@sha256` matches the empty name, `split` panics
on it (its only `@` is at index 0 and it has no colon), and so does
`mutateImage`, where the claim has it return `busybox@sha256:abc`. -/
theorem mutateImage_panics_on_leading_at :
    isImageMatched goRegexp "@sha256".toList [] = .ok true ∧
    split "@sha256".toList = .panic "slice bounds out of range".toList ∧
    mutateImage goRegexp
        { ImageTag := { Name := [], NewName := "busybox".toList, NewTag := [],
                        Digest := "sha256:abc".toList },
          FieldSpecs := [] }
        (.str "@sha256".toList) =
      .panic "slice bounds out of range".toList := by
  refine ⟨by decide, by decide, rfl⟩

/-- C13: on a string that does not match the configured name `mutateImage`
returns the string as it is, whatever `NewName`, `NewTag` and `Digest` are;
on a value that is no string it returns an error. -/
theorem mutateImage_not_matched_or_not_string (re : Regexp) (p : plugin) :
    (∀ s : Str, isImageMatched re s p.ImageTag.Name = .ok false →
      mutateImage re p (.str s) = .ok (.str s)) ∧
    (∀ v : Value, (∀ s : Str, v ≠ .str s) → ∃ msg, mutateImage re p v = .err msg) := by
  constructor
  · intro s h
    simp only [mutateImage, h]
  · intro v hv
    cases v with
    | str s => exact absurd rfl (hv s)
    | null => exact ⟨_, rfl⟩
    | bool b => exact ⟨_, rfl⟩
    | num f t => exact ⟨_, rfl⟩
    | list l => exact ⟨_, rfl⟩
    | map m => exact ⟨_, rfl⟩

/-- An instance of C13: `nginx2:1.7.9` does not match the name `nginx`, and
a number is no image. -/
theorem mutateImage_not_matched_or_not_string_witness :
    mutateImage goRegexp
        { ImageTag := { Name := "nginx".toList, NewName := "busybox".toList,
                        NewTag := "v2".toList, Digest := [] },
          FieldSpecs := [] }
        (.str "nginx2:1.7.9".toList) = .ok (.str "nginx2:1.7.9".toList) ∧
    ∃ msg, mutateImage goRegexp
        { ImageTag := { Name := "nginx".toList, NewName := "busybox".toList,
                        NewTag := "v2".toList, Digest := [] },
          FieldSpecs := [] }
        (.num false "1".toList) = .err msg :=
  ⟨(mutateImage_not_matched_or_not_string goRegexp _).1 _ (by decide),
    (mutateImage_not_matched_or_not_string goRegexp _).2 _ (by intro s h; cases h)⟩

theorem mutateFields_OrgId (re : Regexp) (ops : TransformerOps) (p : plugin) :
    ∀ (fss : List FieldSpec) (r r₁ : Resource) (err : Option Str),
      mutateFields re ops p fss r = .done r₁ err → r₁.OrgId = r.OrgId := by
  intro fss
  induction fss with
  | nil =>
    intro r r₁ err h
    simp only [mutateFields, Walk.done.injEq] at h
    rw [← h.1]
  | cons path rest ih =>
    intro r r₁ err h
    rw [mutateFields] at h
    by_cases hsel : (!r.OrgId.IsSelected path.Gvk) = true
    · rw [if_pos hsel] at h
      exact ih r r₁ err h
    · rw [if_neg hsel] at h
      cases hm : ops.MutateField r.Map (ops.PathSlice path) false (mutateImage re p) with
      | panic msg => simp [hm] at h
      | done m e =>
        cases e with
        | none =>
          simp only [hm] at h
          have h₁ := ih _ r₁ err h
          exact h₁
        | some e =>
          simp only [hm, Walk.done.injEq] at h
          rw [← h.1]

/-- C14, amended: the walk of `findAndReplaceImage` is not skipped for a
resource of kind `CustomResourceDefinition`, its error is: whatever error
the walk returns on such a resource, `Transform` keeps the state the field
specs and the walk left it in and goes on with the next resource. -/
theorem Transform_ignores_walk_error_of_crd (re : Regexp) (ops : TransformerOps)
    (p : plugin) (r r₁ : Resource) (rest : List Resource) (m : Object) (err : Option Str)
    (hk : r.OrgId.Gvk.Kind = "CustomResourceDefinition".toList)
    (hf : mutateFields re ops p p.FieldSpecs r = .done r₁ none)
    (hw : findAndReplaceImage re p r₁.Map = .done m err) :
    Transform re ops p (r :: rest) =
      Walk.cons { r₁ with Map := m } (Transform re ops p rest) := by
  have hk₁ : r₁.OrgId.Gvk.Kind = "CustomResourceDefinition".toList := by
    rw [mutateFields_OrgId re ops p _ r r₁ none hf, hk]
  simp [Transform, transformResource, hf, hw, hk₁]

/-- An instance of the amended C14: the walk fails on the schema of the CRD,
and `Transform` returns no error and leaves the CRD as it was. -/
theorem Transform_ignores_walk_error_of_crd_witness :
    (∃ m e, findAndReplaceImage goRegexp sampleTagPlugin sampleCrd.Map = .done m (some e)) ∧
    Transform goRegexp noFieldOps sampleTagPlugin [sampleCrd] = .done [sampleCrd] none :=
  ⟨⟨_, _, rfl⟩,
    (Transform_ignores_walk_error_of_crd goRegexp noFieldOps sampleTagPlugin sampleCrd
      sampleCrd [] sampleCrd.Map _ rfl rfl rfl).trans rfl⟩

/-- C14 as stated fails: the image of a well-formed `containers` list in a
resource of kind `CustomResourceDefinition` is rewritten. -/
theorem Transform_crd_counterexample :
    sampleCrdWithContainers.OrgId.Gvk.Kind = "CustomResourceDefinition".toList ∧
    Transform goRegexp noFieldOps sampleTagPlugin [sampleCrdWithContainers] =
      .done
        [{ sampleCrdWithContainers with
            Map := [("kind".toList, .str "CustomResourceDefinition".toList),
                    ("containers".toList,
                      .list [.map [("image".toList, .str "nginx:v2".toList)]])] }]
        none ∧
    Object.get sampleCrdWithContainers.Map "containers".toList =
      some (.list [.map [("image".toList, .str "nginx".toList)]]) :=
  ⟨rfl, rfl, rfl⟩

end ImageTagTransformer

theorem Object.get_set (m : Object) (k k' : Str) (v : Value) :
    Object.get (Object.set m k v) k' = if k' = k then some v else Object.get m k' := by
  induction m with
  | nil =>
    by_cases h : k = k'
    · simp [Object.set, Object.get, h]
    · have h' : ¬ k' = k := fun e => h e.symm
      simp [Object.set, Object.get, h, h']
  | cons e rest ih =>
    obtain ⟨a, w⟩ := e
    by_cases ha : a = k
    · subst ha
      by_cases hk : a = k'
      · simp [Object.set, Object.get, hk]
      · have hk' : ¬ k' = a := fun e => hk e.symm
        simp [Object.set, Object.get, hk, hk']
    · by_cases hk : a = k'
      · subst hk
        simp [Object.set, Object.get, ha]
      · simp only [Object.set, ha, if_false, Object.get, hk, ih]

namespace ImageTagTransformer

theorem Walk.cons_eq_done {α : Type} (x : α) (w : Walk (List α)) (l : List α)
    (err : Option Str) (h : Walk.cons x w = .done l err) :
    ∃ l', w = .done l' err ∧ l = x :: l' := by
  cases w with
  | done l' e =>
    simp only [Walk.cons, Walk.done.injEq] at h
    exact ⟨l', by rw [h.2], h.1.symm⟩
  | panic msg => simp [Walk.cons] at h

theorem Object.set_get_self (m : Object) (k : Str) (v : Value)
    (h : Object.get m k = some v) : Object.set m k v = m := by
  induction m with
  | nil => simp [Object.get] at h
  | cons e rest ih =>
    obtain ⟨a, w⟩ := e
    by_cases ha : a = k
    · simp only [Object.get, ha, if_true, Option.some.injEq] at h
      simp [Object.set, ha, h]
    · simp only [Object.get, ha, if_false] at h
      simp [Object.set, ha, ih h]

theorem forall₂_get?_left {α β : Type} {R : α → β → Prop} {l : List α} {l' : List β}
    (h : List.Forall₂ R l l') :
    ∀ (i : Nat) (x : α), l.get? i = some x → ∃ x', l'.get? i = some x' ∧ R x x' := by
  induction h with
  | nil => intro i x hi; simp at hi
  | cons hr _ ih =>
    intro i x hi
    cases i with
    | zero =>
      simp only [List.get?_cons_zero, Option.some.injEq] at hi
      subst hi
      exact ⟨_, rfl, hr⟩
    | succ j =>
      simp only [List.get?_cons_succ] at hi ⊢
      exact ih j x hi

theorem updateContainerList_done (re : Regexp) (p : plugin) :
    ∀ (l l' : List Value), updateContainerList re p l = .done l' none →
      List.Forall₂ (EntryRewritten re p) l l' := by
  intro l
  induction l with
  | nil =>
    intro l' h
    simp only [updateContainerList, Walk.done.injEq, and_true] at h
    subst h
    exact List.Forall₂.nil
  | cons c rest ih =>
    intro l' h
    cases c with
    | map container =>
      simp only [updateContainerList] at h
      cases hi : Object.get container "image".toList with
      | none =>
        simp only [hi] at h
        obtain ⟨t, ht, rfl⟩ := Walk.cons_eq_done _ _ _ _ h
        exact List.Forall₂.cons ⟨container, rfl, Or.inl ⟨hi, rfl⟩⟩ (ih t ht)
      | some img =>
        cases img with
        | str imageName =>
          simp only [hi] at h
          cases hm : isImageMatched re imageName p.ImageTag.Name with
          | ok b =>
            cases b with
            | true =>
              simp only [hm] at h
              cases hmu : mutateImage re p (.str imageName) with
              | ok newImage =>
                simp only [hmu] at h
                obtain ⟨t, ht, rfl⟩ := Walk.cons_eq_done _ _ _ _ h
                exact List.Forall₂.cons
                  ⟨container, rfl, Or.inr ⟨imageName, newImage, hi, hmu, rfl⟩⟩ (ih t ht)
              | err msg => simp [hmu] at h
              | panic msg => simp [hmu] at h
            | false =>
              simp only [hm] at h
              obtain ⟨t, ht, rfl⟩ := Walk.cons_eq_done _ _ _ _ h
              refine List.Forall₂.cons
                ⟨container, rfl, Or.inr ⟨imageName, .str imageName, hi, ?_, ?_⟩⟩ (ih t ht)
              · simp only [mutateImage, hm]
              · rw [Object.set_get_self _ _ _ hi]
          | err msg => simp [hm] at h
          | panic msg => simp [hm] at h
        | null => simp only [hi, reduceCtorEq] at h
        | bool b => simp only [hi, reduceCtorEq] at h
        | num f t => simp only [hi, reduceCtorEq] at h
        | list l => simp only [hi, reduceCtorEq] at h
        | map m => simp only [hi, reduceCtorEq] at h
    | null => simp [updateContainerList] at h
    | bool b => simp [updateContainerList] at h
    | num f t => simp [updateContainerList] at h
    | str s => simp [updateContainerList] at h
    | list l => simp [updateContainerList] at h

theorem updateContainers_done (re : Regexp) (p : plugin) (v v' : Value)
    (h : updateContainers re p v = .done v' none) :
    ∃ l l', v = .list l ∧ v' = .list l' ∧ List.Forall₂ (EntryRewritten re p) l l' := by
  cases v with
  | list l =>
    simp only [updateContainers] at h
    cases hl : updateContainerList re p l with
    | done l' e =>
      simp only [hl, Walk.done.injEq] at h
      obtain ⟨rfl, rfl⟩ := h
      exact ⟨l, l', rfl, rfl, updateContainerList_done re p l l' hl⟩
    | panic msg => simp only [hl, reduceCtorEq] at h
  | null => simp [updateContainers] at h
  | bool b => simp [updateContainers] at h
  | num f t => simp [updateContainers] at h
  | str s => simp [updateContainers] at h
  | map m => simp [updateContainers] at h

theorem updatePath_done (re : Regexp) (p : plugin) (obj obj₁ : Object) (path : Str)
    (b : Bool) (h : updatePath re p obj path = (.done obj₁ none, b)) :
    (b = false ∧ Object.get obj path = none ∧ obj₁ = obj) ∨
    (b = true ∧ ∃ l l', Object.get obj path = some (.list l) ∧
      obj₁ = Object.set obj path (.list l') ∧ List.Forall₂ (EntryRewritten re p) l l') := by
  unfold updatePath at h
  cases hg : Object.get obj path with
  | none =>
    simp only [hg, Prod.mk.injEq, Walk.done.injEq, and_true] at h
    exact Or.inl ⟨h.2.symm, rfl, h.1.symm⟩
  | some v =>
    simp only [hg] at h
    cases hu : updateContainers re p v with
    | done v' e =>
      simp only [hu, Prod.mk.injEq, Walk.done.injEq] at h
      obtain ⟨⟨rfl, rfl⟩, rfl⟩ := h
      obtain ⟨l, l', rfl, rfl, hr⟩ := updateContainers_done re p v v' hu
      exact Or.inr ⟨rfl, l, l', rfl, rfl, hr⟩
    | panic msg => simp [hu] at h

/-- What `findAndReplaceImage` has done when it returns nil: on a mapping
without the two keys it has done what `findContainers` does; on a mapping
with one of them the value of each is a list whose entries are rewritten. -/
theorem findAndReplaceImageWith_done (re : Regexp) (p : plugin) (obj obj' : Object)
    (deep : Walk Object)
    (h : findAndReplaceImageWith re p obj deep = .done obj' none) :
    (Object.holdsContainers obj = false ∧ deep = .done obj' none) ∨
    (Object.holdsContainers obj = true ∧
      ∀ c, (c = "containers".toList ∨ c = "initContainers".toList) →
        ∀ v, Object.get obj c = some v →
          ∃ l l', v = .list l ∧ Object.get obj' c = some (.list l') ∧
            List.Forall₂ (EntryRewritten re p) l l') := by
  unfold findAndReplaceImageWith at h
  have hne : "initContainers".toList ≠ "containers".toList := by decide
  rcases h₁ : updatePath re p obj "containers".toList with ⟨w₁, b₁⟩
  rw [h₁] at h
  cases w₁ with
  | panic msg => simp at h
  | done obj₁ e₁ =>
    cases e₁ with
    | some e => simp at h
    | none =>
      simp only at h
      rcases h₂ : updatePath re p obj₁ "initContainers".toList with ⟨w₂, b₂⟩
      rw [h₂] at h
      cases w₂ with
      | panic msg => simp at h
      | done obj₂ e₂ =>
        cases e₂ with
        | some e => simp at h
        | none =>
          simp only at h
          rcases updatePath_done re p obj obj₁ _ b₁ h₁ with
            ⟨rfl, hg₁, rfl⟩ | ⟨rfl, l₁, l₁', hg₁, rfl, hr₁⟩
          · rcases updatePath_done re p _ obj₂ _ b₂ h₂ with
              ⟨rfl, hg₂, rfl⟩ | ⟨rfl, l₂, l₂', hg₂, rfl, hr₂⟩
            · left
              simp only [Bool.or_self, Bool.not_false, if_true] at h
              exact ⟨by unfold Object.holdsContainers; rw [hg₁, hg₂]; rfl, h⟩
            · right
              simp only [Bool.or_true, Bool.not_true, Bool.false_eq_true, if_false,
                Walk.done.injEq, and_true] at h
              subst h
              refine ⟨by unfold Object.holdsContainers; rw [hg₂]; simp, ?_⟩
              rintro c (rfl | rfl) v hv
              · rw [hg₁] at hv
                cases hv
              · rw [hg₂] at hv
                cases hv
                exact ⟨l₂, l₂', rfl, by simp [Object.get_set], hr₂⟩
          · rcases updatePath_done re p _ obj₂ _ b₂ h₂ with
              ⟨rfl, hg₂, rfl⟩ | ⟨rfl, l₂, l₂', hg₂, rfl, hr₂⟩
            · right
              simp only [Bool.or_false, Bool.not_true, Bool.false_eq_true, if_false,
                Walk.done.injEq, and_true] at h
              subst h
              refine ⟨by unfold Object.holdsContainers; rw [hg₁]; rfl, ?_⟩
              rintro c (rfl | rfl) v hv
              · rw [hg₁] at hv
                cases hv
                exact ⟨l₁, l₁', rfl, by simp [Object.get_set], hr₁⟩
              · rw [Object.get_set, if_neg hne] at hg₂
                rw [hg₂] at hv
                cases hv
            · right
              simp only [Bool.or_self, Bool.not_true, Bool.false_eq_true, if_false,
                Walk.done.injEq, and_true] at h
              subst h
              refine ⟨by unfold Object.holdsContainers; rw [hg₁]; rfl, ?_⟩
              rw [Object.get_set, if_neg hne] at hg₂
              rintro c (rfl | rfl) v hv
              · rw [hg₁] at hv
                cases hv
                refine ⟨l₁, l₁', rfl, ?_, hr₁⟩
                rw [Object.get_set, if_neg hne.symm, Object.get_set, if_pos rfl]
              · rw [hg₂] at hv
                cases hv
                exact ⟨l₂, l₂', rfl, by rw [Object.get_set, if_pos rfl], hr₂⟩

theorem findContainersItem_done (re : Regexp) (p : plugin) (item item' : Value)
    (h : findContainersItem re p item = .done item' none) :
    (∀ m, item = .map m → ∃ m', item' = .map m' ∧
      findAndReplaceImage re p m = .done m' none) ∧
    ((∀ m, item ≠ .map m) → item' = item) := by
  cases item with
  | map m =>
    simp only [findContainersItem] at h
    refine ⟨fun m₀ hm₀ => ?_, fun hne => absurd rfl (hne m)⟩
    cases hm₀
    cases hw : findAndReplaceImageWith re p m (findContainers re p m) with
    | done m' e =>
      simp only [hw, Walk.done.injEq] at h
      obtain ⟨rfl, rfl⟩ := h
      exact ⟨m', rfl, hw⟩
    | panic msg => simp only [hw, reduceCtorEq] at h
  | null =>
    simp only [findContainersItem, Walk.done.injEq, and_true] at h
    exact ⟨fun m hm => (by cases hm), fun _ => h.symm⟩
  | bool b =>
    simp only [findContainersItem, Walk.done.injEq, and_true] at h
    exact ⟨fun m hm => (by cases hm), fun _ => h.symm⟩
  | num f t =>
    simp only [findContainersItem, Walk.done.injEq, and_true] at h
    exact ⟨fun m hm => (by cases hm), fun _ => h.symm⟩
  | str s =>
    simp only [findContainersItem, Walk.done.injEq, and_true] at h
    exact ⟨fun m hm => (by cases hm), fun _ => h.symm⟩
  | list l =>
    simp only [findContainersItem, Walk.done.injEq, and_true] at h
    exact ⟨fun m hm => (by cases hm), fun _ => h.symm⟩

theorem findContainersItems_done (re : Regexp) (p : plugin) :
    ∀ (l l' : List Value), findContainersItems re p l = .done l' none →
      ∀ i m, l.get? i = some (.map m) →
        ∃ m', l'.get? i = some (.map m') ∧ findAndReplaceImage re p m = .done m' none := by
  intro l
  induction l with
  | nil => intro l' _ i m hi; simp at hi
  | cons item rest ih =>
    intro l' h i m hi
    simp only [findContainersItems] at h
    cases hit : findContainersItem re p item with
    | panic msg => simp only [hit, reduceCtorEq] at h
    | done item' e =>
      cases e with
      | some e => simp only [hit, Walk.done.injEq, reduceCtorEq, and_false] at h
      | none =>
        simp only [hit] at h
        obtain ⟨t, ht, rfl⟩ := Walk.cons_eq_done _ _ _ _ h
        cases i with
        | zero =>
          simp only [List.get?_cons_zero, Option.some.injEq] at hi
          obtain ⟨m', rfl, hm'⟩ := (findContainersItem_done re p item item' hit).1 m hi
          exact ⟨m', rfl, hm'⟩
        | succ j =>
          simp only [List.get?_cons_succ] at hi ⊢
          exact ih t ht j m hi

theorem findContainersValue_done (re : Regexp) (p : plugin) (v v' : Value)
    (h : findContainersValue re p v = .done v' none) :
    (∀ m, v = .map m → ∃ m', v' = .map m' ∧
      findAndReplaceImage re p m = .done m' none) ∧
    (∀ l, v = .list l → ∃ l', v' = .list l' ∧
      ∀ i m, l.get? i = some (.map m) →
        ∃ m', l'.get? i = some (.map m') ∧ findAndReplaceImage re p m = .done m' none) := by
  cases v with
  | map m =>
    simp only [findContainersValue] at h
    refine ⟨fun m₀ hm₀ => ?_, fun l hl => (by cases hl)⟩
    cases hm₀
    cases hw : findAndReplaceImageWith re p m (findContainers re p m) with
    | done m' e =>
      simp only [hw, Walk.done.injEq] at h
      obtain ⟨rfl, rfl⟩ := h
      exact ⟨m', rfl, hw⟩
    | panic msg => simp only [hw, reduceCtorEq] at h
  | list l =>
    simp only [findContainersValue] at h
    refine ⟨fun m hm => (by cases hm), fun l₀ hl₀ => ?_⟩
    cases hl₀
    cases hw : findContainersItems re p l with
    | done l' e =>
      simp only [hw, Walk.done.injEq] at h
      obtain ⟨rfl, rfl⟩ := h
      exact ⟨l', rfl, findContainersItems_done re p l l' hw⟩
    | panic msg => simp only [hw, reduceCtorEq] at h
  | null => exact ⟨fun m hm => (by cases hm), fun l hl => (by cases hl)⟩
  | bool b => exact ⟨fun m hm => (by cases hm), fun l hl => (by cases hl)⟩
  | num f t => exact ⟨fun m hm => (by cases hm), fun l hl => (by cases hl)⟩
  | str s => exact ⟨fun m hm => (by cases hm), fun l hl => (by cases hl)⟩

/-- After a successful `findContainers` the mapping a step leads to is the
one `findAndReplaceImage` has left, and the keys are as before. -/
theorem findContainers_done (re : Regexp) (p : plugin) :
    ∀ (obj obj' : Object), findContainers re p obj = .done obj' none →
      (∀ s m, Object.descend obj s = some m →
        ∃ m', Object.descend obj' s = some m' ∧
          findAndReplaceImage re p m = .done m' none) ∧
      (∀ k, (Object.get obj' k).isSome = (Object.get obj k).isSome) := by
  intro obj
  induction obj with
  | nil =>
    intro obj' h
    simp only [findContainers, Walk.done.injEq, and_true] at h
    subst h
    exact ⟨fun s m hs => (by cases s <;> simp only [Object.descend, Object.get, reduceCtorEq] at hs), fun _ => rfl⟩
  | cons e rest ih =>
    intro obj' h
    obtain ⟨key, v⟩ := e
    simp only [findContainers] at h
    cases hv : findContainersValue re p v with
    | panic msg => simp only [hv, reduceCtorEq] at h
    | done v' e =>
      cases e with
      | some e => simp only [hv, Walk.done.injEq, reduceCtorEq, and_false] at h
      | none =>
        simp only [hv] at h
        obtain ⟨t, ht, rfl⟩ := Walk.cons_eq_done _ _ _ _ h
        obtain ⟨ihd, ihk⟩ := ih t ht
        obtain ⟨hmap, hlist⟩ := findContainersValue_done re p v v' hv
        constructor
        · intro s m hs
          cases s with
          | key k =>
            by_cases hk : key = k
            · subst hk
              rcases v with _ | b | ⟨f, t⟩ | s | l | m₀ <;>
                try (simp only [Object.descend, Object.get, if_true, reduceCtorEq] at hs; done)
              simp only [Object.descend, Object.get, if_true, Option.some.injEq] at hs
              subst hs
              obtain ⟨m', rfl, hm'⟩ := hmap m₀ rfl
              exact ⟨m', by simp only [Object.descend, Object.get, if_true], hm'⟩
            · have h₁ : Object.descend rest (.key k) = some m := by
                simpa only [Object.descend, Object.get, hk, if_false] using hs
              obtain ⟨m', hm', hf⟩ := ihd (.key k) m h₁
              exact ⟨m', by simpa only [Object.descend, Object.get, hk, if_false] using hm', hf⟩
          | item k i =>
            by_cases hk : key = k
            · subst hk
              rcases v with _ | b | ⟨f, t⟩ | s | l | m₀ <;>
                try (simp only [Object.descend, Object.get, if_true, reduceCtorEq] at hs; done)
              obtain ⟨l', rfl, hl'⟩ := hlist l rfl
              cases hi : l.get? i with
              | none => simp only [Object.descend, Object.get, if_true, hi, reduceCtorEq] at hs
              | some x =>
                rcases x with _ | b | ⟨f, t⟩ | s | l₀ | m₀ <;>
                  try (simp only [Object.descend, Object.get, if_true, hi, reduceCtorEq] at hs; done)
                simp only [Object.descend, Object.get, if_true, hi, Option.some.injEq] at hs
                subst hs
                obtain ⟨m', hm', hf⟩ := hl' i m₀ hi
                exact ⟨m', by simp only [Object.descend, Object.get, if_true, hm'], hf⟩
            · have h₁ : Object.descend rest (.item k i) = some m := by
                simpa only [Object.descend, Object.get, hk, if_false] using hs
              obtain ⟨m', hm', hf⟩ := ihd (.item k i) m h₁
              exact ⟨m', by simpa only [Object.descend, Object.get, hk, if_false] using hm', hf⟩
        · intro k
          by_cases hk : key = k
          · simp only [Object.get, hk, if_true, Option.isSome_some]
          · simp only [Object.get, hk, if_false]
            exact ihk k

theorem findAndReplaceImage_walkTo (re : Regexp) (p : plugin) :
    ∀ (path : List Step) (obj obj' o : Object),
      findAndReplaceImage re p obj = .done obj' none →
      Object.walkTo obj path = some o →
      ∃ o', Object.walkTo obj' path = some o' ∧
        findAndReplaceImage re p o = .done o' none := by
  intro path
  induction path with
  | nil =>
    intro obj obj' o h hw
    simp only [Object.walkTo, Option.some.injEq] at hw
    subst hw
    exact ⟨obj', rfl, h⟩
  | cons s path ih =>
    intro obj obj' o h hw
    rw [Object.walkTo] at hw
    by_cases hc : Object.holdsContainers obj = true
    · rw [if_pos hc] at hw
      cases hw
    · rw [if_neg hc] at hw
      cases hd : Object.descend obj s with
      | none => simp only [hd, reduceCtorEq] at hw
      | some m =>
        simp only [hd] at hw
        rcases findAndReplaceImageWith_done re p obj obj' _ h with ⟨_, hdeep⟩ | ⟨hc', _⟩
        · obtain ⟨hdesc, hkeys⟩ := findContainers_done re p obj obj' hdeep
          obtain ⟨m', hm', hf⟩ := hdesc s m hd
          obtain ⟨o', ho', hfo⟩ := ih m m' o hf hw
          refine ⟨o', ?_, hfo⟩
          have hc'' : ¬ Object.holdsContainers obj' = true := by
            unfold Object.holdsContainers at hc ⊢
            rw [hkeys, hkeys]
            exact hc
          rw [Object.walkTo, if_neg hc'']
          simp only [hm', ho']
        · exact absurd hc' hc

/-- C15, amended: after `findAndReplaceImage` has returned nil, at every
mapping the walk arrives at (from the root through mappings and through the
mapping items of lists, none of them with the key `containers` or
`initContainers`) the value of `containers` and of `initContainers` is a list
of mappings, of the same length as before, and every entry with an `image`
has it replaced by what `mutateImage` returns for it, the other entries being
as before. -/
theorem findAndReplaceImage_rewrites_reached (re : Regexp) (p : plugin)
    (obj obj' o : Object) (path : List Step) (c : Str) (v : Value)
    (h : findAndReplaceImage re p obj = .done obj' none)
    (hw : Object.walkTo obj path = some o)
    (hc : c = "containers".toList ∨ c = "initContainers".toList)
    (hv : Object.get o c = some v) :
    ∃ o' l l', Object.walkTo obj' path = some o' ∧ v = .list l ∧
      Object.get o' c = some (.list l') ∧ l'.length = l.length ∧
      ∀ i x, l.get? i = some x →
        ∃ e, x = .map e ∧
          ((Object.get e "image".toList = none ∧ l'.get? i = some x) ∨
            ∃ s w, Object.get e "image".toList = some (.str s) ∧
              mutateImage re p (.str s) = .ok w ∧
              l'.get? i = some (.map (Object.set e "image".toList w))) := by
  obtain ⟨o', ho', hf⟩ := findAndReplaceImage_walkTo re p path obj obj' o h hw
  rcases findAndReplaceImageWith_done re p o o' _ hf with ⟨hn, _⟩ | ⟨_, hall⟩
  · exfalso
    unfold Object.holdsContainers at hn
    rcases hc with rfl | rfl
    · rw [hv] at hn
      simp at hn
    · rw [hv] at hn
      simp at hn
  · obtain ⟨l, l', rfl, hg, hr⟩ := hall c hc v hv
    refine ⟨o', l, l', ho', rfl, hg, hr.length_eq.symm, ?_⟩
    intro i x hi
    obtain ⟨x', hx', e, rfl, hrel⟩ := forall₂_get?_left hr i x hi
    refine ⟨e, rfl, ?_⟩
    rcases hrel with ⟨hnone, rfl⟩ | ⟨s, w, hs, hmu, rfl⟩
    · exact Or.inl ⟨hnone, hx'⟩
    · exact Or.inr ⟨s, w, hs, hmu, hx'⟩

/-- An instance of the amended C15: the `containers` list below `spec`. -/
theorem findAndReplaceImage_rewrites_reached_witness :
    ∃ o' l l', Object.walkTo
        [("spec".toList, .map [("containers".toList,
          .list [.map [("name".toList, .str "web".toList),
                       ("image".toList, .str "nginx:v2".toList)]])])]
        [.key "spec".toList] = some o' ∧
      Value.list [.map [("name".toList, .str "web".toList),
                        ("image".toList, .str "nginx".toList)]] = .list l ∧
      Object.get o' "containers".toList = some (.list l') ∧ l'.length = l.length ∧
      ∀ i x, l.get? i = some x →
        ∃ e, x = .map e ∧
          ((Object.get e "image".toList = none ∧ l'.get? i = some x) ∨
            ∃ s w, Object.get e "image".toList = some (.str s) ∧
              mutateImage goRegexp sampleTagPlugin (.str s) = .ok w ∧
              l'.get? i = some (.map (Object.set e "image".toList w))) :=
  findAndReplaceImage_rewrites_reached goRegexp sampleTagPlugin samplePod _ _
    [.key "spec".toList] "containers".toList _ rfl rfl (Or.inl rfl) rfl

/-- C15 as stated fails: with a `containers` key at the root the walk does not
go below the other keys, and the image `nginx` of the `containers` list below
`other` stays, although `mutateImage` turns it into `nginx:v2`. -/
theorem findAndReplaceImage_nested_counterexample :
    findAndReplaceImage goRegexp sampleTagPlugin sampleNested = .done sampleNested none ∧
    Object.get sampleNested "other".toList =
      some (.map [("containers".toList,
        .list [.map [("image".toList, .str "nginx".toList)]])]) ∧
    mutateImage goRegexp sampleTagPlugin (.str "nginx".toList) =
      .ok (.str "nginx:v2".toList) :=
  ⟨rfl, rfl, rfl⟩

end ImageTagTransformer

namespace NamespaceTransformer

/-! ## The namespace transformer -/

/-- C16: on a list, the function `changeNamespace` returns gives a list of
the same length in which an item that is a mapping with the `name` `default`
has `namespace` set to the configured namespace and its other keys as they
were, and every other item is as it was. -/
theorem changeNamespace_list (o : plugin) (referrer : Resource) (l : List Value) :
    ∃ l', changeNamespace o referrer (.list l) = .ok (.list l') ∧
      l'.length = l.length ∧
      ∀ i item, l.get? i = some item →
        ((∀ m, item = .map m →
            Object.get m "name".toList = some (.str "default".toList) →
            ∃ m', l'.get? i = some (.map m') ∧
              Object.get m' "namespace".toList = some (.str o.Namespace) ∧
              ∀ k, k ≠ "namespace".toList → Object.get m' k = Object.get m k) ∧
          ((∀ m, item = .map m →
              Object.get m "name".toList ≠ some (.str "default".toList)) →
            l'.get? i = some item)) := by
  refine ⟨l.map (changeNamespaceItem o), rfl, by simp, ?_⟩
  intro i item hi
  have hget : (l.map (changeNamespaceItem o)).get? i = some (changeNamespaceItem o item) := by
    rw [List.get?_eq_getElem?, List.getElem?_map, ← List.get?_eq_getElem?, hi]
    rfl
  rw [hget]
  constructor
  · rintro m rfl hname
    refine ⟨Object.set m "namespace".toList (.str o.Namespace), ?_, ?_, ?_⟩
    · simp only [changeNamespaceItem, hname, ne_eq, not_true_eq_false, if_false]
    · rw [Object.get_set, if_pos rfl]
    · intro k hk
      rw [Object.get_set, if_neg hk]
  · intro hne
    cases item with
    | map m =>
      have hm := hne m rfl
      cases hn : Object.get m "name".toList with
      | none => simp only [changeNamespaceItem, hn]
      | some v =>
        cases v with
        | str name =>
          have hd : name ≠ "default".toList := by
            intro e
            rw [hn, e] at hm
            exact hm rfl
          simp only [changeNamespaceItem, hn, ne_eq, hd, not_false_eq_true, if_true]
        | null => simp only [changeNamespaceItem, hn]
        | bool b => simp only [changeNamespaceItem, hn]
        | num f t => simp only [changeNamespaceItem, hn]
        | list l => simp only [changeNamespaceItem, hn]
        | map m' => simp only [changeNamespaceItem, hn]
    | null => rfl
    | bool b => rfl
    | num f t => rfl
    | str s => rfl
    | list l => rfl

theorem applicableFieldSpecsFrom_eq (ops : GvkOps) (id : ResId) :
    ∀ (fss res : List FieldSpec),
      applicableFieldSpecsFrom ops id fss res =
        res ++ fss.filter (fun fs =>
          id.IsSelected fs.Gvk &&
            (decide (fs.Path ≠ "metadata/namespace".toList) || id.IsNamespaceableKind ops)) := by
  intro fss
  induction fss with
  | nil => intro res; simp [applicableFieldSpecsFrom]
  | cons fs fss ih =>
    intro res
    have hiff : (id.IsSelected fs.Gvk &&
        (decide (fs.Path ≠ "metadata/namespace".toList) || id.IsNamespaceableKind ops)) = true ↔
        (id.IsSelected fs.Gvk = true ∧ (fs.Path ≠ metaNamespace ∨
          (fs.Path = metaNamespace ∧ id.IsNamespaceableKind ops = true))) := by
      unfold metaNamespace
      rw [Bool.and_eq_true, Bool.or_eq_true, decide_eq_true_eq]
      tauto
    rw [applicableFieldSpecsFrom, List.filter_cons]
    by_cases hc : id.IsSelected fs.Gvk = true ∧ (fs.Path ≠ metaNamespace ∨
        (fs.Path = metaNamespace ∧ id.IsNamespaceableKind ops = true))
    · rw [if_pos hc, if_pos (hiff.mpr hc), ih, List.append_assoc]
      rfl
    · rw [if_neg hc, if_neg (fun h => hc (hiff.mp h)), ih]

/-- C17: `applicableFieldSpecs id` is the configured field specs filtered, in
their order, by "selects `id`, and has a path other than `metadata/namespace`
or `id` is of a namespaceable kind"; for an id of a kind that is not
namespaceable no field spec of the result has the path `metadata/namespace`,
and for an id of a namespaceable kind the result is all the field specs that
select it. -/
theorem applicableFieldSpecs_eq_filter (ops : GvkOps) (p : plugin) (id : ResId) :
    applicableFieldSpecs ops p id =
      p.FieldSpecs.filter (fun fs =>
        id.IsSelected fs.Gvk &&
          (decide (fs.Path ≠ "metadata/namespace".toList) || id.IsNamespaceableKind ops)) ∧
    List.Sublist (applicableFieldSpecs ops p id) p.FieldSpecs ∧
    (id.IsNamespaceableKind ops = false →
      ∀ fs ∈ applicableFieldSpecs ops p id, fs.Path ≠ "metadata/namespace".toList) ∧
    (id.IsNamespaceableKind ops = true →
      applicableFieldSpecs ops p id =
        p.FieldSpecs.filter (fun fs => id.IsSelected fs.Gvk)) := by
  have h := applicableFieldSpecsFrom_eq ops id p.FieldSpecs []
  simp only [List.nil_append] at h
  unfold applicableFieldSpecs
  refine ⟨h, ?_, ?_, ?_⟩
  · rw [h]
    exact List.filter_sublist _
  · intro hn fs hfs
    rw [h, List.mem_filter, Bool.and_eq_true, Bool.or_eq_true, decide_eq_true_eq, hn] at hfs
    rcases hfs.2.2 with h' | h'
    · exact h'
    · cases h'
  · intro hn
    rw [h]
    congr 1
    funext fs
    rw [hn, Bool.or_true, Bool.and_true]

end NamespaceTransformer

theorem Gvk.equals_self (g : Gvk) : g.Equals g = true := by
  simp [Gvk.Equals]

theorem Gvk.equals_comm (a b : Gvk) : a.Equals b = b.Equals a := by
  simp only [Gvk.Equals]
  rw [Bool.eq_iff_iff]
  simp only [Bool.and_eq_true, beq_iff_eq]
  constructor <;> rintro ⟨⟨h1, h2⟩, h3⟩ <;> exact ⟨⟨h1.symm, h2.symm⟩, h3.symm⟩

theorem ResId.Equals_refl (ops : GvkOps) (a : ResId) : a.Equals ops a = true := by
  simp [ResId.Equals, ResId.IsNsEquals, ResId.GvknEquals, Gvk.equals_self]

theorem ResId.Equals_symm (ops : GvkOps) (a b : ResId) : a.Equals ops b = b.Equals ops a := by
  simp only [ResId.Equals, ResId.IsNsEquals, ResId.GvknEquals, Gvk.equals_comm a.Gvk b.Gvk]
  rw [Bool.eq_iff_iff]
  simp only [Bool.and_eq_true, beq_iff_eq]
  constructor <;> rintro ⟨h1, h2, h3⟩ <;> exact ⟨h1.symm, h2.symm, h3⟩

/-- A list in which the element at one index satisfies a predicate and no
element at another index does, has one element that satisfies it. -/
theorem countP_eq_one_of_get? {α : Type} (q : α → Bool) :
    ∀ (l : List α) (t : Nat) (y : α), l.get? t = some y → q y = true →
      (∀ j z, j ≠ t → l.get? j = some z → q z = false) → l.countP q = 1 := by
  intro l
  induction l with
  | nil => intro t y ht; simp at ht
  | cons x xs ih =>
    intro t y ht hy hother
    cases t with
    | zero =>
      simp only [List.get?_cons_zero, Option.some.injEq] at ht
      subst ht
      have hz : xs.countP q = 0 := by
        rw [List.countP_eq_zero]
        intro z hz
        obtain ⟨j, hj⟩ := List.get?_of_mem hz
        have := hother (j + 1) z (by omega) (by simpa using hj)
        simp [this]
      rw [List.countP_cons_of_pos _ _ hy, hz]
    | succ t =>
      simp only [List.get?_cons_succ] at ht
      have hx : q x = false := hother 0 x (by omega) rfl
      have hxs := ih t y ht hy (fun j z hj hz =>
        hother (j + 1) z (by omega) (by simpa using hz))
      have hx' : ¬ q x = true := by simp [hx]
      rw [List.countP_cons_of_neg _ _ hx', hxs]

/-- When one element of `a ++ y :: b` satisfies a predicate and `y` does, no
element of `a` and none of `b` does. -/
theorem not_of_filter_length_eq_one {α : Type} (q : α → Bool) (a b : List α) (y : α)
    (h : ((a ++ y :: b).filter q).length = 1) (hy : q y = true) :
    (∀ z ∈ a, q z = false) ∧ (∀ z ∈ b, q z = false) := by
  rw [← List.countP_eq_length_filter, List.countP_append, List.countP_cons_of_pos _ _ hy] at h
  have ha : a.countP q = 0 := by omega
  have hb : b.countP q = 0 := by omega
  rw [List.countP_eq_zero] at ha hb
  exact ⟨fun z hz => by simpa using ha z hz, fun z hz => by simpa using hb z hz⟩

namespace NamespaceTransformer

/-- What the loop of `Transform` has done when it ends without error: every
resource without content is as it was, and the check after every other
resource has found no resource with its id among those before it (in their
final state) and among those after it (in their state then). -/
theorem transformFrom_done (gops : GvkOps) (tops : TransformerOps) (rops : ResourceOps)
    (p : plugin) :
    ∀ (todo seen out : List Resource),
      transformFrom gops tops rops p seen todo = .done out none →
      ∃ todo', out = seen ++ todo' ∧ todo'.length = todo.length ∧
        (∀ i x, todo.get? i = some x → x.Map.length = 0 → todo'.get? i = some x) ∧
        (∀ i x y, todo.get? i = some x → x.Map.length ≠ 0 → todo'.get? i = some y →
          (∀ z ∈ seen, (rops.CurId y).Equals gops (rops.CurId z) = false) ∧
          (∀ j z, j < i → todo'.get? j = some z →
            (rops.CurId y).Equals gops (rops.CurId z) = false) ∧
          (∀ j z, i < j → todo.get? j = some z →
            (rops.CurId y).Equals gops (rops.CurId z) = false)) := by
  intro todo
  induction todo with
  | nil =>
    intro seen out h
    simp only [transformFrom, Walk.done.injEq, and_true] at h
    subst h
    exact ⟨[], by simp, rfl, fun i x hi => by simp at hi, fun i x y hi => by simp at hi⟩
  | cons r rest ih =>
    intro seen out h
    rw [transformFrom] at h
    by_cases he : r.Map.length = 0
    · rw [if_pos he] at h
      obtain ⟨rest', rfl, hlen, hA, hB⟩ := ih _ out h
      refine ⟨r :: rest', by simp, by simp [hlen], ?_, ?_⟩
      · intro i x hi hx
        cases i with
        | zero => simpa using hi
        | succ i => simpa using hA i x (by simpa using hi) hx
      · intro i x y hi hx hy
        cases i with
        | zero =>
          simp only [List.get?_cons_zero, Option.some.injEq] at hi
          subst hi
          exact absurd he hx
        | succ i =>
          obtain ⟨h1, h2, h3⟩ := hB i x y (by simpa using hi) hx (by simpa using hy)
          refine ⟨fun z hz => h1 z (by simp [hz]), ?_, ?_⟩
          · intro j z hj hz
            cases j with
            | zero =>
              simp only [List.get?_cons_zero, Option.some.injEq] at hz
              subst hz
              exact h1 r (by simp)
            | succ j => exact h2 j z (by omega) (by simpa using hz)
          · intro j z hj hz
            cases j with
            | zero => omega
            | succ j => exact h3 j z (by omega) (by simpa using hz)
    · rw [if_neg he] at h
      simp only at h
      cases hm : mutateFields tops p (applicableFieldSpecs gops p r.OrgId) r with
      | panic msg => simp only [hm, reduceCtorEq] at h
      | done r' e =>
        cases e with
        | some e => simp only [hm, Walk.done.injEq, reduceCtorEq, and_false] at h
        | none =>
          simp only [hm] at h
          by_cases hc : (GetMatchingResourcesByCurrentId rops (seen ++ r' :: rest)
              ((rops.CurId r').Equals gops)).length ≠ 1
          · rw [if_pos hc] at h
            simp only [Walk.done.injEq, reduceCtorEq, and_false] at h
          · rw [if_neg hc] at h
            obtain ⟨rest', rfl, hlen, hA, hB⟩ := ih _ out h
            have hcheck := not_of_filter_length_eq_one _ seen rest r' (not_not.mp hc)
              (ResId.Equals_refl gops _)
            refine ⟨r' :: rest', by simp, by simp [hlen], ?_, ?_⟩
            · intro i x hi hx
              cases i with
              | zero =>
                simp only [List.get?_cons_zero, Option.some.injEq] at hi
                subst hi
                exact absurd hx he
              | succ i => simpa using hA i x (by simpa using hi) hx
            · intro i x y hi hx hy
              cases i with
              | zero =>
                simp only [List.get?_cons_zero, Option.some.injEq] at hy
                subst hy
                refine ⟨hcheck.1, fun j z hj _ => by omega, ?_⟩
                intro j z hj hz
                cases j with
                | zero => omega
                | succ j =>
                  exact hcheck.2 z (List.get?_mem (by simpa using hz))
              | succ i =>
                obtain ⟨h1, h2, h3⟩ := hB i x y (by simpa using hi) hx (by simpa using hy)
                refine ⟨fun z hz => h1 z (by simp [hz]), ?_, ?_⟩
                · intro j z hj hz
                  cases j with
                  | zero =>
                    simp only [List.get?_cons_zero, Option.some.injEq] at hz
                    subst hz
                    exact h1 r' (by simp)
                  | succ j => exact h2 j z (by omega) (by simpa using hz)
                · intro j z hj hz
                  cases j with
                  | zero => omega
                  | succ j => exact h3 j z (by omega) (by simpa using hz)

theorem filter_eq_singleton {α : Type} (q : α → Bool) (l : List α) (y : α)
    (hc : l.countP q = 1) (hy : y ∈ l) (hq : q y = true) : l.filter q = [y] := by
  have hl : (l.filter q).length = 1 := by rw [← List.countP_eq_length_filter, hc]
  have hm : y ∈ l.filter q := List.mem_filter.mpr ⟨hy, hq⟩
  match hf : l.filter q, hl with
  | [w], _ =>
    rw [hf] at hm
    simp only [List.mem_singleton] at hm
    rw [hm]

/-- The loop of `Transform` gets through resources that pass: when every
resource of `pre` is without content, or is mutated without error into its
state in `seen` and is then the only resource of the map with its id, the
loop goes on behind `pre` with `seen` as the resources it is through with. -/
theorem transformFrom_passed (gops : GvkOps) (tops : TransformerOps) (rops : ResourceOps)
    (p : plugin) (tail : List Resource) :
    ∀ (pre seen₀ seen : List Resource), seen.length = pre.length →
      (∀ j x y, pre.get? j = some x → seen.get? j = some y →
        (x.Map = [] ∧ y = x) ∨
        (x.Map ≠ [] ∧
          mutateFields tops p (applicableFieldSpecs gops p x.OrgId) x = .done y none ∧
          (GetMatchingResourcesByCurrentId rops
            (seen₀ ++ seen.take j ++ y :: (pre.drop (j + 1) ++ tail))
            ((rops.CurId y).Equals gops)).length = 1)) →
      transformFrom gops tops rops p seen₀ (pre ++ tail) =
        transformFrom gops tops rops p (seen₀ ++ seen) tail := by
  intro pre
  induction pre with
  | nil =>
    intro seen₀ seen hlen _
    have : seen = [] := List.length_eq_zero.mp hlen
    subst this
    rw [List.nil_append, List.append_nil]
  | cons x pre ih =>
    intro seen₀ seen hlen h
    cases seen with
    | nil => cases hlen
    | cons y seen =>
      have hlen' : seen.length = pre.length := Nat.succ.inj hlen
      have hstep : ∀ j x' y', pre.get? j = some x' → seen.get? j = some y' →
          (x'.Map = [] ∧ y' = x') ∨
          (x'.Map ≠ [] ∧
            mutateFields tops p (applicableFieldSpecs gops p x'.OrgId) x' = .done y' none ∧
            (GetMatchingResourcesByCurrentId rops
              ((seen₀ ++ [y]) ++ seen.take j ++ y' :: (pre.drop (j + 1) ++ tail))
              ((rops.CurId y').Equals gops)).length = 1) := by
        intro j x' y' hx hy
        have := h (j + 1) x' y' hx hy
        rw [List.take_succ_cons, List.drop_succ_cons] at this
        rw [List.append_assoc seen₀ [y], List.singleton_append]
        exact this
      have hgoal : seen₀ ++ y :: seen = (seen₀ ++ [y]) ++ seen := by
        rw [List.append_assoc, List.singleton_append]
      rw [hgoal, ← ih (seen₀ ++ [y]) seen hlen' hstep, List.cons_append, transformFrom]
      rcases h 0 x y rfl rfl with ⟨hx, hy⟩ | ⟨hx, hm, hc⟩
      · subst hy
        rw [if_pos (List.length_eq_zero.mpr hx)]
      · have he : ¬ x.Map.length = 0 := fun e => hx (List.length_eq_zero.mp e)
        rw [List.take_zero, List.append_nil, List.drop_succ_cons, List.drop_zero] at hc
        rw [if_neg he]
        simp only [hm]
        rw [if_neg (not_not.mpr hc)]

/-- C18: for a configured namespace that is not empty.  When `Transform`
returns nil, the map has as many resources as before and every resource of
the map with content is the only resource of the map whose current id
`Equals` its current id.  And when the loop has passed the resources `pre`
before a resource `r` with content (each was without content, or was mutated
without error into its state in `seen` and was then the only resource of the
map with its id), the field specs have been applied to `r` without error,
and the number of resources of the map whose current id `Equals` the current
id of `r` is then not 1, `Transform` returns the ID conflict error and
leaves the map in that state. -/
theorem Transform_unique_ids (gops : GvkOps) (tops : TransformerOps) (rops : ResourceOps)
    (p : plugin) (hns : p.Namespace ≠ []) :
    (∀ m out, Transform gops tops rops p m = .done out none →
      out.length = m.length ∧
      ∀ y ∈ out, y.Map ≠ [] →
        GetMatchingResourcesByCurrentId rops out ((rops.CurId y).Equals gops) = [y]) ∧
    (∀ pre seen r r' rest, seen.length = pre.length →
      (∀ j x y, pre.get? j = some x → seen.get? j = some y →
        (x.Map = [] ∧ y = x) ∨
        (x.Map ≠ [] ∧
          mutateFields tops p (applicableFieldSpecs gops p x.OrgId) x = .done y none ∧
          (GetMatchingResourcesByCurrentId rops
            (seen.take j ++ y :: (pre.drop (j + 1) ++ r :: rest))
            ((rops.CurId y).Equals gops)).length = 1)) →
      r.Map ≠ [] →
      mutateFields tops p (applicableFieldSpecs gops p r.OrgId) r = .done r' none →
      (GetMatchingResourcesByCurrentId rops (seen ++ r' :: rest)
        ((rops.CurId r').Equals gops)).length ≠ 1 →
      Transform gops tops rops p (pre ++ r :: rest) =
        .done (seen ++ r' :: rest)
          (some ("namespace tranformation produces ID conflict: ".toList ++
            rops.GoString (GetMatchingResourcesByCurrentId rops (seen ++ r' :: rest)
              ((rops.CurId r').Equals gops))))) := by
  have hns' : ¬ p.Namespace.length = 0 := fun e => hns (List.length_eq_zero.mp e)
  constructor
  · intro m out h
    rw [Transform, if_neg hns'] at h
    obtain ⟨out', hout, hlen, hA, hB⟩ := transformFrom_done gops tops rops p m [] out h
    rw [List.nil_append] at hout
    subst hout
    refine ⟨hlen, ?_⟩
    intro y hy hyc
    obtain ⟨t, ht⟩ := List.get?_of_mem hy
    have htlt : t < m.length := by
      rw [← hlen]
      exact List.get?_eq_some.mp ht |>.1
    obtain ⟨x, hx⟩ : ∃ x, m.get? t = some x := ⟨m.get ⟨t, htlt⟩, List.get?_eq_get htlt⟩
    have hxc : x.Map.length ≠ 0 := by
      intro e
      have := hA t x hx e
      rw [ht] at this
      cases this
      exact hyc (List.length_eq_zero.mp e)
    obtain ⟨-, h2, h3⟩ := hB t x y hx hxc ht
    unfold GetMatchingResourcesByCurrentId
    apply filter_eq_singleton _ _ _ _ hy (ResId.Equals_refl gops _)
    apply countP_eq_one_of_get? _ out t y ht (ResId.Equals_refl gops _)
    intro j z hjt hz
    rcases Nat.lt_or_gt_of_ne hjt with hj | hj
    · exact h2 j z hj hz
    · have hjlt : j < m.length := by
        rw [← hlen]
        exact List.get?_eq_some.mp hz |>.1
      obtain ⟨xj, hxj⟩ : ∃ xj, m.get? j = some xj :=
        ⟨m.get ⟨j, hjlt⟩, List.get?_eq_get hjlt⟩
      by_cases hxjc : xj.Map.length = 0
      · have := hA j xj hxj hxjc
        rw [hz] at this
        cases this
        exact h3 j z hj hxj
      · obtain ⟨-, h2', -⟩ := hB j xj z hxj hxjc hz
        rw [ResId.Equals_symm]
        exact h2' t y hj ht
  · intro pre seen r r' rest hlen hpre hr hm hc
    have he : ¬ r.Map.length = 0 := fun e => hr (List.length_eq_zero.mp e)
    rw [Transform, if_neg hns',
      transformFrom_passed gops tops rops p (r :: rest) pre [] seen hlen (by
        intro j x y hx hy
        rw [List.nil_append]
        exact hpre j x y hx hy),
      List.nil_append, transformFrom, if_neg he]
    simp only [hm]
    rw [if_pos hc]

end NamespaceTransformer

namespace HashTransformer

/-! ## The hash transformer -/

/-- C19: when `Transform` returns nil, the map has as many resources as
before, in the same places: a resource with `NeedHashSuffix` has been renamed
by `SetName` to its name, a hyphen and the hash the hasher gave for it as it
was before, which is its name when `GetName` reads what `SetName` has set;
a resource without `NeedHashSuffix` is as it was. -/
theorem Transform_appends_hash (rops : ResourceOps) (p : plugin) :
    ∀ (m out : List Resource), Transform rops p m = .done out none →
      out.length = m.length ∧
      ∀ i r, m.get? i = some r →
        (r.NeedHashSuffix = true →
          ∃ h, p.hasher r = .ok h ∧
            out.get? i = some (rops.SetName r (rops.GetName r ++ "-".toList ++ h)) ∧
            ((∀ x n, rops.GetName (rops.SetName x n) = n) →
              ∃ r', out.get? i = some r' ∧
                rops.GetName r' = rops.GetName r ++ "-".toList ++ h)) ∧
        (r.NeedHashSuffix = false → out.get? i = some r) := by
  intro m
  induction m with
  | nil =>
    intro out h
    simp only [Transform, Walk.done.injEq, and_true] at h
    subst h
    exact ⟨rfl, fun i r hi => by simp at hi⟩
  | cons res rest ih =>
    intro out h
    rw [Transform] at h
    by_cases hn : res.NeedHashSuffix = true
    · rw [if_pos hn] at h
      cases hh : p.hasher res with
      | ok hash =>
        simp only [hh] at h
        obtain ⟨out', hout', rfl⟩ := ImageTagTransformer.Walk.cons_eq_done _ _ _ _ h
        obtain ⟨hlen, hall⟩ := ih out' hout'
        refine ⟨by simp [hlen], ?_⟩
        intro i r hi
        cases i with
        | zero =>
          simp only [List.get?_cons_zero, Option.some.injEq] at hi
          subst hi
          refine ⟨fun _ => ⟨hash, hh, rfl, fun hlaw => ⟨_, rfl, hlaw _ _⟩⟩, fun hf => ?_⟩
          rw [hn] at hf
          cases hf
        | succ i => exact hall i r (by simpa using hi)
      | err e => simp only [hh, Walk.done.injEq, reduceCtorEq, and_false] at h
      | panic msg => simp only [hh, reduceCtorEq] at h
    · rw [if_neg hn] at h
      obtain ⟨out', hout', rfl⟩ := ImageTagTransformer.Walk.cons_eq_done _ _ _ _ h
      obtain ⟨hlen, hall⟩ := ih out' hout'
      refine ⟨by simp [hlen], ?_⟩
      intro i r hi
      cases i with
      | zero =>
        simp only [List.get?_cons_zero, Option.some.injEq] at hi
        subst hi
        exact ⟨fun ht => absurd ht hn, fun _ => rfl⟩
      | succ i => exact hall i r (by simpa using hi)

end HashTransformer

namespace LegacyOrderTransformer

/-! ## The legacy order transformer -/

theorem GetByCurrentId_ok_iff (rops : ResourceOps) (iops : IdOps) (m : List Resource)
    (id : ResId) (r : Resource) :
    GetByCurrentId rops iops m id = .ok r ↔
      m.filter (fun x => iops.Matches id (rops.CurId x)) = [r] := by
  unfold GetByCurrentId
  match hf : m.filter (fun x => iops.Matches id (rops.CurId x)) with
  | [] => simp
  | [w] => simp
  | w₁ :: w₂ :: ws => simp

theorem lookupAll_ok_iff (rops : ResourceOps) (iops : IdOps) (m : List Resource) :
    ∀ (ids : List ResId) (rs : List Resource),
      lookupAll rops iops m ids = .ok rs ↔
        List.Forall₂ (fun id r => m.filter (fun x => iops.Matches id (rops.CurId x)) = [r])
          ids rs := by
  intro ids
  induction ids with
  | nil =>
    intro rs
    simp only [lookupAll, Result.ok.injEq, List.forall₂_nil_left_iff]
    exact eq_comm
  | cons id ids ih =>
    intro rs
    rw [lookupAll]
    constructor
    · intro h
      cases hg : GetByCurrentId rops iops m id with
      | ok r =>
        simp only [hg] at h
        cases hl : lookupAll rops iops m ids with
        | ok rs' =>
          simp only [hl, Result.ok.injEq] at h
          subst h
          exact List.Forall₂.cons ((GetByCurrentId_ok_iff rops iops m id r).mp hg)
            ((ih rs').mp hl)
        | err e => simp only [hl, reduceCtorEq] at h
        | panic msg => simp only [hl, reduceCtorEq] at h
      | err e => simp only [hg, reduceCtorEq] at h
      | panic msg => simp only [hg, reduceCtorEq] at h
    · intro h
      cases h with
      | cons hr hrest =>
        rw [(GetByCurrentId_ok_iff rops iops m id _).mpr hr]
        simp only [(ih _).mpr hrest]

/-- Where every element is the only one of the list that it matches, no two
elements at different places match. -/
theorem pairwise_not_matches {α : Type} (M : α → α → Bool) (hrefl : ∀ a, M a a = true) :
    ∀ (l : List α), (∀ a ∈ l, l.countP (M a) = 1) →
      l.Pairwise (fun a b => M b a = false) := by
  intro l
  induction l with
  | nil => intro _; exact List.Pairwise.nil
  | cons a t ih =>
    intro h
    have hb : ∀ b ∈ t, M b a = false ∧ t.countP (M b) = 1 := by
      intro b hb
      have h1 := h b (List.mem_cons_of_mem _ hb)
      have h2 : 0 < t.countP (M b) := List.countP_pos_iff.mpr ⟨b, hb, hrefl b⟩
      by_cases hba : M b a = true
      · rw [List.countP_cons_of_pos _ _ hba] at h1
        omega
      · rw [List.countP_cons_of_neg _ _ hba] at h1
        exact ⟨by simpa using hba, h1⟩
    exact List.Pairwise.cons (fun b hbt => (hb b hbt).1) (ih (fun b hbt => (hb b hbt).2))

theorem foldl_Append_eq (rops : ResourceOps) (iops : IdOps) :
    ∀ (rs acc : List Resource),
      (acc ++ rs).Pairwise
        (fun x r => iops.Matches (rops.CurId r) (rops.CurId x) = false) →
      rs.foldl (Append rops iops) acc = acc ++ rs := by
  intro rs
  induction rs with
  | nil => intro acc _; simp
  | cons r rs ih =>
    intro acc h
    have hany : acc.any (fun x => iops.Matches (rops.CurId r) (rops.CurId x)) = false := by
      rw [List.any_eq_false]
      intro x hx
      have := (List.pairwise_append.mp h).2.2 x hx r (List.mem_cons_self _ _)
      simp [this]
    have h' : (acc ++ [r] ++ rs).Pairwise
        (fun x r => iops.Matches (rops.CurId r) (rops.CurId x) = false) := by
      simpa using h
    rw [List.foldl_cons, Append, hany, if_neg (by simp), ih _ h']
    simp

/-- Two sorted lists with the same elements are equal when the order has no
ties among these elements. -/
theorem eq_of_perm_of_pairwise {α : Type} (r : α → α → Prop) (l₁ l₂ : List α)
    (hp : l₁.Perm l₂) (h₁ : l₁.Pairwise r) (h₂ : l₂.Pairwise r)
    (ha : ∀ a ∈ l₁, ∀ b ∈ l₁, r a b → r b a → a = b) : l₁ = l₂ := by
  let r' : α → α → Prop := fun a b => r a b ∧ a ∈ l₁ ∧ b ∈ l₁
  haveI : IsAntisymm α r' := ⟨fun a b hab hba => ha a hab.2.1 b hab.2.2 hab.1 hba.1⟩
  have h₁' : l₁.Pairwise r' := h₁.imp_of_mem (fun ha hb hr => ⟨hr, ha, hb⟩)
  have h₂' : l₂.Pairwise r' :=
    h₂.imp_of_mem (fun ha hb hr => ⟨hr, hp.mem_iff.mpr ha, hp.mem_iff.mpr hb⟩)
  exact List.eq_of_perm_of_sorted hp h₁' h₂'

theorem map_CurId_of_found (rops : ResourceOps) (iops : IdOps) (m : List Resource)
    (hrefl : ∀ id, iops.Matches id id = true) :
    ∀ (ids : List ResId) (rs : List Resource),
      List.Forall₂ (fun id r => m.filter (fun x => iops.Matches id (rops.CurId x)) = [r])
        ids rs →
      (∀ id ∈ ids, id ∈ AllIds rops m) → rs.map rops.CurId = ids := by
  intro ids rs h
  induction h with
  | nil => intro _; rfl
  | @cons id r ids rs hr _ ih =>
    intro hmem
    have hid : id ∈ AllIds rops m := hmem id (List.mem_cons_self _ _)
    obtain ⟨r₀, hr₀, hcur⟩ := List.mem_map.mp hid
    have hin : r₀ ∈ m.filter (fun x => iops.Matches id (rops.CurId x)) :=
      List.mem_filter.mpr ⟨hr₀, by rw [hcur]; exact hrefl id⟩
    rw [hr, List.mem_singleton] at hin
    subst hin
    rw [List.map_cons, hcur, ih (fun x hx => hmem x (List.mem_cons_of_mem _ hx))]

/-- What `Transform` has done when it has found a resource for every id: the
resources are in the order of the sorted ids, each has the id it was found
by, and each id matches one id of the map only. -/
theorem lookupAll_sorted_ids (rops : ResourceOps) (iops : IdOps) (m rs : List Resource)
    (hperm : ∀ l, (iops.SortIds l).Perm l)
    (hrefl : ∀ id, iops.Matches id id = true)
    (h : lookupAll rops iops m (iops.SortIds (AllIds rops m)) = .ok rs) :
    rs.map rops.CurId = iops.SortIds (AllIds rops m) ∧
    ∀ id ∈ iops.SortIds (AllIds rops m),
      (iops.SortIds (AllIds rops m)).countP (iops.Matches id) = 1 := by
  have hf := (lookupAll_ok_iff rops iops m _ rs).mp h
  have hfound : ∀ id ∈ iops.SortIds (AllIds rops m), ∃ r,
      m.filter (fun x => iops.Matches id (rops.CurId x)) = [r] := by
    intro id hid
    obtain ⟨i, hi⟩ := List.get?_of_mem hid
    obtain ⟨r, _, hr⟩ := ImageTagTransformer.forall₂_get?_left hf i id hi
    exact ⟨r, hr⟩
  constructor
  · exact map_CurId_of_found rops iops m hrefl _ rs hf
      (fun id hid => (hperm _).mem_iff.mp hid)
  · intro id hid
    obtain ⟨r, hr⟩ := hfound id hid
    rw [(hperm _).countP_eq, AllIds, List.countP_map, List.countP_eq_length_filter]
    have : (fun x => iops.Matches id (rops.CurId x)) = (iops.Matches id ∘ rops.CurId) := rfl
    rw [← this, hr]
    rfl

/-- When the order is total (of two different ids one is less than the
other), a sort leaves a slice that is in ascending order as it is: the slice
is the only ascending arrangement of its ids. -/
theorem SortIds_eq_self_of_total (iops : IdOps)
    (hperm : ∀ l, (iops.SortIds l).Perm l)
    (hsorted : ∀ l, (iops.SortIds l).Pairwise (fun a b => iops.Less b a = false))
    (htotal : ∀ a b, iops.Less a b = false → iops.Less b a = false → a = b)
    (l : List ResId) (hl : l.Pairwise (fun a b => iops.Less b a = false)) :
    iops.SortIds l = l :=
  eq_of_perm_of_pairwise (fun a b => iops.Less b a = false) _ _ (hperm l) (hsorted l) hl
    (fun a _ b _ hab hba => htotal a b hba hab)

/-- C20: when `Transform` succeeds on a map, the current ids of the result
are the sorted ids of the map, and a second `Transform` succeeds and leaves
the resources exactly as the first one put them.  `sort.Sort` returns the ids
it is given in ascending order and leaves a slice that is in ascending order
as it is, and a lookup by an id finds the resources with that id; that the
ids of the map are pairwise distinct follows from the success of the
lookups. -/
theorem Transform_idempotent (rops : ResourceOps) (iops : IdOps) (m out : List Resource)
    (hperm : ∀ l, (iops.SortIds l).Perm l)
    (hsorted : ∀ l, (iops.SortIds l).Pairwise (fun a b => iops.Less b a = false))
    (hfix : ∀ l, l.Pairwise (fun a b => iops.Less b a = false) → iops.SortIds l = l)
    (hrefl : ∀ id, iops.Matches id id = true)
    (h : Transform rops iops m = .done out none) :
    AllIds rops out = iops.SortIds (AllIds rops m) ∧
      Transform rops iops out = .done out none := by
  unfold Transform at h
  cases hl : lookupAll rops iops m (iops.SortIds (AllIds rops m)) with
  | err e => simp only [hl, Walk.done.injEq, reduceCtorEq, and_false] at h
  | panic msg => simp only [hl, reduceCtorEq] at h
  | ok rs =>
    simp only [hl, Walk.done.injEq, and_true] at h
    obtain ⟨hmap, hcount⟩ := lookupAll_sorted_ids rops iops m rs hperm hrefl hl
    -- no resource found matches one found before it, so all of them are appended
    have hpw : rs.Pairwise
        (fun x r => iops.Matches (rops.CurId r) (rops.CurId x) = false) := by
      have := pairwise_not_matches iops.Matches hrefl _ hcount
      rw [← hmap, List.pairwise_map] at this
      exact this
    have hout : out = rs := by
      rw [← h, foldl_Append_eq rops iops rs [] (by simpa using hpw)]
      simp
    subst hout
    have hall : AllIds rops out = iops.SortIds (AllIds rops m) := hmap
    refine ⟨hall, ?_⟩
    -- the ids of the result are in ascending order, and sorting them again changes nothing
    have hids : iops.SortIds (AllIds rops out) = AllIds rops out := by
      apply hfix
      rw [hall]
      exact hsorted _
    -- every id finds its resource in the result
    have hfind : List.Forall₂
        (fun id r => out.filter (fun x => iops.Matches id (rops.CurId x)) = [r])
        (AllIds rops out) out := by
      unfold AllIds
      rw [List.forall₂_map_left_iff, List.forall₂_same]
      intro r hr
      apply NamespaceTransformer.filter_eq_singleton _ _ _ _ hr (hrefl _)
      have hc := hcount (rops.CurId r) (by rw [← hmap]; exact List.mem_map_of_mem _ hr)
      rw [← hmap, List.countP_map] at hc
      exact hc
    unfold Transform
    simp only [hids, (lookupAll_ok_iff rops iops out _ out).mpr hfind, h]

end LegacyOrderTransformer

namespace NamespaceTransformer

/-- An instance of C16, the subjects of scenario S2: the subject `default`
gets the namespace `newnamespace`, the subject `sa3` keeps `random`. -/
theorem changeNamespace_list_witness :
    changeNamespace { Namespace := "newnamespace".toList, FieldSpecs := [] }
        (sampleResource "ClusterRoleBinding" "manager-rolebinding" "" false)
        (.list [.map [("name".toList, .str "sa3".toList),
                      ("namespace".toList, .str "random".toList)],
                .map [("name".toList, .str "default".toList),
                      ("namespace".toList, .str "irrelevant".toList)]]) =
      .ok (.list [.map [("name".toList, .str "sa3".toList),
                        ("namespace".toList, .str "random".toList)],
                  .map [("name".toList, .str "default".toList),
                        ("namespace".toList, .str "newnamespace".toList)]]) ∧
    ∃ l', changeNamespace { Namespace := "newnamespace".toList, FieldSpecs := [] }
        (sampleResource "ClusterRoleBinding" "manager-rolebinding" "" false)
        (.list [.map [("name".toList, .str "default".toList)]]) = .ok (.list l') ∧
      l'.length = 1 :=
  ⟨rfl,
    (changeNamespace_list { Namespace := "newnamespace".toList, FieldSpecs := [] }
      (sampleResource "ClusterRoleBinding" "manager-rolebinding" "" false)
      [.map [("name".toList, .str "default".toList)]]).imp (fun _ h => ⟨h.1, h.2.1⟩)⟩

/-- Instances of C18: two Secrets named `dummy` in different namespaces pass,
and each is the only resource with its id; behind a Service that passes, two
Secrets `dummy` of which one has no namespace and the other the namespace
`default` give the ID conflict error. -/
theorem Transform_unique_ids_witness :
    ([sampleResource "Secret" "dummy" "default" false,
      sampleResource "Secret" "dummy" "kube-system" false].length = 2 ∧
      GetMatchingResourcesByCurrentId sampleResourceOps
        [sampleResource "Secret" "dummy" "default" false,
         sampleResource "Secret" "dummy" "kube-system" false]
        ((sampleResourceOps.CurId (sampleResource "Secret" "dummy" "default" false)).Equals
          kindOps) =
      [sampleResource "Secret" "dummy" "default" false]) ∧
    Transform kindOps noFieldOps sampleResourceOps
        { Namespace := "ns".toList, FieldSpecs := [] }
        [sampleResource "Service" "svc" "" false,
         sampleResource "Secret" "dummy" "" false,
         sampleResource "Secret" "dummy" "default" false] =
      .done [sampleResource "Service" "svc" "" false,
             sampleResource "Secret" "dummy" "" false,
             sampleResource "Secret" "dummy" "default" false]
        (some "namespace tranformation produces ID conflict: ".toList) :=
  ⟨⟨((Transform_unique_ids kindOps noFieldOps sampleResourceOps
        { Namespace := "ns".toList, FieldSpecs := [] } (by decide)).1
        [sampleResource "Secret" "dummy" "default" false,
         sampleResource "Secret" "dummy" "kube-system" false]
        [sampleResource "Secret" "dummy" "default" false,
         sampleResource "Secret" "dummy" "kube-system" false] rfl).1,
      ((Transform_unique_ids kindOps noFieldOps sampleResourceOps
        { Namespace := "ns".toList, FieldSpecs := [] } (by decide)).1
        [sampleResource "Secret" "dummy" "default" false,
         sampleResource "Secret" "dummy" "kube-system" false]
        [sampleResource "Secret" "dummy" "default" false,
         sampleResource "Secret" "dummy" "kube-system" false] rfl).2
        (sampleResource "Secret" "dummy" "default" false) (List.mem_cons_self _ _)
        (by simp [sampleResource])⟩,
    (Transform_unique_ids kindOps noFieldOps sampleResourceOps
      { Namespace := "ns".toList, FieldSpecs := [] } (by decide)).2
      [sampleResource "Service" "svc" "" false]
      [sampleResource "Service" "svc" "" false]
      (sampleResource "Secret" "dummy" "" false)
      (sampleResource "Secret" "dummy" "" false)
      [sampleResource "Secret" "dummy" "default" false]
      rfl
      (by
        intro j x y hx hy
        cases j with
        | zero =>
          simp only [List.get?_cons_zero, Option.some.injEq] at hx hy
          subst hx hy
          exact Or.inr ⟨by simp [sampleResource], rfl, by decide⟩
        | succ j => simp at hx)
      (by simp [sampleResource]) rfl (by decide)⟩

end NamespaceTransformer

namespace HashTransformer

/-- An instance of C19: the ConfigMap that needs a hash suffix is renamed,
the Service is not. -/
theorem Transform_appends_hash_witness :
    Transform sampleResourceOps { hasher := fun _ => .ok "k2h5m".toList }
        [sampleResource "ConfigMap" "cm" "" true, sampleResource "Service" "svc" "" false] =
      .done [sampleResourceOps.SetName (sampleResource "ConfigMap" "cm" "" true)
               "cm-k2h5m".toList,
             sampleResource "Service" "svc" "" false] none ∧
    [sampleResourceOps.SetName (sampleResource "ConfigMap" "cm" "" true) "cm-k2h5m".toList,
      sampleResource "Service" "svc" "" false].length = 2 :=
  ⟨rfl,
    (Transform_appends_hash sampleResourceOps { hasher := fun _ => .ok "k2h5m".toList }
      [sampleResource "ConfigMap" "cm" "" true, sampleResource "Service" "svc" "" false]
      _ rfl).1⟩

end HashTransformer

namespace LegacyOrderTransformer

theorem sampleIdOps_perm (l : List ResId) : (sampleIdOps.SortIds l).Perm l :=
  List.perm_insertionSort _ l

theorem sampleIdOps_sorted (l : List ResId) :
    (sampleIdOps.SortIds l).Pairwise (fun a b => sampleIdOps.Less b a = false) := by
  haveI : IsTotal ResId (fun a b => sampleRank a ≤ sampleRank b) :=
    ⟨fun a b => Nat.le_total _ _⟩
  haveI : IsTrans ResId (fun a b => sampleRank a ≤ sampleRank b) :=
    ⟨fun a b c => Nat.le_trans⟩
  have h := List.sorted_insertionSort (fun a b : ResId => sampleRank a ≤ sampleRank b) l
  refine List.Pairwise.imp ?_ h
  intro a b hab
  simp only [sampleIdOps, decide_eq_false_iff_not, not_lt]
  exact hab

/-- The sample sort is an insertion sort, which keeps ties in place: it
leaves a slice in ascending order as it is. -/
theorem sampleIdOps_fix (l : List ResId)
    (hl : l.Pairwise (fun a b => sampleIdOps.Less b a = false)) :
    sampleIdOps.SortIds l = l := by
  apply List.Sorted.insertionSort_eq
  refine List.Pairwise.imp ?_ hl
  intro a b hab
  simp only [sampleIdOps, decide_eq_false_iff_not, not_lt] at hab
  exact hab

/-- An instance of C20 with ids that tie: two Secrets named `dummy` in
different namespaces, a Service and a Namespace are put in the order
Namespace, Secret, Secret, Service, and a second `Transform` keeps it. -/
theorem Transform_idempotent_witness :
    Transform sampleResourceOps sampleIdOps
        [sampleResource "Service" "papaya" "" false,
         sampleResource "Secret" "dummy" "kube-system" false,
         sampleResource "Namespace" "apple" "" false,
         sampleResource "Secret" "dummy" "default" false] =
      .done [sampleResource "Namespace" "apple" "" false,
             sampleResource "Secret" "dummy" "kube-system" false,
             sampleResource "Secret" "dummy" "default" false,
             sampleResource "Service" "papaya" "" false] none ∧
    sampleIdOps.Less
        (sampleResourceOps.CurId (sampleResource "Secret" "dummy" "kube-system" false))
        (sampleResourceOps.CurId (sampleResource "Secret" "dummy" "default" false)) = false ∧
    sampleIdOps.Less
        (sampleResourceOps.CurId (sampleResource "Secret" "dummy" "default" false))
        (sampleResourceOps.CurId (sampleResource "Secret" "dummy" "kube-system" false)) = false ∧
    Transform sampleResourceOps sampleIdOps
        [sampleResource "Namespace" "apple" "" false,
         sampleResource "Secret" "dummy" "kube-system" false,
         sampleResource "Secret" "dummy" "default" false,
         sampleResource "Service" "papaya" "" false] =
      .done [sampleResource "Namespace" "apple" "" false,
             sampleResource "Secret" "dummy" "kube-system" false,
             sampleResource "Secret" "dummy" "default" false,
             sampleResource "Service" "papaya" "" false] none :=
  ⟨rfl, rfl, rfl,
    (Transform_idempotent sampleResourceOps sampleIdOps
      [sampleResource "Service" "papaya" "" false,
       sampleResource "Secret" "dummy" "kube-system" false,
       sampleResource "Namespace" "apple" "" false,
       sampleResource "Secret" "dummy" "default" false] _
      sampleIdOps_perm sampleIdOps_sorted sampleIdOps_fix
      (fun id => ResId.Equals_refl kindOps id) rfl).2⟩

end LegacyOrderTransformer

namespace LegacyOrderTransformer

/-- When `Transform` succeeds, the current ids of the result are the sorted
ids of the map it was given. -/
theorem Transform_done_ids (rops : ResourceOps) (iops : IdOps) (m out : List Resource)
    (hperm : ∀ l, (iops.SortIds l).Perm l)
    (hrefl : ∀ id, iops.Matches id id = true)
    (h : Transform rops iops m = .done out none) :
    AllIds rops out = iops.SortIds (AllIds rops m) := by
  unfold Transform at h
  cases hl : lookupAll rops iops m (iops.SortIds (AllIds rops m)) with
  | err e => simp only [hl, Walk.done.injEq, reduceCtorEq, and_false] at h
  | panic msg => simp only [hl, reduceCtorEq] at h
  | ok rs =>
    simp only [hl, Walk.done.injEq, and_true] at h
    obtain ⟨hmap, hcount⟩ := lookupAll_sorted_ids rops iops m rs hperm hrefl hl
    have hpw : rs.Pairwise
        (fun x r => iops.Matches (rops.CurId r) (rops.CurId x) = false) := by
      have := pairwise_not_matches iops.Matches hrefl _ hcount
      rw [← hmap, List.pairwise_map] at this
      exact this
    have hout : out = rs := by
      rw [← h, foldl_Append_eq rops iops rs [] (by simpa using hpw)]
      simp
    subst hout
    exact hmap

/-- After `Transform` has succeeded, no resource of the map has an id that is
less than the id of the resource before it, whatever the order `Less` is:
`sort.Sort` returns the ids it is given with no id less than the one before
it, and a lookup by an id finds the resources with that id. -/
theorem Transform_ascending (rops : ResourceOps) (iops : IdOps) (m out : List Resource)
    (hperm : ∀ l, (iops.SortIds l).Perm l)
    (hsorted : ∀ l, (iops.SortIds l).Chain' (fun a b => iops.Less b a = false))
    (hrefl : ∀ id, iops.Matches id id = true)
    (h : Transform rops iops m = .done out none) :
    out.Chain' (fun r s => iops.Less (rops.CurId s) (rops.CurId r) = false) := by
  have hids := Transform_done_ids rops iops m out hperm hrefl h
  have hs := hsorted (AllIds rops m)
  rw [← hids, AllIds, List.chain'_map] at hs
  exact hs

end LegacyOrderTransformer

namespace PatchJson6902Transformer

/-- C22: when the configuration does not decode, names no target, gives
neither a path nor a `jsonOp`, or gives both, `Config` returns an error and
leaves the loader as it was: no file is loaded.  So when `Config` succeeds,
the configuration decodes, names a target and gives a path or a `jsonOp`,
not both. -/
theorem Config_rejects_without_loading {σ : Type} (ops : ConfigOps σ) (ldr : σ)
    (p : plugin) (c : Str) :
    (∀ q err, ops.Unmarshal c p = .done q err →
      (err ≠ none ∨ q.Target.Name = [] ∨ (q.Path = [] ∧ q.JsonOp = []) ∨
        (q.Path ≠ [] ∧ q.JsonOp ≠ [])) →
      ∃ e, Config ops ldr p c = (.done q (some e), ldr)) ∧
    (∀ r ldr', Config ops ldr p c = (.done r none, ldr') →
      ∃ q, ops.Unmarshal c p = .done q none ∧ q.Target.Name ≠ [] ∧
        ((q.Path ≠ [] ∧ q.JsonOp = []) ∨ (q.Path = [] ∧ q.JsonOp ≠ []))) := by
  constructor
  · intro q err hu hbad
    unfold Config
    cases err with
    | some e => exact ⟨e, by simp only [hu]⟩
    | none =>
      simp only [hu]
      rcases hbad with h | h | h | h
      · exact absurd rfl h
      · exact ⟨_, by rw [if_pos h]⟩
      · by_cases hn : q.Target.Name = []
        · exact ⟨_, by rw [if_pos hn]⟩
        · exact ⟨_, by rw [if_neg hn, if_pos h]⟩
      · by_cases hn : q.Target.Name = []
        · exact ⟨_, by rw [if_pos hn]⟩
        · refine ⟨"must specify a file path or jsonOp, not both".toList, ?_⟩
          rw [if_neg hn, if_neg (fun hh => h.1 hh.1)]
          unfold loadPatch
          rw [if_pos h.1, if_pos h.2]
  · intro r ldr' h
    unfold Config at h
    cases hu : ops.Unmarshal c p with
    | panic msg => simp only [hu, Prod.mk.injEq, reduceCtorEq, false_and] at h
    | done q err =>
      cases err with
      | some e =>
        simp only [hu, Prod.mk.injEq, Walk.done.injEq, reduceCtorEq, and_false, false_and] at h
      | none =>
        simp only [hu] at h
        by_cases hn : q.Target.Name = []
        · rw [if_pos hn] at h
          simp only [Prod.mk.injEq, Walk.done.injEq, reduceCtorEq, and_false, false_and] at h
        · rw [if_neg hn] at h
          by_cases hboth : q.Path = [] ∧ q.JsonOp = []
          · rw [if_pos hboth] at h
            simp only [Prod.mk.injEq, Walk.done.injEq, reduceCtorEq, and_false, false_and] at h
          · rw [if_neg hboth] at h
            refine ⟨q, rfl, hn, ?_⟩
            by_cases hp : q.Path = []
            · exact Or.inr ⟨hp, fun hj => hboth ⟨hp, hj⟩⟩
            · by_cases hj : q.JsonOp = []
              · exact Or.inl ⟨hp, hj⟩
              · exfalso
                unfold loadPatch at h
                rw [if_pos hp, if_pos hj] at h
                simp only [Prod.mk.injEq, Walk.done.injEq, reduceCtorEq, and_false,
                  false_and] at h

/-- An instance of C22: a configuration with a path and a `jsonOp`, one with
neither and one without target are refused, and the loader has been asked
for no file; the configuration with the path alone is accepted, and the
loader has been asked for `patch.json`. -/
theorem Config_rejects_without_loading_witness :
    (∃ e, Config sampleConfigOps [] zero
        "target: \x7bname: myDeploy\x7d, path: patch.json, jsonOp: '[]'".toList =
      (.done { zero with
          Target := { zero.Target with Name := "myDeploy".toList },
          Path := "patch.json".toList, JsonOp := "[]".toList } (some e), [])) ∧
    Config sampleConfigOps [] zero "target: \x7bname: myDeploy\x7d".toList =
      (.done { zero with Target := { zero.Target with Name := "myDeploy".toList } }
        (some "empty file path and empty jsonOp".toList), []) ∧
    Config sampleConfigOps [] zero "path: patch.json".toList =
      (.done { zero with Path := "patch.json".toList }
        (some "must specify the target name".toList), []) ∧
    Config sampleConfigOps [] zero
        "target: \x7bname: myDeploy\x7d, path: patch.json".toList =
      (.done { decodedPatch := [[("op".toList, .str "remove".toList),
                                ("path".toList, .str "/spec/replicas".toList)]],
               Target := { zero.Target with Name := "myDeploy".toList },
               Path := "patch.json".toList, JsonOp := samplePatchText } none,
        ["patch.json".toList]) :=
  ⟨(Config_rejects_without_loading sampleConfigOps [] zero
      "target: \x7bname: myDeploy\x7d, path: patch.json, jsonOp: '[]'".toList).1
      { zero with
        Target := { zero.Target with Name := "myDeploy".toList },
        Path := "patch.json".toList, JsonOp := "[]".toList } none rfl
      (Or.inr (Or.inr (Or.inr ⟨by decide, by decide⟩))),
    rfl, rfl, rfl⟩

/-- What `Config` does once the configuration is decoded and in order, the
patch is there and it is JSON: it decodes the patch. -/
theorem Config_eq_decode {σ : Type} (ops : ConfigOps σ) (ldr ldr' : σ)
    (p q q₁ q₂ : plugin) (c : Str)
    (hu : ops.Unmarshal c p = .done q none) (hn : q.Target.Name ≠ [])
    (hsome : ¬ (q.Path = [] ∧ q.JsonOp = []))
    (hl : loadPatch ops ldr q = (.done q₁ none, ldr'))
    (ht : toJson ops q₁ = .done q₂ none) :
    Config ops ldr p c = (decode ops q₂, ldr') := by
  unfold Config
  simp only [hu]
  rw [if_neg hn, if_neg hsome]
  simp only [hl, ht]

/-- What `decode` returns without an error: the patch `DecodePatch` makes of
the patch body, with at least one operation. -/
theorem decode_done {σ : Type} (ops : ConfigOps σ) (q r : plugin)
    (h : decode ops q = .done r none) :
    ops.DecodePatch r.JsonOp = .ok r.decodedPatch ∧ 1 ≤ r.decodedPatch.length := by
  unfold decode at h
  cases hd : ops.DecodePatch q.JsonOp with
  | err e => simp only [hd, Walk.done.injEq, reduceCtorEq, and_false] at h
  | panic msg => simp only [hd, reduceCtorEq] at h
  | ok patch =>
    simp only [hd] at h
    by_cases hlen : patch.length = 0
    · rw [if_pos hlen] at h
      simp only [Walk.done.injEq, reduceCtorEq, and_false] at h
    · rw [if_neg hlen] at h
      simp only [Walk.done.injEq, and_true] at h
      subst h
      exact ⟨hd, Nat.pos_of_ne_zero hlen⟩

/-- C23: when the patch body, which is the `jsonOp` or the content of the
file, converted to JSON where it does not begin with `[`, decodes to a list
of no operations, `Config` returns an error; and when `Config` succeeds, the
patch of the plugin is what `DecodePatch` makes of the patch body and has at
least one operation. -/
theorem Config_rejects_empty_patch {σ : Type} (ops : ConfigOps σ) (ldr : σ)
    (p : plugin) (c : Str) :
    (∀ q q₁ q₂ ldr', ops.Unmarshal c p = .done q none → q.Target.Name ≠ [] →
      ¬ (q.Path = [] ∧ q.JsonOp = []) →
      loadPatch ops ldr q = (.done q₁ none, ldr') → toJson ops q₁ = .done q₂ none →
      ops.DecodePatch q₂.JsonOp = .ok [] →
      Config ops ldr p c =
        (.done { q₂ with decodedPatch := [] }
          (some ("patch appears to be empty; file=".toList ++ q₂.Path ++
            ", JsonOp=".toList ++ q₂.JsonOp)), ldr')) ∧
    (∀ r ldr', Config ops ldr p c = (.done r none, ldr') →
      ops.DecodePatch r.JsonOp = .ok r.decodedPatch ∧ 1 ≤ r.decodedPatch.length) := by
  constructor
  · intro q q₁ q₂ ldr' hu hn hsome hl ht hd
    rw [Config_eq_decode ops ldr ldr' p q q₁ q₂ c hu hn hsome hl ht]
    unfold decode
    simp only [hd, List.length_nil, if_true]
  · intro r ldr' h
    unfold Config at h
    cases hu : ops.Unmarshal c p with
    | panic msg => simp only [hu, Prod.mk.injEq, reduceCtorEq, false_and] at h
    | done q err =>
      cases err with
      | some e =>
        simp only [hu, Prod.mk.injEq, Walk.done.injEq, reduceCtorEq, and_false, false_and] at h
      | none =>
        simp only [hu] at h
        by_cases hn : q.Target.Name = []
        · rw [if_pos hn] at h
          simp only [Prod.mk.injEq, Walk.done.injEq, reduceCtorEq, and_false, false_and] at h
        · rw [if_neg hn] at h
          by_cases hboth : q.Path = [] ∧ q.JsonOp = []
          · rw [if_pos hboth] at h
            simp only [Prod.mk.injEq, Walk.done.injEq, reduceCtorEq, and_false, false_and] at h
          · rw [if_neg hboth] at h
            cases hl : loadPatch ops ldr q with
            | mk w s =>
              cases w with
              | panic msg => simp only [hl, Prod.mk.injEq, reduceCtorEq, false_and] at h
              | done q₁ err₁ =>
                cases err₁ with
                | some e =>
                  simp only [hl, Prod.mk.injEq, Walk.done.injEq, reduceCtorEq, and_false,
                    false_and] at h
                | none =>
                  simp only [hl] at h
                  cases ht : toJson ops q₁ with
                  | panic msg => simp only [ht, Prod.mk.injEq, reduceCtorEq, false_and] at h
                  | done q₂ err₂ =>
                    cases err₂ with
                    | some e =>
                      simp only [ht, Prod.mk.injEq, Walk.done.injEq, reduceCtorEq, and_false,
                        false_and] at h
                    | none =>
                      simp only [ht, Prod.mk.injEq] at h
                      exact decode_done ops q₂ r h.1

/-- An instance of C23: the `jsonOp` `[]` is refused, and the patch of
`patch.json`, which has one operation, is accepted. -/
theorem Config_rejects_empty_patch_witness :
    Config sampleConfigOps [] zero "target: \x7bname: myDeploy\x7d, jsonOp: '[]'".toList =
      (.done { zero with
          Target := { zero.Target with Name := "myDeploy".toList }, JsonOp := "[]".toList }
        (some "patch appears to be empty; file=, JsonOp=[]".toList), []) ∧
    (sampleConfigOps.DecodePatch samplePatchText =
        .ok [[("op".toList, .str "remove".toList),
              ("path".toList, .str "/spec/replicas".toList)]] ∧
      1 ≤ [[("op".toList, Value.str "remove".toList),
            ("path".toList, Value.str "/spec/replicas".toList)]].length) :=
  ⟨(Config_rejects_empty_patch sampleConfigOps [] zero
      "target: \x7bname: myDeploy\x7d, jsonOp: '[]'".toList).1
      { zero with
        Target := { zero.Target with Name := "myDeploy".toList }, JsonOp := "[]".toList }
      { zero with
        Target := { zero.Target with Name := "myDeploy".toList }, JsonOp := "[]".toList }
      { zero with
        Target := { zero.Target with Name := "myDeploy".toList }, JsonOp := "[]".toList }
      [] rfl (by decide) (by decide) rfl rfl rfl,
    (Config_rejects_empty_patch sampleConfigOps [] zero
      "target: \x7bname: myDeploy\x7d, path: patch.json".toList).2
      { decodedPatch := [[("op".toList, .str "remove".toList),
                          ("path".toList, .str "/spec/replicas".toList)]],
        Target := { zero.Target with Name := "myDeploy".toList },
        Path := "patch.json".toList, JsonOp := samplePatchText }
      ["patch.json".toList] rfl⟩

end PatchJson6902Transformer

namespace InventoryTransformer

/-- Removing ids one after the other leaves the resources whose current id is
none of them. -/
theorem foldl_Remove (rops : ResourceOps) :
    ∀ (ids : List ResId) (m : List Resource),
      ids.foldl (Remove rops) m = m.filter (fun r => decide (rops.CurId r ∉ ids)) := by
  intro ids
  induction ids with
  | nil => intro m; simp
  | cons id ids ih =>
    intro m
    rw [List.foldl_cons, ih, Remove, List.filter_filter]
    congr 1
    funext r
    simp only [List.mem_cons, not_or, Bool.decide_and, ne_eq]
    exact Bool.and_comm _ _

/-- After the loop of `Transform` under the policy `GarbageCollect` the map
is empty. -/
theorem foldl_Remove_AllIds (rops : ResourceOps) (m : List Resource) :
    (LegacyOrderTransformer.AllIds rops m).foldl (Remove rops) m = [] := by
  rw [foldl_Remove, List.filter_eq_nil_iff]
  intro r hr
  have : rops.CurId r ∈ LegacyOrderTransformer.AllIds rops m :=
    List.mem_map_of_mem _ hr
  simp [this]

/-- What the loop of `makeInventory` has done when it ends without an error:
it has added one entry for each resource, under the id made of its Gvk, name
and namespace, and one key, and the ids of the entries are distinct if they
were before. -/
theorem makeInventoryFrom_ok (gops : GvkOps) (rops : ResourceOps)
    (iops : LegacyOrderTransformer.IdOps) (ops : InventoryOps) (m : List Resource) :
    ∀ (rest : List Resource) (inv : Inventory) (keys : List Str) (inv' : Inventory)
      (keys' : List Str),
      makeInventoryFrom gops rops iops ops m rest inv keys = .ok (inv', keys') →
      inv'.Current.map Prod.fst = inv.Current.map Prod.fst ++ rest.map (item rops ops) ∧
      keys' = keys ++ rest.map (fun r => (item rops ops r).String gops) ∧
      ((inv.Current.map Prod.fst).Nodup → (inv'.Current.map Prod.fst).Nodup) := by
  intro rest
  induction rest with
  | nil =>
    intro inv keys inv' keys' h
    simp only [makeInventoryFrom, Result.ok.injEq, Prod.mk.injEq] at h
    obtain ⟨h₁, h₂⟩ := h
    subst h₁ h₂
    simp
  | cons r rest ih =>
    intro inv keys inv' keys' h
    rw [makeInventoryFrom] at h
    by_cases hin : inv.Current.any (fun e => decide (e.1 = item rops ops r)) = true
    · rw [if_pos hin] at h
      exact absurd h (by simp)
    · rw [if_neg hin] at h
      cases hc : computeRefs rops iops ops r m with
      | err e => simp only [hc, reduceCtorEq] at h
      | panic msg => simp only [hc, reduceCtorEq] at h
      | ok refs =>
        simp only [hc] at h
        obtain ⟨h₁, h₂, h₃⟩ := ih _ _ _ _ h
        refine ⟨?_, ?_, ?_⟩
        · rw [h₁]; simp
        · rw [h₂]; simp
        · intro hnd
          apply h₃
          simp only [List.map_append, List.map_cons, List.map_nil]
          rw [List.nodup_append]
          refine ⟨hnd, List.nodup_singleton _, ?_⟩
          intro a ha hb
          rw [List.mem_singleton] at hb
          subst hb
          apply hin
          rw [List.any_eq_true]
          obtain ⟨e, he, hea⟩ := List.mem_map.mp ha
          exact ⟨e, he, by simp [hea]⟩

/-- C24: when `Transform` succeeds, it has made the inventory of the map,
written it and the hash into annotations and made the ConfigMap with these
annotations and the name and namespace of the plugin; under the policy
`GarbageCollect` the map holds that ConfigMap and nothing else, under every
other policy it holds the resources it had, as they were and in their order,
and the ConfigMap after them.  The inventory has one entry for each resource
the map had, under the id made of its Gvk, name and namespace, and these ids
are distinct.  The ConfigMap has the default behavior, with which `Append`
fails on a current id that is in the map. -/
theorem Transform_adds_inventory (gops : GvkOps) (rops : ResourceOps)
    (iops : LegacyOrderTransformer.IdOps) (ops : InventoryOps) (p : plugin)
    (m out : List Resource)
    (hdup : ∀ a name ns cm, ops.MakeConfigMap a name ns = .ok cm →
      ∀ m₁ m₂, ops.AppendDuplicate m₁ cm ≠ .done m₂ none)
    (h : Transform gops rops iops ops p m = .done out none) :
    ∃ inv hash annotations cm,
      makeInventory gops rops iops ops m = .ok (inv, hash) ∧
      ops.UpdateAnnotations inv [( ops.HashAnnotation, hash)] = .done annotations none ∧
      ops.MakeConfigMap annotations p.Name p.Namespace = .ok cm ∧
      out = (if p.Policy = GarbageCollect then [cm] else m ++ [cm]) ∧
      inv.Current.map Prod.fst = m.map (item rops ops) ∧
      (m.map (item rops ops)).Nodup := by
  unfold Transform at h
  cases hmk : makeInventory gops rops iops ops m with
  | err e => simp only [hmk, Walk.done.injEq, reduceCtorEq, and_false] at h
  | panic msg => simp only [hmk, reduceCtorEq] at h
  | ok invh =>
    obtain ⟨inv, hash⟩ := invh
    simp only [hmk] at h
    cases hup : ops.UpdateAnnotations inv [( ops.HashAnnotation, hash)] with
    | panic msg => simp only [hup, reduceCtorEq] at h
    | done annotations err =>
      cases err with
      | some e => simp only [hup, Walk.done.injEq, reduceCtorEq, and_false] at h
      | none =>
        simp only [hup] at h
        cases hcm : ops.MakeConfigMap annotations p.Name p.Namespace with
        | err e => simp only [hcm, Walk.done.injEq, reduceCtorEq, and_false] at h
        | panic msg => simp only [hcm, reduceCtorEq] at h
        | ok cm =>
          simp only [hcm] at h
          -- the entries of the inventory
          have hkeys : inv.Current.map Prod.fst = m.map (item rops ops) ∧
              (m.map (item rops ops)).Nodup := by
            unfold makeInventory at hmk
            cases hfrom : makeInventoryFrom gops rops iops ops m m NewInventory [] with
            | err e => simp only [hfrom, reduceCtorEq] at hmk
            | panic msg => simp only [hfrom, reduceCtorEq] at hmk
            | ok ik =>
              obtain ⟨inv₀, keys⟩ := ik
              simp only [hfrom] at hmk
              cases hh : ops.SortArrayAndComputeHash keys with
              | err e => simp only [hh, reduceCtorEq] at hmk
              | panic msg => simp only [hh, reduceCtorEq] at hmk
              | ok h₀ =>
                simp only [hh, Result.ok.injEq, Prod.mk.injEq] at hmk
                obtain ⟨h₁, _, h₃⟩ := makeInventoryFrom_ok gops rops iops ops m m _ _ _ _ hfrom
                rw [hmk.1] at h₁ h₃
                simp only [NewInventory, List.map_nil, List.nil_append] at h₁ h₃
                exact ⟨h₁, by rw [← h₁]; exact h₃ List.nodup_nil⟩
          refine ⟨inv, hash, annotations, cm, rfl, hup, hcm, ?_, hkeys.1, hkeys.2⟩
          by_cases hpol : p.Policy = GarbageCollect
          · rw [if_pos hpol] at h ⊢
            rw [foldl_Remove_AllIds] at h
            simp only [Append, List.any_nil, Bool.false_eq_true, if_false, List.nil_append,
              Walk.done.injEq, and_true] at h
            exact h.symm
          · rw [if_neg hpol] at h ⊢
            unfold Append at h
            by_cases hany : m.any (fun x => iops.Matches (rops.CurId cm) (rops.CurId x)) = true
            · rw [if_pos hany] at h
              exact absurd h (hdup _ _ _ _ hcm _ _)
            · rw [if_neg hany] at h
              simp only [Walk.done.injEq, and_true] at h
              exact h.symm

/-- An instance of C24: a Deployment and a Service with the inventory
`inventory` in the namespace `default`, under the policy `GarbageIgnore` and
under the policy `GarbageCollect`. -/
theorem Transform_adds_inventory_witness :
    (Transform kindOps sampleResourceOps sampleIdOps sampleInventoryOps
        { Name := "inventory".toList, Namespace := "default".toList,
          Policy := GarbageIgnore }
        [sampleResource "Deployment" "pear" "" false,
         sampleResource "Service" "papaya" "" false] =
      .done [sampleResource "Deployment" "pear" "" false,
             sampleResource "Service" "papaya" "" false, sampleConfigMap] none ∧
     Transform kindOps sampleResourceOps sampleIdOps sampleInventoryOps
        { Name := "inventory".toList, Namespace := "default".toList,
          Policy := GarbageCollect }
        [sampleResource "Deployment" "pear" "" false,
         sampleResource "Service" "papaya" "" false] =
      .done [sampleConfigMap] none) ∧
    ∃ inv hash annotations cm,
      makeInventory kindOps sampleResourceOps sampleIdOps sampleInventoryOps
          [sampleResource "Deployment" "pear" "" false,
           sampleResource "Service" "papaya" "" false] = .ok (inv, hash) ∧
      sampleInventoryOps.UpdateAnnotations inv [( sampleInventoryOps.HashAnnotation, hash)] =
        .done annotations none ∧
      sampleInventoryOps.MakeConfigMap annotations "inventory".toList "default".toList =
        .ok cm ∧
      [sampleConfigMap] = (if GarbageCollect = GarbageCollect then [cm]
         else [sampleResource "Deployment" "pear" "" false,
               sampleResource "Service" "papaya" "" false] ++ [cm]) ∧
      inv.Current.map Prod.fst =
        [sampleResource "Deployment" "pear" "" false,
         sampleResource "Service" "papaya" "" false].map
          (item sampleResourceOps sampleInventoryOps) ∧
      ([sampleResource "Deployment" "pear" "" false,
        sampleResource "Service" "papaya" "" false].map
          (item sampleResourceOps sampleInventoryOps)).Nodup :=
  ⟨⟨rfl, rfl⟩,
    Transform_adds_inventory kindOps sampleResourceOps sampleIdOps sampleInventoryOps
      { Name := "inventory".toList, Namespace := "default".toList, Policy := GarbageCollect }
      [sampleResource "Deployment" "pear" "" false,
       sampleResource "Service" "papaya" "" false] [sampleConfigMap]
      (fun _ _ _ _ _ _ _ hd => by simp [sampleInventoryOps] at hd) rfl⟩

end InventoryTransformer

namespace plugins

/-- C25: with a plugin configuration that is not enabled, `LoadGenerator` and
`LoadTransformer` return the error of `NotEnabledErr` for the kind of the
original id of the resource, and the state that looking for a plugin and
loading it work on is as before; the default configuration is not enabled,
and the active configuration is the default one with `Enabled` set. -/
theorem Load_not_enabled {σ C : Type} (gops : GvkOps) (ops : LoaderOps σ C) (l : Loader)
    (s : σ) (res : Resource) (dir : Str) (h : l.pc.Enabled = false) :
    l.LoadGenerator gops ops s res = (.err (NotEnabledErr res.OrgId.Gvk.Kind), s) ∧
    l.LoadTransformer gops ops s res = (.err (NotEnabledErr res.OrgId.Gvk.Kind), s) ∧
    (DefaultPluginConfig dir).Enabled = false ∧
    (ActivePluginConfig dir).Enabled = true ∧
    ActivePluginConfig dir = { DefaultPluginConfig dir with Enabled := true } := by
  have hl : l.loadAndConfigurePlugin gops ops s res =
      (.err (NotEnabledErr res.OrgId.Gvk.Kind), s) := by
    unfold Loader.loadAndConfigurePlugin
    rw [h]
    rfl
  refine ⟨?_, ?_, rfl, rfl, rfl⟩
  · unfold Loader.LoadGenerator
    rw [hl]
  · unfold Loader.LoadTransformer
    rw [hl]

/-- An instance of C25: with the default configuration the transformer
`DatePrefixer` is not loaded and no plugin has been looked for; with the
active configuration it is looked for and loaded. -/
theorem Load_not_enabled_witness :
    ({ pc := DefaultPluginConfig "/home/me/.config/kustomize/plugin".toList } :
        Loader).LoadTransformer kindOps sampleLoaderOps []
        (sampleResource "DatePrefixer" "whatever" "" false) =
      (.err ("\nunable to load plugin DatePrefixer because plugins disabled\n" ++
          "specify the flag\n  --enable_alpha_plugins\n" ++
          "to enable plugins, an alpha feature.\n" ++
          "See https://github.com/kubernetes-sigs/kustomize/blob/master/docs/plugins.md\n"
          ).toList, []) ∧
    ({ pc := ActivePluginConfig "/home/me/.config/kustomize/plugin".toList } :
        Loader).LoadTransformer kindOps sampleLoaderOps []
        (sampleResource "DatePrefixer" "whatever" "" false) =
      (.ok "DatePrefixer".toList,
        [(sampleResource "DatePrefixer" "whatever" "" false).OrgId]) :=
  ⟨(Load_not_enabled kindOps sampleLoaderOps
      { pc := DefaultPluginConfig "/home/me/.config/kustomize/plugin".toList } []
      (sampleResource "DatePrefixer" "whatever" "" false) [] rfl).2.1,
    rfl⟩

end plugins

namespace fs

/-- Deleting keys one after the other leaves the entries whose key is none of
them. -/
theorem foldl_delete (ks : List Str) :
    ∀ (fs : fakeFs),
      (ks.foldl fakeFs.delete fs).m = fs.m.filter (fun e => decide (e.1 ∉ ks)) := by
  induction ks with
  | nil => intro fs; simp
  | cons k ks ih =>
    intro fs
    rw [List.foldl_cons, ih, fakeFs.delete, List.filter_filter]
    congr 1
    funext e
    simp only [List.mem_cons, not_or, Bool.decide_and, ne_eq]
    exact Bool.and_comm _ _

/-- What `RemoveAll` leaves: the entries whose key does not begin with
`name`. -/
theorem RemoveAll_m (fs : fakeFs) (name : Str) :
    (fs.RemoveAll name).1.m = fs.m.filter (fun e => !strings.HasPrefix e.1 name) := by
  unfold fakeFs.RemoveAll
  simp only
  rw [foldl_delete]
  apply List.filter_congr
  intro e he
  have hk : e.1 ∈ fs.keys := List.mem_map_of_mem _ he
  by_cases hp : strings.HasPrefix e.1 name = true
  · have : e.1 ∈ fs.keys.filter (fun k => strings.HasPrefix k name) :=
      List.mem_filter.mpr ⟨hk, hp⟩
    simp [this, hp]
  · have : e.1 ∉ fs.keys.filter (fun k => strings.HasPrefix k name) :=
      fun hmem => hp (List.mem_filter.mp hmem).2
    simp [this, hp]

theorem find?_filter_key {α : Type} (l : List (Str × α)) (q : Str → Bool) (k : Str) :
    (l.filter (fun e => q e.1)).find? (fun e => decide (e.1 = k)) =
      if q k then l.find? (fun e => decide (e.1 = k)) else none := by
  induction l with
  | nil => simp
  | cons e l ih =>
    by_cases hq : q e.1 = true
    · rw [List.filter_cons_of_pos (p := fun e : Str × α => q e.1) hq]
      by_cases hek : e.1 = k
      · subst hek
        simp [hq]
      · rw [List.find?_cons_of_neg _ (by simpa using hek),
          List.find?_cons_of_neg _ (by simpa using hek), ih]
    · rw [List.filter_cons_of_neg (p := fun e : Str × α => q e.1) hq, ih]
      by_cases hek : e.1 = k
      · subst hek
        simp [hq]
      · rw [List.find?_cons_of_neg _ (by simpa using hek)]

/-- What `RemoveAll(name)` does to the file system: the entries whose path
begins with the string `name` are gone, every other entry is as before; the
error is nil. -/
theorem get_RemoveAll (fs : fakeFs) (name k : Str) :
    (fs.RemoveAll name).1.get k =
      (if strings.HasPrefix k name then none else fs.get k) ∧
    (fs.RemoveAll name).2 = none := by
  refine ⟨?_, rfl⟩
  unfold fakeFs.get
  rw [RemoveAll_m, find?_filter_key fs.m (fun x => !strings.HasPrefix x name) k]
  by_cases hp : strings.HasPrefix k name = true
  · simp [hp]
  · simp [hp]

/-- The path `name` and the paths under the directory `name` begin with the
string `name`: `RemoveAll` removes them. -/
theorem HasPrefix_of_IsAtOrUnder (name k : Str) (h : IsAtOrUnder name k = true) :
    strings.HasPrefix k name = true := by
  unfold IsAtOrUnder at h
  unfold strings.HasPrefix
  rw [Bool.or_eq_true, decide_eq_true_eq] at h
  rcases h with h | h
  · subst h
    exact List.isPrefixOf_iff_prefix.mpr (List.prefix_refl _)
  · rw [List.isPrefixOf_iff_prefix] at h ⊢
    by_cases hs : strings.HasSuffix name "/".toList = true
    · rw [if_pos hs] at h
      exact h
    · rw [if_neg hs] at h
      exact (List.prefix_append name _).trans h

/-- C26, at the failing input: `RemoveAll("/foo")` returns nil and removes
the directory `/foo` and the file in it, and it removes the file `/foobar` as
well, which is neither `/foo` nor under it; the other entry, `/`, stays. -/
theorem RemoveAll_removes_sibling :
    sampleFs.keys = ["/".toList, "/foo".toList, "/foo/a.yaml".toList, "/foobar".toList] ∧
    (sampleFs.RemoveAll "/foo".toList).2 = none ∧
    IsAtOrUnder "/foo".toList "/foobar".toList = false ∧
    sampleFs.ReadFile "/foobar".toList = .ok "b: 2".toList ∧
    (sampleFs.RemoveAll "/foo".toList).1.Exists "/foobar".toList = false ∧
    (sampleFs.RemoveAll "/foo".toList).1 = MakeFakeFS := by
  decide

/-- C27, as amended: `IsDir(name)` returns true if and only if `name` is an
entry of the file system that is a directory, or the path of some entry
begins with `name` and a slash (with `name` when it ends with a slash). -/
theorem IsDir_iff (fs : fakeFs) (name : Str) :
    fs.IsDir name = true ↔
      (∃ f, fs.get name = some f ∧ f.dir = true) ∨
      (∃ k ∈ fs.keys,
        (if strings.HasSuffix name "/".toList then name else name ++ "/".toList) <+: k) := by
  have hany : (fs.keys.any (fun k => strings.HasPrefix k
        (if !strings.HasSuffix name "/".toList then name ++ "/".toList else name)) = true) ↔
      (∃ k ∈ fs.keys,
        (if strings.HasSuffix name "/".toList then name else name ++ "/".toList) <+: k) := by
    rw [List.any_eq_true]
    have hname : (if !strings.HasSuffix name "/".toList then name ++ "/".toList else name) =
        (if strings.HasSuffix name "/".toList then name else name ++ "/".toList) := by
      generalize strings.HasSuffix name "/".toList = b
      cases b <;> rfl
    rw [hname]
    constructor
    · rintro ⟨k, hk, hp⟩
      exact ⟨k, hk, List.isPrefixOf_iff_prefix.mp hp⟩
    · rintro ⟨k, hk, hp⟩
      exact ⟨k, hk, List.isPrefixOf_iff_prefix.mpr hp⟩
  unfold fakeFs.IsDir
  simp only
  cases hg : fs.get name with
  | none =>
    simp only [Bool.false_eq_true, if_false, reduceCtorEq, false_and, exists_false, false_or]
    exact hany
  | some f =>
    by_cases hd : f.dir = true
    · simp only [hd, if_true, Option.some.injEq, true_iff]
      exact Or.inl ⟨f, rfl, hd⟩
    · simp only [hd, Bool.false_eq_true, if_false, Option.some.injEq]
      rw [hany]
      constructor
      · intro h
        exact Or.inr h
      · rintro (⟨f', hf', hd'⟩ | h)
        · subst hf'
          exact absurd hd' hd
        · exact h

/-- C27 as it was stated fails: after `WriteFile("/a/b.yaml", ...)` the path
`/a` is no entry of the file system, and `IsDir("/a")` returns true. -/
theorem IsDir_counterexample :
    ¬ ((MakeFakeFS.WriteFile "/a/b.yaml".toList "b: 2".toList).1.IsDir "/a".toList = true ↔
      ∃ f, (MakeFakeFS.WriteFile "/a/b.yaml".toList "b: 2".toList).1.get "/a".toList = some f ∧
        f.dir = true) := by
  intro h
  have h₁ : (MakeFakeFS.WriteFile "/a/b.yaml".toList "b: 2".toList).1.IsDir "/a".toList
      = true := by decide
  obtain ⟨f, hf, _⟩ := h.mp h₁
  have h₂ : (MakeFakeFS.WriteFile "/a/b.yaml".toList "b: 2".toList).1.get "/a".toList
      = none := by decide
  rw [h₂] at hf
  exact absurd hf (by simp)

end fs

theorem Object.get_delete (m : Object) (k k' : Str) :
    Object.get (Object.delete m k) k' = if k' = k then none else Object.get m k' := by
  induction m with
  | nil => simp [Object.delete, Object.get]
  | cons e rest ih =>
    obtain ⟨a, w⟩ := e
    unfold Object.delete at ih ⊢
    by_cases ha : a = k
    · subst ha
      rw [List.filter_cons_of_neg (by simp), ih]
      by_cases hk : k' = a
      · rw [if_pos hk, if_pos hk]
      · rw [if_neg hk, if_neg hk, Object.get, if_neg (fun e => hk e.symm)]
    · rw [List.filter_cons_of_pos (by simpa using ha)]
      by_cases hk : a = k'
      · subst hk
        rw [Object.get, if_pos rfl, if_neg ha, Object.get, if_pos rfl]
      · rw [Object.get, if_neg hk, ih, Object.get, if_neg hk]

theorem Object.get_append (a b : Object) (k : Str) :
    Object.get (a ++ b) k =
      match Object.get a k with
      | some v => some v
      | none => Object.get b k := by
  induction a with
  | nil => rfl
  | cons e rest ih =>
    obtain ⟨f, w⟩ := e
    show Object.get ((f, w) :: (rest ++ b)) k = _
    by_cases hf : f = k
    · simp only [Object.get, hf, if_true]
    · simp only [Object.get, hf, if_false]
      exact ih

theorem Object.get_eq_none_iff (m : Object) (k : Str) :
    Object.get m k = none ↔ k ∉ m.map Prod.fst := by
  induction m with
  | nil => simp only [Object.get, List.map_nil, List.not_mem_nil, not_false_eq_true]
  | cons e rest ih =>
    obtain ⟨f, w⟩ := e
    by_cases hf : f = k
    · subst hf
      simp only [Object.get, if_true, List.map_cons, List.mem_cons, true_or,
        not_true_eq_false, reduceCtorEq]
    · have hf' : ¬ k = f := fun h => hf h.symm
      simp only [Object.get, hf, if_false, ih, List.map_cons, List.mem_cons, hf', false_or]

theorem Object.get_of_mem (m : Object) (hnd : (m.map Prod.fst).Nodup) (k : Str) (v : Value)
    (h : (k, v) ∈ m) : Object.get m k = some v := by
  induction m with
  | nil => cases h
  | cons e rest ih =>
    obtain ⟨f, w⟩ := e
    rw [List.map_cons, List.nodup_cons] at hnd
    rcases List.mem_cons.mp h with h | h
    · cases h
      simp only [Object.get, if_true]
    · have hf : f ≠ k := by
        intro hfk
        subst hfk
        exact hnd.1 (List.mem_map.mpr ⟨(f, v), h, rfl⟩)
      rw [Object.get, if_neg hf]
      exact ih hnd.2 h

theorem Object.map_fst_set (m : Object) (k : Str) (v : Value) :
    (Object.set m k v).map Prod.fst =
      if k ∈ m.map Prod.fst then m.map Prod.fst else m.map Prod.fst ++ [k] := by
  induction m with
  | nil => rfl
  | cons e rest ih =>
    obtain ⟨f, w⟩ := e
    by_cases hf : f = k
    · subst hf
      simp only [Object.set, if_true, List.map_cons, List.mem_cons, true_or]
    · have hf' : ¬ k = f := fun h => hf h.symm
      simp only [Object.set, hf, if_false, List.map_cons, ih, List.mem_cons, hf', false_or]
      by_cases hk : k ∈ rest.map Prod.fst
      · rw [if_pos hk, if_pos hk]
      · rw [if_neg hk, if_neg hk]
        rfl

theorem Object.nodup_set (m : Object) (k : Str) (v : Value)
    (hnd : (m.map Prod.fst).Nodup) : ((Object.set m k v).map Prod.fst).Nodup := by
  rw [Object.map_fst_set]
  by_cases hk : k ∈ m.map Prod.fst
  · rw [if_pos hk]
    exact hnd
  · rw [if_neg hk, List.nodup_append]
    refine ⟨hnd, List.nodup_singleton _, ?_⟩
    intro a ha hb
    rw [List.mem_singleton] at hb
    subst hb
    exact hk ha

theorem Object.nodup_delete (m : Object) (k : Str)
    (hnd : (m.map Prod.fst).Nodup) : ((Object.delete m k).map Prod.fst).Nodup := by
  unfold Object.delete
  exact (List.Nodup.sublist (List.Sublist.map _ (List.filter_sublist _)) hnd)

namespace kustfile

/-- The loop of the fix-patches-field rule appends the bare paths to the
entries promoted and the other entries to the entries kept, in their order. -/
theorem fixPatchesEntries_eq :
    ∀ (es promoted kept : List Value),
      fixPatchesEntries es promoted kept =
        (promoted ++ es.filter isBarePath, kept ++ es.filter (fun e => !isBarePath e)) := by
  intro es
  induction es with
  | nil => intro promoted kept; simp [fixPatchesEntries]
  | cons e es ih =>
    intro promoted kept
    rw [fixPatchesEntries]
    by_cases he : isBarePath e = true
    · rw [if_pos he, ih, List.filter_cons_of_pos he,
        List.filter_cons_of_neg (by simp [he])]
      simp
    · rw [if_neg he, ih, List.filter_cons_of_neg he,
        List.filter_cons_of_pos (by simpa using he)]
      simp

theorem listField_of_get (k : Object) (key : Str) (l : List Value)
    (h : Object.get k key = some (.list l)) : listField k key = l := by
  unfold listField
  rw [h]

theorem listField_of_none (k : Object) (key : Str)
    (h : Object.get k key = none) : listField k key = [] := by
  unfold listField
  rw [h]

/-- The descriptor the fix-patches-field rule makes of one with a list of
`patches`. -/
theorem fixPatchesField_eq (data : Object) (entries : List Value)
    (h : Object.get data "patches".toList = some (.list entries)) :
    fixPatchesField data =
      match entries.filter isBarePath with
      | [] => data
      | b :: bs =>
        if (entries.filter (fun e => !isBarePath e)).length = 0 then
          Object.delete (Object.set data "patchesStrategicMerge".toList
            (.list (listField data "patchesStrategicMerge".toList ++ b :: bs))) "patches".toList
        else
          Object.set (Object.set data "patchesStrategicMerge".toList
            (.list (listField data "patchesStrategicMerge".toList ++ b :: bs))) "patches".toList
            (.list (entries.filter (fun e => !isBarePath e))) := by
  unfold fixPatchesField
  simp only [h, fixPatchesEntries_eq, List.nil_append]
  cases entries.filter isBarePath <;> rfl

/-- What the fix-patches-field rule leaves in the two fields, and that it
leaves the other fields alone. -/
theorem fixPatchesField_spec (data : Object) (entries : List Value)
    (h : Object.get data "patches".toList = some (.list entries)) :
    listField (fixPatchesField data) "patchesStrategicMerge".toList =
      listField data "patchesStrategicMerge".toList ++ entries.filter isBarePath ∧
    listField (fixPatchesField data) "patches".toList =
      entries.filter (fun e => !isBarePath e) ∧
    (∀ f, f ≠ "patchesStrategicMerge".toList → f ≠ "patches".toList →
      Object.get (fixPatchesField data) f = Object.get data f) ∧
    ((data.map Prod.fst).Nodup → ((fixPatchesField data).map Prod.fst).Nodup) := by
  have hne : "patches".toList ≠ "patchesStrategicMerge".toList := by decide
  rw [fixPatchesField_eq data entries h]
  cases hb : entries.filter isBarePath with
  | nil =>
    refine ⟨(List.append_nil _).symm, ?_, fun _ _ _ => rfl, fun hnd => hnd⟩
    show listField data "patches".toList = _
    rw [listField_of_get _ _ _ h]
    symm
    rw [List.filter_eq_self]
    intro e he
    have : e ∉ entries.filter isBarePath := by rw [hb]; exact List.not_mem_nil _
    have hne : ¬ isBarePath e = true := fun hbare => this (List.mem_filter.mpr ⟨he, hbare⟩)
    simpa using hne
  | cons b bs =>
    simp only
    by_cases hk : (entries.filter (fun e => !isBarePath e)).length = 0
    · rw [if_pos hk]
      refine ⟨?_, ?_, ?_, ?_⟩
      · apply listField_of_get
        rw [Object.get_delete, if_neg hne.symm, Object.get_set, if_pos rfl]
      · rw [listField_of_none, List.eq_nil_of_length_eq_zero hk]
        rw [Object.get_delete, if_pos rfl]
      · intro f hf₁ hf₂
        rw [Object.get_delete, if_neg hf₂, Object.get_set, if_neg hf₁]
      · intro hnd
        exact Object.nodup_delete _ _ (Object.nodup_set _ _ _ hnd)
    · rw [if_neg hk]
      refine ⟨?_, ?_, ?_, ?_⟩
      · apply listField_of_get
        rw [Object.get_set, if_neg hne.symm, Object.get_set, if_pos rfl]
      · apply listField_of_get
        rw [Object.get_set, if_pos rfl]
      · intro f hf₁ hf₂
        rw [Object.get_set, if_neg hf₂, Object.get_set, if_neg hf₁]
      · intro hnd
        exact Object.nodup_set _ _ _ (Object.nodup_set _ _ _ hnd)

/-- The defaults change no field that is there. -/
theorem get_fixDefaults (k : Object) (f : Str) :
    Object.get (fixDefaults k) f =
      match Object.get k f with
      | some v => some v
      | none =>
        if f = "apiVersion".toList then some (.str KustomizationVersion)
        else if f = "kind".toList then some (.str KustomizationKind)
        else none := by
  have hne : "kind".toList ≠ "apiVersion".toList := by decide
  unfold fixDefaults
  simp only
  cases ha : Object.get k "apiVersion".toList with
  | none =>
    simp only [Option.isNone_none, if_true]
    rw [Object.get_set, if_neg hne]
    cases hkd : Object.get k "kind".toList with
    | none =>
      simp only [Option.isNone_none, if_true]
      rw [Object.get_set, Object.get_set]
      by_cases hf₁ : f = "apiVersion".toList
      · subst hf₁
        rw [if_neg hne.symm, if_pos rfl, ha, if_pos rfl]
      · by_cases hf₂ : f = "kind".toList
        · subst hf₂
          rw [if_pos rfl, hkd, if_neg hne, if_pos rfl]
        · rw [if_neg hf₂, if_neg hf₁]
          cases hg : Object.get k f with
          | none => simp only [if_neg hf₁, if_neg hf₂]
          | some v => rfl
    | some w =>
      simp only [Option.isNone_some, Bool.false_eq_true, if_false]
      rw [Object.get_set]
      by_cases hf₁ : f = "apiVersion".toList
      · subst hf₁
        rw [if_pos rfl, ha, if_pos rfl]
      · rw [if_neg hf₁]
        cases hg : Object.get k f with
        | none =>
          have hf₂ : f ≠ "kind".toList := by
            intro hf₂
            rw [hf₂, hkd] at hg
            cases hg
          simp only [if_neg hf₁, if_neg hf₂]
        | some v => rfl
  | some w =>
    simp only [Option.isNone_some, Bool.false_eq_true, if_false]
    cases hkd : Object.get k "kind".toList with
    | none =>
      simp only [Option.isNone_none, if_true]
      rw [Object.get_set]
      by_cases hf₂ : f = "kind".toList
      · subst hf₂
        rw [if_pos rfl, hkd, if_neg hne, if_pos rfl]
      · rw [if_neg hf₂]
        cases hg : Object.get k f with
        | none =>
          have hf₁ : f ≠ "apiVersion".toList := by
            intro hf₁
            rw [hf₁, ha] at hg
            cases hg
          simp only [if_neg hf₁, if_neg hf₂]
        | some v => rfl
    | some w' =>
      simp only [Option.isNone_some, Bool.false_eq_true, if_false]
      cases hg : Object.get k f with
      | none =>
        have hf₁ : f ≠ "apiVersion".toList := by
          intro hf₁
          rw [hf₁, ha] at hg
          cases hg
        have hf₂ : f ≠ "kind".toList := by
          intro hf₂
          rw [hf₂, hkd] at hg
          cases hg
        simp only [if_neg hf₁, if_neg hf₂]
      | some v => rfl

theorem get_flatMap_marshalField (k : Object) (f : Str) :
    ∀ (fields : List Str),
      Object.get (fields.flatMap (marshalField k)) f =
        if f ∈ fields then Object.get k f else none := by
  intro fields
  induction fields with
  | nil => rfl
  | cons g fields ih =>
    rw [List.flatMap_cons, Object.get_append, ih]
    unfold marshalField
    cases hg : Object.get k g with
    | none =>
      simp only [Object.get]
      by_cases hf : f = g
      · subst hf
        simp [hg]
      · simp [hf]
    | some v =>
      by_cases hf : g = f
      · subst hf
        simp [Object.get, hg]
      · have hf' : ¬ f = g := fun h => hf h.symm
        simp [Object.get, hf, hf']

/-- The document written has a field of the model when the descriptor had the
field or the field is a recognized one. -/
theorem get_Write (mf : kustomizationFile) (k : Object) (f : Str) :
    Object.get (Write mf k) f =
      if f ∈ mf.originalFields ∨ f ∈ fieldOrder then Object.get k f else none := by
  unfold Write
  rw [Object.get_append, get_flatMap_marshalField, get_flatMap_marshalField]
  by_cases h₁ : f ∈ mf.originalFields
  · rw [if_pos h₁, if_pos (Or.inl h₁)]
    cases Object.get k f with
    | none =>
      simp only
      rw [if_neg]
      intro hmem
      have := (List.mem_filter.mp hmem).2
      simp [h₁] at this
    | some v => rfl
  · rw [if_neg h₁]
    simp only
    by_cases h₂ : f ∈ fieldOrder
    · rw [if_pos (List.mem_filter.mpr ⟨h₂, by simpa using h₁⟩), if_pos (Or.inr h₂)]
    · rw [if_neg (fun hmem => h₂ (List.mem_filter.mp hmem).1), if_neg (by tauto)]

theorem get_fixDefaults_of_ne (k : Object) (f : Str) (h₁ : f ≠ "apiVersion".toList)
    (h₂ : f ≠ "kind".toList) : Object.get (fixDefaults k) f = Object.get k f := by
  rw [get_fixDefaults]
  cases Object.get k f with
  | none => simp only [if_neg h₁, if_neg h₂]
  | some v => rfl

theorem get_fixDefaults_of_some (k : Object) (f : Str) (v : Value)
    (h : Object.get k f = some v) : Object.get (fixDefaults k) f = some v := by
  rw [get_fixDefaults, h]

theorem flatMap_marshalField_nil (k : Object) :
    ∀ (fields : List Str), (∀ f ∈ fields, Object.get k f = none) →
      fields.flatMap (marshalField k) = [] := by
  intro fields
  induction fields with
  | nil => intro _; rfl
  | cons f fields ih =>
    intro h
    rw [List.flatMap_cons, ih (fun g hg => h g (List.mem_cons_of_mem _ hg))]
    unfold marshalField
    rw [h f (List.mem_cons_self _ _)]
    rfl

theorem flatMap_marshalField_keys (k : Object) :
    ∀ (m : Object), (∀ p ∈ m, Object.get k p.1 = some p.2) →
      (m.map Prod.fst).flatMap (marshalField k) = m := by
  intro m
  induction m with
  | nil => intro _; rfl
  | cons p m ih =>
    intro h
    rw [List.map_cons, List.flatMap_cons, ih (fun q hq => h q (List.mem_cons_of_mem _ hq))]
    unfold marshalField
    rw [h p (List.mem_cons_self _ _)]
    rfl

/-- C28: reading a descriptor with a list of `patches` applies the
fix-patches-field rule, and a write after it emits the fields as fixed: the
entries of `patches` that are bare paths come after the entries that
`patchesStrategicMerge` had, in their order, and `patches` holds the other
entries, those that carry a target, as they were and in their order.  Where
the descriptor had neither `apiVersion` nor `kind`, the document written is
the descriptor as fixed, with the default `apiVersion` and `kind` appended.
The keys of a descriptor are distinct. -/
theorem Read_Write_fixes_patches (data : Object) (entries : List Value)
    (hnd : (data.map Prod.fst).Nodup)
    (h : Object.get data "patches".toList = some (.list entries)) :
    listField (Read data).2 "patchesStrategicMerge".toList =
      listField data "patchesStrategicMerge".toList ++ entries.filter isBarePath ∧
    listField (Read data).2 "patches".toList = entries.filter (fun e => !isBarePath e) ∧
    listField (Write (Read data).1 (Read data).2) "patchesStrategicMerge".toList =
      listField data "patchesStrategicMerge".toList ++ entries.filter isBarePath ∧
    listField (Write (Read data).1 (Read data).2) "patches".toList =
      entries.filter (fun e => !isBarePath e) ∧
    (Object.get data "apiVersion".toList = none → Object.get data "kind".toList = none →
      Write (Read data).1 (Read data).2 =
        fixPatchesField data ++
          [("apiVersion".toList, .str KustomizationVersion),
           ("kind".toList, .str KustomizationKind)]) := by
  obtain ⟨hsm, hp, hother, hnd'⟩ := fixPatchesField_spec data entries h
  have hk₁ : Object.get (Read data).2 "patchesStrategicMerge".toList =
      Object.get (fixPatchesField data) "patchesStrategicMerge".toList :=
    get_fixDefaults_of_ne _ _ (by decide) (by decide)
  have hk₂ : Object.get (Read data).2 "patches".toList =
      Object.get (fixPatchesField data) "patches".toList :=
    get_fixDefaults_of_ne _ _ (by decide) (by decide)
  have hw₁ : Object.get (Write (Read data).1 (Read data).2) "patchesStrategicMerge".toList =
      Object.get (Read data).2 "patchesStrategicMerge".toList := by
    rw [get_Write, if_pos (Or.inr (by decide))]
  have hw₂ : Object.get (Write (Read data).1 (Read data).2) "patches".toList =
      Object.get (Read data).2 "patches".toList := by
    rw [get_Write, if_pos (Or.inr (by decide))]
  refine ⟨?_, ?_, ?_, ?_, ?_⟩
  · rw [← hsm]
    unfold listField
    rw [hk₁]
  · rw [← hp]
    unfold listField
    rw [hk₂]
  · rw [← hsm]
    unfold listField
    rw [hw₁, hk₁]
  · rw [← hp]
    unfold listField
    rw [hw₂, hk₂]
  · intro ha hkd
    have ha' : Object.get (fixPatchesField data) "apiVersion".toList = none := by
      rw [hother _ (by decide) (by decide)]
      exact ha
    have hkd' : Object.get (fixPatchesField data) "kind".toList = none := by
      rw [hother _ (by decide) (by decide)]
      exact hkd
    have hfo : fieldOrder = "apiVersion".toList :: "kind".toList :: fieldOrder.drop 2 := rfl
    have hrest : ∀ f ∈ fieldOrder.drop 2, f ≠ "apiVersion".toList ∧ f ≠ "kind".toList := by
      decide
    show (List.map Prod.fst (fixPatchesField data)).flatMap
          (marshalField (fixDefaults (fixPatchesField data))) ++
        (fieldOrder.filter
          (fun f => decide (f ∉ List.map Prod.fst (fixPatchesField data)))).flatMap
          (marshalField (fixDefaults (fixPatchesField data))) = _
    rw [flatMap_marshalField_keys]
    · congr 1
      rw [hfo, List.filter_cons_of_pos
          (p := fun f => decide (f ∉ List.map Prod.fst (fixPatchesField data)))
          (decide_eq_true ((Object.get_eq_none_iff _ _).mp ha')),
        List.filter_cons_of_pos
          (p := fun f => decide (f ∉ List.map Prod.fst (fixPatchesField data)))
          (decide_eq_true ((Object.get_eq_none_iff _ _).mp hkd')),
        List.flatMap_cons, List.flatMap_cons, flatMap_marshalField_nil]
      · unfold marshalField
        rw [get_fixDefaults, get_fixDefaults, ha', hkd']
        rfl
      · intro f hf
        obtain ⟨hf₁, hf₂⟩ := List.mem_filter.mp hf
        rw [get_fixDefaults_of_ne _ _ (hrest f hf₁).1 (hrest f hf₁).2,
          Object.get_eq_none_iff]
        exact of_decide_eq_true hf₂
    · intro p hp
      exact get_fixDefaults_of_some _ _ _ (Object.get_of_mem _ (hnd' hnd) p.1 p.2 hp)

/-- An instance of C28, the descriptors of `TestFixPatchesField` and of
`TestFixPatchesFieldForExtendedPatch`: the bare paths `patch1.yaml` and
`patch2.yaml` are written as `patchesStrategicMerge`, the patches with a
target are written as `patches`, and `apiVersion` and `kind` come after
them. -/
theorem Read_Write_fixes_patches_witness :
    Write (Read sampleBarePatches).1 (Read sampleBarePatches).2 =
      [("patchesStrategicMerge".toList,
          .list [.str "patch1.yaml".toList, .str "patch2.yaml".toList]),
       ("apiVersion".toList, .str "kustomize.config.k8s.io/v1beta1".toList),
       ("kind".toList, .str "Kustomization".toList)] ∧
    Write (Read sampleTargetedPatches).1 (Read sampleTargetedPatches).2 =
      sampleTargetedPatches ++
        [("apiVersion".toList, .str "kustomize.config.k8s.io/v1beta1".toList),
         ("kind".toList, .str "Kustomization".toList)] ∧
    listField (Write (Read sampleBarePatches).1 (Read sampleBarePatches).2)
        "patchesStrategicMerge".toList =
      listField sampleBarePatches "patchesStrategicMerge".toList ++
        [Value.str "patch1.yaml".toList, Value.str "patch2.yaml".toList].filter isBarePath :=
  ⟨rfl, rfl,
    (Read_Write_fixes_patches sampleBarePatches
      [.str "patch1.yaml".toList, .str "patch2.yaml".toList] (by decide) rfl).2.2.1⟩

end kustfile

namespace strings

theorem lastIndexNat_of_not_mem (sub s : Str) (c : Char) (hc : c ∈ sub) (hs : c ∉ s) :
    lastIndexNat sub s = none := by
  induction s with
  | nil =>
    cases sub with
    | nil => cases hc
    | cons x xs => rfl
  | cons x cs ih =>
    rw [lastIndexNat, ih (fun h => hs (List.mem_cons_of_mem _ h))]
    have hnp : sub.isPrefixOf (x :: cs) = false := by
      rw [Bool.eq_false_iff]
      intro hp
      exact hs ((List.isPrefixOf_iff_prefix.mp hp).subset hc)
    simp only [hnp, Bool.false_eq_true, if_false]

theorem LastIndex_of_not_mem (s sub : Str) (c : Char) (hc : c ∈ sub) (hs : c ∉ s) :
    LastIndex s sub = -1 := by
  unfold LastIndex
  rw [lastIndexNat_of_not_mem sub s c hc hs]

/-- At the position `LastIndex` finds a byte at, the string goes on with that
byte. -/
theorem lastIndexNat_char_some (c : Char) :
    ∀ (s : Str) (i : Nat), lastIndexNat [c] s = some i → ∃ t, s.drop i = c :: t := by
  intro s
  induction s with
  | nil =>
    intro i h
    simp [lastIndexNat] at h
  | cons x cs ih =>
    intro i h
    rw [lastIndexNat] at h
    cases hl : lastIndexNat [c] cs with
    | some j =>
      simp only [hl, Option.some.injEq] at h
      subst h
      obtain ⟨t, ht⟩ := ih j hl
      exact ⟨t, by rw [List.drop_succ_cons]; exact ht⟩
    | none =>
      simp only [hl] at h
      by_cases hp : [c].isPrefixOf (x :: cs) = true
      · rw [if_pos hp, Option.some.injEq] at h
        subst h
        rw [List.isPrefixOf_iff_prefix] at hp
        obtain ⟨t, ht⟩ := hp
        rw [List.singleton_append] at ht
        exact ⟨cs, by rw [List.drop_zero, ← ht]; cases ht; rfl⟩
      · rw [if_neg hp] at h
        cases h

theorem LastIndex_char_nonneg (c : Char) (s : Str) (h : ¬ LastIndex s [c] < 0) :
    ∃ t, s.drop (LastIndex s [c]).toNat = c :: t := by
  unfold LastIndex at h ⊢
  cases hl : lastIndexNat [c] s with
  | none => simp [hl] at h
  | some i =>
    simp only [Int.toNat_ofNat]
    exact lastIndexNat_char_some c s i hl

end strings

namespace ImageTagTransformer

/-- What `split` returns, when it returns: the two parts make up the string,
and the tag is empty or begins with `:` or `@`. -/
theorem split_ok (s name tag : Str) (h : split s = .ok (name, tag)) :
    name ++ tag = s ∧ (tag = [] ∨ ∃ t, tag = ':' :: t ∨ tag = '@' :: t) := by
  unfold split at h
  simp only at h
  -- the index of the colon is negative, or the string has a colon there
  have hic : ∀ ic : Int,
      (if strings.Index s "/".toList < 0 then strings.LastIndex s ":".toList
        else if strings.LastIndex (s.drop (strings.Index s "/".toList).toNat) ":".toList > 0
          then strings.Index s "/".toList +
            strings.LastIndex (s.drop (strings.Index s "/".toList).toNat) ":".toList
          else -1) = ic →
      ic < 0 ∨ ∃ t, s.drop ic.toNat = ':' :: t := by
    intro ic hdef
    by_cases hs : strings.Index s "/".toList < 0
    · rw [if_pos hs] at hdef
      subst hdef
      by_cases hneg : strings.LastIndex s ":".toList < 0
      · exact Or.inl hneg
      · exact Or.inr (strings.LastIndex_char_nonneg ':' s hneg)
    · rw [if_neg hs] at hdef
      have key : ¬ strings.LastIndex (s.drop (strings.Index s "/".toList).toNat) ":".toList < 0 →
          ∃ t, (s.drop (strings.Index s "/".toList).toNat).drop
            (strings.LastIndex (s.drop (strings.Index s "/".toList).toNat) ":".toList).toNat
              = ':' :: t :=
        strings.LastIndex_char_nonneg ':' _
      generalize strings.LastIndex (s.drop (strings.Index s "/".toList).toNat) ":".toList = L
        at hdef key
      generalize strings.Index s "/".toList = I at hdef key hs
      by_cases hl : L > 0
      · rw [if_pos hl] at hdef
        subst hdef
        right
        obtain ⟨t, ht⟩ := key (by omega)
        refine ⟨t, ?_⟩
        rw [List.drop_drop] at ht
        rw [← ht]
        congr 1
        omega
      · rw [if_neg hl] at hdef
        subst hdef
        exact Or.inl (by decide)
  generalize hdef : (if strings.Index s "/".toList < 0 then strings.LastIndex s ":".toList
        else if strings.LastIndex (s.drop (strings.Index s "/".toList).toNat) ":".toList > 0
          then strings.Index s "/".toList +
            strings.LastIndex (s.drop (strings.Index s "/".toList).toNat) ":".toList
          else -1) = ic at h
  have hcolon := hic ic hdef
  by_cases hnone : ic < 0 ∧ strings.LastIndex s "@".toList < 0
  · rw [if_pos hnone] at h
    simp only [Result.ok.injEq, Prod.mk.injEq] at h
    obtain ⟨h₁, h₂⟩ := h
    subst h₁ h₂
    exact ⟨List.append_nil _, Or.inl rfl⟩
  · rw [if_neg hnone] at h
    by_cases hia : strings.LastIndex s "@".toList > 0
    · simp only [if_pos hia] at h
      rw [if_neg (by omega)] at h
      simp only [Result.ok.injEq, Prod.mk.injEq] at h
      obtain ⟨h₁, h₂⟩ := h
      subst h₁ h₂
      refine ⟨List.take_append_drop _ _, Or.inr ?_⟩
      obtain ⟨t, ht⟩ := strings.LastIndex_char_nonneg '@' s (by
        show ¬ strings.LastIndex s "@".toList < 0
        omega)
      exact ⟨t, Or.inr ht⟩
    · simp only [if_neg hia] at h
      by_cases hneg : ic < 0
      · rw [if_pos hneg] at h
        cases h
      · rw [if_neg hneg] at h
        simp only [Result.ok.injEq, Prod.mk.injEq] at h
        obtain ⟨h₁, h₂⟩ := h
        subst h₁ h₂
        refine ⟨List.take_append_drop _ _, Or.inr ?_⟩
        rcases hcolon with hc | ⟨t, ht⟩
        · exact absurd hc hneg
        · exact ⟨t, Or.inl ht⟩

/-- C29, at the failing input: `split("@sha256")` does not return, it panics
with a slice out of range; so does `split("@")`.  On `nginx@sha256:abc` it
returns the name and the tag with its separator. -/
theorem split_panics_on_leading_at :
    split "@sha256".toList = .panic "slice bounds out of range".toList ∧
    split "@".toList = .panic "slice bounds out of range".toList ∧
    split "nginx@sha256:abc".toList = .ok ("nginx".toList, "@sha256:abc".toList) := by
  decide

/-- C30: on a string with a slash, without `@` and without a colon after the
first slash, `split` returns the string as the name and an empty tag, also
when there is a colon before the first slash. -/
theorem split_ignores_colon_of_domain (a b : Str)
    (hslash : '/' ∉ a) (hcolon : ':' ∉ b) (hat₁ : '@' ∉ a) (hat₂ : '@' ∉ b) :
    split (a ++ '/' :: b) = .ok (a ++ '/' :: b, []) := by
  have hidx : strings.Index (a ++ '/' :: b) "/".toList = (a.length : Int) :=
    strings.Index_char_append a b '/' hslash
  have hdrop : (a ++ '/' :: b).drop a.length = '/' :: b := List.drop_left _ _
  have hlast : strings.LastIndex ('/' :: b) ":".toList = -1 :=
    strings.LastIndex_of_not_mem _ _ ':' (List.mem_singleton.mpr rfl) (by
      intro h
      rcases List.mem_cons.mp h with h | h
      · cases h
      · exact hcolon h)
  have hia : strings.LastIndex (a ++ '/' :: b) "@".toList = -1 :=
    strings.LastIndex_of_not_mem _ _ '@' (List.mem_singleton.mpr rfl) (by
      intro h
      rcases List.mem_append.mp h with h | h
      · exact hat₁ h
      · rcases List.mem_cons.mp h with h | h
        · cases h
        · exact hat₂ h)
  have hnn : ¬ ((a.length : Int) < 0) := by omega
  unfold split
  simp only [hidx, Int.toNat_ofNat, hdrop, hlast, hia, if_neg hnn]
  rfl

/-- An instance of C30: the port of the registry in `localhost:5000/nginx` is
no tag. -/
theorem split_ignores_colon_of_domain_witness :
    split "localhost:5000/nginx".toList = .ok ("localhost:5000/nginx".toList, []) :=
  split_ignores_colon_of_domain "localhost:5000".toList "nginx".toList
    (by decide) (by decide) (by decide) (by decide)

end ImageTagTransformer

namespace builtin

/-- C31: the generated `HashTransformerPlugin.Transform` and the `Transform`
of the plugin it was generated from return the same error and leave the same
map, for every map and every hasher. -/
theorem HashTransformerPlugin.Transform_eq (rops : ResourceOps)
    (hasher : Resource → Result Str) (m : List Resource) :
    HashTransformerPlugin.Transform rops { hasher := hasher } m =
      HashTransformer.Transform rops { hasher := hasher } m := by
  induction m with
  | nil => rfl
  | cons res rest ih =>
    rw [HashTransformerPlugin.Transform, HashTransformer.Transform, ih]

end builtin

namespace strings

theorem splitAux_append_of_not_mem (sep : Char) (a rest cur : Str) (h : sep ∉ a) :
    splitAux sep (a ++ rest) cur = splitAux sep rest (a.reverse ++ cur) := by
  induction a generalizing cur with
  | nil => rfl
  | cons c a ih =>
    have hc : c ≠ sep := fun e => h (e ▸ List.mem_cons_self _ _)
    have ha : sep ∉ a := fun m => h (List.mem_cons_of_mem _ m)
    rw [List.cons_append, splitAux, if_neg hc, ih _ ha, List.reverse_cons, List.append_assoc]
    rfl

theorem splitAux_of_not_mem (sep : Char) (a cur : Str) (h : sep ∉ a) :
    splitAux sep a cur = [cur.reverse ++ a] := by
  have := splitAux_append_of_not_mem sep a [] cur h
  rw [List.append_nil] at this
  rw [this, splitAux, List.reverse_append, List.reverse_reverse]

/-- `Split` undoes `Join` for three pieces without the separator. -/
theorem Split_Join_three (sep : Char) (a b c : Str)
    (ha : sep ∉ a) (hb : sep ∉ b) (hc : sep ∉ c) :
    Split (Join [a, b, c] [sep]) sep = [a, b, c] := by
  have hj : Join [a, b, c] [sep] = a ++ sep :: (b ++ sep :: c) := by
    simp [Join, List.intercalate]
  rw [hj, Split, splitAux_append_of_not_mem sep a _ [] ha, splitAux, if_pos rfl,
    splitAux_append_of_not_mem sep b _ [] hb, splitAux, if_pos rfl,
    splitAux_of_not_mem sep c [] hc]
  simp

end strings

/-- C32: for an id whose `Gvk.String()`, namespace and name are without `|`
and whose namespace and name are not the sentinels `~X` and `~N`,
`FromString(id.String())` returns, with the namespace and the name of the id
and the Gvk that `gvk.FromString` makes of `id.Gvk.String()`. -/
theorem FromString_String (ops : GvkOps) (gvkFromString : Str → Gvk) (id : ResId)
    (hg : '|' ∉ ops.String id.Gvk) (hns : '|' ∉ id.Namespace) (hnm : '|' ∉ id.Name)
    (hns' : id.Namespace ≠ "~X".toList) (hnm' : id.Name ≠ "~N".toList) :
    FromString gvkFromString (id.String ops) =
      .ok { Gvk := gvkFromString (ops.String id.Gvk), Namespace := id.Namespace,
            Name := id.Name } := by
  have hns₂ : '|' ∉ (if id.Namespace = [] then noNamespace else id.Namespace) := by
    by_cases h : id.Namespace = []
    · rw [if_pos h]; decide
    · rw [if_neg h]; exact hns
  have hnm₂ : '|' ∉ (if id.Name = [] then noName else id.Name) := by
    by_cases h : id.Name = []
    · rw [if_pos h]; decide
    · rw [if_neg h]; exact hnm
  unfold FromString ResId.String
  simp only [separator]
  rw [show "|".toList = ['|'] from rfl, strings.Split_Join_three '|' _ _ _ hg hns₂ hnm₂]
  simp only
  congr 2
  · by_cases h : id.Name = []
    · rw [if_pos h, if_pos rfl, h]
    · rw [if_neg h, if_neg (show ¬ id.Name = noName from hnm')]
  · by_cases h : id.Namespace = []
    · rw [if_pos h, if_pos rfl, h]
    · rw [if_neg h, if_neg (show ¬ id.Namespace = noNamespace from hns')]

/-- An instance of C32: the Secret `dummy` without namespace, whose string is
`_v1_Secret|~X|dummy`. -/
theorem FromString_String_witness :
    FromString gvkOfString "_v1_Secret|~X|dummy".toList =
      .ok { Gvk := { Group := [], Version := "v1".toList, Kind := "Secret".toList },
            Namespace := [], Name := "dummy".toList } ∧
    FromString gvkOfString
        (ResId.String kindOps
          { Gvk := { Group := [], Version := "v1".toList, Kind := "Secret".toList },
            Name := "dummy".toList, Namespace := [] }) =
      .ok { Gvk := gvkOfString (kindOps.String
              { Group := [], Version := "v1".toList, Kind := "Secret".toList }),
            Namespace := [], Name := "dummy".toList } :=
  ⟨by decide,
    FromString_String kindOps gvkOfString
      { Gvk := { Group := [], Version := "v1".toList, Kind := "Secret".toList },
        Name := "dummy".toList, Namespace := [] }
      (by decide) (by decide) (by decide) (by decide) (by decide)⟩

/-- The first loop of `parseHostSpec` moves nothing when `n` begins with none
of the prefixes. -/
theorem parseHostSpecAccumulate_of_unprefixed (n host : Str) :
    ∀ (ps : List Str), (∀ p ∈ ps, ¬ p <+: strings.ToLower n) →
      parseHostSpecAccumulate ps host n = (host, n) := by
  intro ps
  induction ps with
  | nil => intro _; rfl
  | cons p ps ih =>
    intro h
    rw [parseHostSpecAccumulate_cons_neg p ps host n (h p (List.mem_cons_self _ _))]
    exact ih (fun q hq => h q (List.mem_cons_of_mem _ hq))

/-- Without one of the prefixes there is no host. -/
theorem parseHostSpec_of_unprefixed (n : Str)
    (h : ∀ p ∈ hostPrefixes, ¬ p <+: strings.ToLower n) : parseHostSpec n = ([], n) := by
  rw [parseHostSpec_of_accumulate n [] n (parseHostSpecAccumulate_of_unprefixed n [] _ h)
    (by decide)]
  rfl

theorem parseGitUrl_host_of_unprefixed (n : Str)
    (hgit : ¬ "_git/".toList <:+: n)
    (h : ∀ p ∈ hostPrefixes, ¬ p <+: strings.ToLower n) : (parseGitUrl n).host = [] := by
  have hc : strings.Contains n gitDelimiter = false :=
    (strings.Contains_eq_false_iff n gitDelimiter).mpr hgit
  unfold parseGitUrl
  rw [hc, parseHostSpec_of_unprefixed n h]
  simp only [Bool.false_eq_true, if_false]
  split
  · rfl
  · split
    · rfl
    · split
      · rfl
      · rfl

/-- C33: for a string that does not contain `_git/` and begins, in lower
case, with none of the prefixes `git::`, `gh:`, `ssh://`, `https://`,
`http://`, `git@`, `github.com:`, `github.com/`, `NewRepoSpecFromUrl`
returns an error. -/
theorem NewRepoSpecFromUrl_local_path (n : Str)
    (hgit : ¬ "_git/".toList <:+: n)
    (h : ∀ p ∈ hostPrefixes, ¬ p <+: strings.ToLower n) :
    ∃ e, NewRepoSpecFromUrl n = .error e := by
  unfold NewRepoSpecFromUrl
  by_cases h1 : filepath.IsAbs n = true
  · rw [if_pos h1]
    exact ⟨_, rfl⟩
  · rw [if_neg h1]
    simp only
    by_cases h2 : (parseGitUrl n).orgRepo = []
    · rw [if_pos h2]
      exact ⟨_, rfl⟩
    · rw [if_neg h2, if_pos (parseGitUrl_host_of_unprefixed n hgit h)]
      exact ⟨_, rfl⟩

/-- An instance of C33: the relative path `../base/app`, the file
`deployment.yaml` and the absolute path `/home/me/base`. -/
theorem NewRepoSpecFromUrl_local_path_witness :
    NewRepoSpecFromUrl "../base/app".toList = .error "url lacks host: ../base/app".toList ∧
    NewRepoSpecFromUrl "deployment.yaml".toList =
      .error "url lacks orgRepo: deployment.yaml".toList ∧
    NewRepoSpecFromUrl "/home/me/base".toList =
      .error "uri looks like abs path: /home/me/base".toList ∧
    ∃ e, NewRepoSpecFromUrl "../base/app".toList = .error e :=
  ⟨rfl, rfl, rfl,
    NewRepoSpecFromUrl_local_path "../base/app".toList (by decide) (by decide)⟩

/-- What `normalizeGitHostSpec` returns for a host spec that begins with
`git::` in lower case: the host spec in lower case without its leading bytes
`g`, `i`, `t` and `:`, however many there are. -/
theorem normalizeGitHostSpec_of_git_prefixed (h : Str)
    (hp : "git::".toList <+: strings.ToLower h) :
    normalizeGitHostSpec h =
      (strings.ToLower h).dropWhile (fun c => "git::".toList.contains c) := by
  unfold normalizeGitHostSpec strings.HasPrefix strings.TrimLeft
  simp only
  rw [if_pos (List.isPrefixOf_iff_prefix.mpr hp)]

/-- C34, at the failing input: for the host spec `git::gitlab.com/_git/`,
which `parseGitUrl` passes for `git::gitlab.com/_git/someRepo`,
`normalizeGitHostSpec` returns `lab.com/_git/` and not
`gitlab.com/_git/`; for `git::https://gitlab.com/` it returns
`https://gitlab.com/`. -/
theorem normalizeGitHostSpec_trims_cutset :
    strings.Contains (strings.ToLower "git::gitlab.com/_git/".toList) "github.com".toList
      = false ∧
    normalizeGitHostSpec "git::gitlab.com/_git/".toList = "lab.com/_git/".toList ∧
    (parseGitUrl "git::gitlab.com/_git/someRepo".toList).host = "lab.com/_git/".toList ∧
    normalizeGitHostSpec "git::https://gitlab.com/".toList = "https://gitlab.com/".toList := by
  decide

namespace LegacyOrderTransformer

/-- When `Transform` succeeds, the map it leaves is the list of the resources
it has found for the sorted ids. -/
theorem Transform_done_lookupAll (rops : ResourceOps) (iops : IdOps) (m out : List Resource)
    (hperm : ∀ l, (iops.SortIds l).Perm l)
    (hrefl : ∀ id, iops.Matches id id = true)
    (h : Transform rops iops m = .done out none) :
    lookupAll rops iops m (iops.SortIds (AllIds rops m)) = .ok out := by
  unfold Transform at h
  cases hl : lookupAll rops iops m (iops.SortIds (AllIds rops m)) with
  | err e => simp only [hl, Walk.done.injEq, reduceCtorEq, and_false] at h
  | panic msg => simp only [hl, reduceCtorEq] at h
  | ok rs =>
    simp only [hl, Walk.done.injEq, and_true] at h
    obtain ⟨hmap, hcount⟩ := lookupAll_sorted_ids rops iops m rs hperm hrefl hl
    have hpw : rs.Pairwise
        (fun x r => iops.Matches (rops.CurId r) (rops.CurId x) = false) := by
      have := pairwise_not_matches iops.Matches hrefl _ hcount
      rw [← hmap, List.pairwise_map] at this
      exact this
    have hout : out = rs := by
      rw [← h, foldl_Append_eq rops iops rs [] (by simpa using hpw)]
      simp
    rw [hout]

/-- The resources found for ids are resources of the map. -/
theorem mem_of_lookupAll (rops : ResourceOps) (iops : IdOps) (m : List Resource) :
    ∀ (ids : List ResId) (rs : List Resource),
      lookupAll rops iops m ids = .ok rs → ∀ r ∈ rs, r ∈ m := by
  intro ids rs h
  have hf := (lookupAll_ok_iff rops iops m ids rs).mp h
  clear h
  induction hf with
  | nil => intro r hr; cases hr
  | @cons id r₀ ids rs hr _ ih =>
    intro r hmem
    rcases List.mem_cons.mp hmem with h | h
    · subst h
      have : r ∈ m.filter (fun x => iops.Matches id (rops.CurId x)) := by
        rw [hr]
        exact List.mem_singleton.mpr rfl
      exact (List.mem_filter.mp this).1
    · exact ih r h

/-- C36: when `Transform` returns nil, the resources of the map are those it
had, each once, in some order; when it returns an error, the map is as it
was.  `sort.Sort` returns the ids it is given in some order, and a lookup by
an id finds the resources with that id; that the current ids of the map are
pairwise distinct follows from the success of the lookups. -/
theorem Transform_perm (rops : ResourceOps) (iops : IdOps) (m : List Resource)
    (hperm : ∀ l, (iops.SortIds l).Perm l)
    (hrefl : ∀ id, iops.Matches id id = true) :
    (∀ out, Transform rops iops m = .done out none →
      out.Perm m ∧ out.length = m.length ∧ (AllIds rops m).Nodup) ∧
    (∀ out e, Transform rops iops m = .done out (some e) → out = m) := by
  constructor
  · intro out h
    have hl := Transform_done_lookupAll rops iops m out hperm hrefl h
    obtain ⟨hmap, hcount⟩ := lookupAll_sorted_ids rops iops m out hperm hrefl hl
    -- the sorted ids are pairwise distinct
    have hnd : (iops.SortIds (AllIds rops m)).Nodup := by
      have hpw := pairwise_not_matches iops.Matches hrefl _ hcount
      refine List.Pairwise.imp ?_ hpw
      intro a b hab hEq
      subst hEq
      rw [hrefl a] at hab
      cases hab
    have hnd_out : out.Nodup := by
      have : (out.map rops.CurId).Nodup := by rw [hmap]; exact hnd
      exact List.Nodup.of_map _ this
    have hsub : out ⊆ m := fun r hr => mem_of_lookupAll rops iops m _ out hl r hr
    have hlen : out.length = m.length := by
      have h₁ : (out.map rops.CurId).length = (iops.SortIds (AllIds rops m)).length := by
        rw [hmap]
      rw [List.length_map, (hperm _).length_eq, AllIds, List.length_map] at h₁
      exact h₁
    have hndm : (AllIds rops m).Nodup := (hperm _).nodup_iff.mp hnd
    refine ⟨?_, hlen, hndm⟩
    exact (List.subperm_of_subset hnd_out hsub).perm_of_length_le (le_of_eq hlen.symm)
  · intro out e h
    unfold Transform at h
    cases hl : lookupAll rops iops m (iops.SortIds (AllIds rops m)) with
    | err e' =>
      simp only [hl, Walk.done.injEq] at h
      exact h.1.symm
    | panic msg => simp only [hl, reduceCtorEq] at h
    | ok rs => simp only [hl, Walk.done.injEq, reduceCtorEq, and_false] at h

/-- An instance of C36: the resources of scenario S5 are put in another
order and none is added, dropped or changed; with two Services `papaya` the
lookup fails and the map stays as it was. -/
theorem Transform_perm_witness :
    sampleExpected.Perm sampleInput ∧ sampleExpected.length = sampleInput.length ∧
    (AllIds sampleResourceOps sampleInput).Nodup ∧
    Transform sampleResourceOps sampleIdOps
        [sampleResource "Service" "papaya" "" false,
         sampleResource "Namespace" "apple" "" false,
         sampleResource "Service" "papaya" "" false] =
      .done [sampleResource "Service" "papaya" "" false,
             sampleResource "Namespace" "apple" "" false,
             sampleResource "Service" "papaya" "" false]
        (some ("expected match for sorting: multiple matches for Id; " ++
          "unable to disambiguate").toList) :=
  ⟨((Transform_perm sampleResourceOps sampleIdOps sampleInput sampleIdOps_perm
      (fun id => ResId.Equals_refl kindOps id)).1 sampleExpected rfl).1,
    ((Transform_perm sampleResourceOps sampleIdOps sampleInput sampleIdOps_perm
      (fun id => ResId.Equals_refl kindOps id)).1 sampleExpected rfl).2.1,
    ((Transform_perm sampleResourceOps sampleIdOps sampleInput sampleIdOps_perm
      (fun id => ResId.Equals_refl kindOps id)).1 sampleExpected rfl).2.2,
    rfl⟩

end LegacyOrderTransformer

namespace fs

theorem find?_map_replace (name k : Str) (f : FakeFile) :
    ∀ (l : List (Str × FakeFile)), l.any (fun e => decide (e.1 = name)) = true →
      ((l.map (fun e => if e.1 = name then (name, f) else e)).find?
        (fun e => decide (e.1 = k))).map Prod.snd =
      if k = name then some f else (l.find? (fun e => decide (e.1 = k))).map Prod.snd := by
  intro l
  induction l with
  | nil => intro h; cases h
  | cons e l ih =>
    intro h
    rw [List.map_cons]
    by_cases he : e.1 = name
    · rw [if_pos he]
      by_cases hk : k = name
      · rw [if_pos hk, List.find?_cons_of_pos _ (by simp [hk])]
        rfl
      · have hne : ¬ e.1 = k := fun h' => hk (h'.symm.trans he)
        have hne' : ¬ name = k := fun h' => hk h'.symm
        rw [if_neg hk, List.find?_cons_of_neg _ (by simpa using hne'),
          List.find?_cons_of_neg _ (by simpa using hne)]
        by_cases hany : l.any (fun e => decide (e.1 = name)) = true
        · rw [ih hany, if_neg hk]
        · -- no later entry has the key: the map changes nothing
          have hsame : l.map (fun e => if e.1 = name then (name, f) else e) = l := by
            have hid : l.map (fun e => if e.1 = name then (name, f) else e) = l.map id := by
              apply List.map_congr_left
              intro x hx
              have : ¬ x.1 = name := by
                intro hx'
                apply hany
                rw [List.any_eq_true]
                exact ⟨x, hx, decide_eq_true hx'⟩
              rw [if_neg this]
              rfl
            rw [hid, List.map_id]
          rw [hsame]
    · rw [if_neg he]
      have hany : l.any (fun e => decide (e.1 = name)) = true := by
        rw [List.any_cons, Bool.or_eq_true] at h
        rcases h with h | h
        · exact absurd (of_decide_eq_true h) he
        · exact h
      by_cases hk : e.1 = k
      · have hkn : ¬ k = name := fun h' => he (hk.trans h')
        rw [List.find?_cons_of_pos _ (by simpa using hk),
          List.find?_cons_of_pos _ (by simpa using hk), if_neg hkn]
      · rw [List.find?_cons_of_neg _ (by simpa using hk),
          List.find?_cons_of_neg _ (by simpa using hk), ih hany]

/-- Go `fs.m[name] = f` followed by `fs.m[k]`. -/
theorem fakeFs.get_after_set (fs : fakeFs) (name k : Str) (f : FakeFile) :
    (fs.set name f).get k = if k = name then some f else fs.get k := by
  unfold fakeFs.set fakeFs.get
  by_cases hany : fs.m.any (fun e => decide (e.1 = name)) = true
  · rw [if_pos hany]
    exact find?_map_replace name k f fs.m hany
  · rw [if_neg hany]
    simp only
    rw [List.find?_append]
    by_cases hk : k = name
    · subst hk
      have hnone : fs.m.find? (fun e => decide (e.1 = k)) = none := by
        rw [List.find?_eq_none]
        intro x hx hxk
        apply hany
        rw [List.any_eq_true]
        exact ⟨x, hx, hxk⟩
      rw [hnone, if_pos rfl]
      simp
    · rw [if_neg hk]
      have hne : ¬ name = k := fun h' => hk h'.symm
      cases hf : fs.m.find? (fun e => decide (e.1 = k)) with
      | some x => rfl
      | none =>
        rw [Option.none_or, List.find?_cons_of_neg _ (by simpa using hne)]
        rfl

theorem fakeFs.get_none_iff_not_key (fs : fakeFs) (k : Str) :
    fs.get k = none ↔ k ∉ fs.keys := by
  unfold fakeFs.get fakeFs.keys
  rw [Option.map_eq_none', List.find?_eq_none]
  constructor
  · intro h hmem
    obtain ⟨x, hx, hxk⟩ := List.mem_map.mp hmem
    exact h x hx (by simpa using hxk)
  · intro h x hx hxk
    exact h (List.mem_map.mpr ⟨x, hx, by simpa using hxk⟩)

/-- C37: `WriteFile(name, c)` returns nil, and after it `ReadFile(name)`
returns `c` without an error and `Exists(name)` is true; a second write to
the name is the one read back; for every other name `ReadFile` and `Exists`
return what they returned before; and in every state `ReadFile` returns an
error exactly for the names that are no entry of the file system. -/
theorem WriteFile_ReadFile (fs : fakeFs) (name c : Str) :
    (fs.WriteFile name c).2 = none ∧
    (fs.WriteFile name c).1.ReadFile name = .ok c ∧
    (fs.WriteFile name c).1.Exists name = true ∧
    (∀ c', ((fs.WriteFile name c).1.WriteFile name c').1.ReadFile name = .ok c') ∧
    (∀ k, k ≠ name →
      (fs.WriteFile name c).1.ReadFile k = fs.ReadFile k ∧
      (fs.WriteFile name c).1.Exists k = fs.Exists k) ∧
    (∀ k, (∃ e, fs.ReadFile k = .err e) ↔ k ∉ fs.keys) := by
  have hread : ∀ (g : fakeFs) (c' : Str), (g.WriteFile name c').1.ReadFile name = .ok c' := by
    intro g c'
    unfold fakeFs.WriteFile fakeFs.ReadFile
    simp only
    rw [fakeFs.get_after_set, if_pos rfl]
    rfl
  refine ⟨rfl, hread fs c, ?_, fun c' => hread _ c', ?_, ?_⟩
  · unfold fakeFs.WriteFile fakeFs.Exists
    simp only
    rw [fakeFs.get_after_set, if_pos rfl]
    rfl
  · intro k hk
    unfold fakeFs.WriteFile fakeFs.ReadFile fakeFs.Exists
    simp only
    rw [fakeFs.get_after_set, if_neg hk]
    exact ⟨rfl, rfl⟩
  · intro k
    rw [← fakeFs.get_none_iff_not_key]
    unfold fakeFs.ReadFile
    cases fs.get k with
    | none => simp
    | some ff => simp

/-- An instance of C37: the descriptor written twice into the fresh file
system. -/
theorem WriteFile_ReadFile_witness :
    ((MakeFakeFS.WriteFile "kustomization.yaml".toList "namePrefix: a-".toList).1.WriteFile
        "kustomization.yaml".toList "namePrefix: b-".toList).1.ReadFile
        "kustomization.yaml".toList = .ok "namePrefix: b-".toList ∧
    (MakeFakeFS.WriteFile "kustomization.yaml".toList "namePrefix: a-".toList).1.ReadFile
        "/".toList = MakeFakeFS.ReadFile "/".toList ∧
    MakeFakeFS.ReadFile "kustomization.yaml".toList =
      .err "cannot read file \"kustomization.yaml\"".toList :=
  ⟨(WriteFile_ReadFile MakeFakeFS "kustomization.yaml".toList "namePrefix: a-".toList).2.2.2.1
      "namePrefix: b-".toList,
    rfl, rfl⟩

end fs

namespace ImageTagTransformer

/-- C38, at the failing inputs: on an object whose `containers` list holds a
string, and on one whose container has an `image` that is no string,
`findAndReplaceImage` panics with the failed type assertion, whatever the
image configuration; so it does below other mappings, where `findContainers`
gets to the object. -/
theorem findAndReplaceImage_panics (re : Regexp) (p : plugin) :
    findAndReplaceImage re p [("containers".toList, .list [.str "nginx".toList])] =
      .panic ("interface conversion: interface \x7b\x7d is string, " ++
        "not map[string]interface \x7b\x7d").toList ∧
    findAndReplaceImage re p
        [("containers".toList, .list [.map [("image".toList, .bool true)]])] =
      .panic "interface conversion: interface \x7b\x7d is bool, not string".toList ∧
    findAndReplaceImage re p
        [("spec".toList, .map [("template".toList,
          .map [("spec".toList,
            .map [("initContainers".toList, .list [.str "nginx".toList])])])])] =
      .panic ("interface conversion: interface \x7b\x7d is string, " ++
        "not map[string]interface \x7b\x7d").toList :=
  ⟨rfl, rfl, rfl⟩

end ImageTagTransformer

namespace strings

theorem lastIndexNat_char_append (a b : Str) (c : Char) (h : c ∉ b) :
    lastIndexNat [c] (a ++ c :: b) = some a.length := by
  induction a with
  | nil =>
    rw [List.nil_append, lastIndexNat,
      lastIndexNat_of_not_mem [c] b c (List.mem_singleton.mpr rfl) h]
    simp [List.isPrefixOf]
  | cons x xs ih =>
    rw [List.cons_append, lastIndexNat, ih]
    rfl

/-- The last index of a byte that does not occur after it. -/
theorem LastIndex_char_append (a b : Str) (c : Char) (h : c ∉ b) :
    LastIndex (a ++ c :: b) [c] = (a.length : Int) := by
  unfold LastIndex
  rw [lastIndexNat_char_append a b c h]

end strings

namespace ImageTagTransformer

theorem isAlphanum_ne (c : Char) (h : c.isAlphanum = true) :
    c ≠ '/' ∧ c ≠ ':' ∧ c ≠ '@' := by
  refine ⟨?_, ?_, ?_⟩ <;> (intro e; subst e; revert h; decide)

theorem isTagChar_ne (c : Char) (h : isTagChar c = true) :
    c ≠ '/' ∧ c ≠ ':' ∧ c ≠ '@' := by
  refine ⟨?_, ?_, ?_⟩ <;> (intro e; subst e; revert h; decide)

/-- `split` on a string without slash, colon and `@`. -/
theorem split_of_no_tag (n : Str) (h₁ : '/' ∉ n) (h₂ : ':' ∉ n) (h₃ : '@' ∉ n) :
    split n = .ok (n, []) := by
  have hidx : strings.Index n "/".toList = -1 :=
    strings.Index_of_not_mem _ _ '/' (List.mem_singleton.mpr rfl) h₁
  have hic : strings.LastIndex n ":".toList = -1 :=
    strings.LastIndex_of_not_mem _ _ ':' (List.mem_singleton.mpr rfl) h₂
  have hia : strings.LastIndex n "@".toList = -1 :=
    strings.LastIndex_of_not_mem _ _ '@' (List.mem_singleton.mpr rfl) h₃
  unfold split
  simp only [hidx, hic, hia]
  rfl

/-- `split` on a string without slash whose only colon is followed by no
`@`: the tag begins at the colon. -/
theorem split_of_colon (n t : Str) (h₁ : '/' ∉ n) (h₃ : '@' ∉ n)
    (k₁ : '/' ∉ t) (k₂ : ':' ∉ t) (k₃ : '@' ∉ t) :
    split (n ++ ':' :: t) = .ok (n, ':' :: t) := by
  have hidx : strings.Index (n ++ ':' :: t) "/".toList = -1 :=
    strings.Index_of_not_mem _ _ '/' (List.mem_singleton.mpr rfl) (by
      intro h
      rcases List.mem_append.mp h with h | h
      · exact h₁ h
      · rcases List.mem_cons.mp h with h | h
        · cases h
        · exact k₁ h)
  have hic : strings.LastIndex (n ++ ':' :: t) ":".toList = (n.length : Int) :=
    strings.LastIndex_char_append n t ':' k₂
  have hia : strings.LastIndex (n ++ ':' :: t) "@".toList = -1 :=
    strings.LastIndex_of_not_mem _ _ '@' (List.mem_singleton.mpr rfl) (by
      intro h
      rcases List.mem_append.mp h with h | h
      · exact h₃ h
      · rcases List.mem_cons.mp h with h | h
        · cases h
        · exact k₃ h)
  have hnn : ((n.length : Int) < 0) = False := eq_false (by omega)
  have e₁ : ((-1 : Int) < 0) = True := eq_true (by decide)
  have e₂ : ((-1 : Int) > 0) = False := eq_false (by decide)
  unfold split
  simp only [hidx, hic, hia, e₁, e₂, hnn, if_true, if_false, and_true, false_and,
    Int.toNat_ofNat, List.take_left, List.drop_left]

/-- `split` on a string without slash and with one `@`, which is not its
first byte: the tag begins at the `@`. -/
theorem split_of_at (n t : Str) (hn : n ≠ []) (h₁ : '/' ∉ n)
    (k₁ : '/' ∉ t) (k₃ : '@' ∉ t) :
    split (n ++ '@' :: t) = .ok (n, '@' :: t) := by
  have hidx : strings.Index (n ++ '@' :: t) "/".toList = -1 :=
    strings.Index_of_not_mem _ _ '/' (List.mem_singleton.mpr rfl) (by
      intro h
      rcases List.mem_append.mp h with h | h
      · exact h₁ h
      · rcases List.mem_cons.mp h with h | h
        · cases h
        · exact k₁ h)
  have hia : strings.LastIndex (n ++ '@' :: t) "@".toList = (n.length : Int) :=
    strings.LastIndex_char_append n t '@' k₃
  have hpos : (n.length : Int) > 0 := by
    have := List.length_pos.mpr hn
    omega
  have hnn : ((n.length : Int) < 0) = False := eq_false (by omega)
  have e₁ : ((-1 : Int) < 0) = True := eq_true (by decide)
  unfold split
  simp only [hidx, hia, e₁, hnn, eq_true hpos, if_true, if_false, and_false,
    Int.toNat_ofNat, List.take_left, List.drop_left]

/-- The strings of the end of the pattern. -/
theorem isTagSuffix_cases (x : Str) (h : isTagSuffix x = true) :
    x = [] ∨ (∃ t, x = ':' :: t ∧ ∀ c ∈ t, isTagChar c = true) ∨
      x = "@sha256".toList ∨
      (∃ t, x = "@sha256".toList ++ ':' :: t ∧ ∀ c ∈ t, isTagChar c = true) := by
  have key : ∀ y : Str, (match y with
      | [] => true
      | c :: t => decide (c = ':') && t.all isTagChar) = true →
      y = [] ∨ ∃ t, y = ':' :: t ∧ ∀ c ∈ t, isTagChar c = true := by
    intro y hy
    cases y with
    | nil => exact Or.inl rfl
    | cons c t =>
      simp only [Bool.and_eq_true, decide_eq_true_eq, List.all_eq_true] at hy
      exact Or.inr ⟨t, by rw [hy.1], hy.2⟩
  unfold isTagSuffix at h
  simp only at h
  by_cases hp : "@sha256".toList.isPrefixOf x = true
  · rw [if_pos hp] at h
    obtain ⟨rest, hrest⟩ := List.isPrefixOf_iff_prefix.mp hp
    subst hrest
    rw [List.drop_left] at h
    rcases key rest h with h | ⟨t, ht, htc⟩
    · subst h
      exact Or.inr (Or.inr (Or.inl (List.append_nil _)))
    · subst ht
      exact Or.inr (Or.inr (Or.inr ⟨t, rfl, htc⟩))
  · rw [if_neg hp] at h
    rcases key x h with h | h
    · exact Or.inl h
    · exact Or.inr (Or.inl h)

/-- `split` takes a name of letters and digits off a string of the pattern. -/
theorem split_name_suffix (n x : Str) (hn : n ≠ [])
    (hna : ∀ c ∈ n, c.isAlphanum = true) (hx : isTagSuffix x = true) :
    split (n ++ x) = .ok (n, x) := by
  have h₁ : '/' ∉ n := fun h => (isAlphanum_ne _ (hna _ h)).1 rfl
  have h₂ : ':' ∉ n := fun h => (isAlphanum_ne _ (hna _ h)).2.1 rfl
  have h₃ : '@' ∉ n := fun h => (isAlphanum_ne _ (hna _ h)).2.2 rfl
  rcases isTagSuffix_cases x hx with h | ⟨t, ht, htc⟩ | h | ⟨t, ht, htc⟩
  · subst h
    rw [List.append_nil]
    exact split_of_no_tag n h₁ h₂ h₃
  · subst ht
    exact split_of_colon n t h₁ h₃ (fun h => (isTagChar_ne _ (htc _ h)).1 rfl)
      (fun h => (isTagChar_ne _ (htc _ h)).2.1 rfl)
      (fun h => (isTagChar_ne _ (htc _ h)).2.2 rfl)
  · subst h
    exact split_of_at n "sha256".toList hn h₁ (by decide) (by decide)
  · subst ht
    have k₁ : '/' ∉ "sha256".toList ++ ':' :: t := by
      intro h
      rcases List.mem_append.mp h with h | h
      · revert h; decide
      · rcases List.mem_cons.mp h with h | h
        · cases h
        · exact (isTagChar_ne _ (htc _ h)).1 rfl
    have k₃ : '@' ∉ "sha256".toList ++ ':' :: t := by
      intro h
      rcases List.mem_append.mp h with h | h
      · revert h; decide
      · rcases List.mem_cons.mp h with h | h
        · cases h
        · exact (isTagChar_ne _ (htc _ h)).2.2 rfl
    exact split_of_at n ("sha256".toList ++ ':' :: t) hn h₁ k₁ k₃

/-- C35: for a configuration whose `Name` is a non-empty string of letters
and digits, whose `NewName` is empty or such a string, whose `NewTag` is a
string over `[a-zA-Z0-9_.-]` and whose `Digest` is empty or `sha256:` and
such a string, and a `regexp` that decides the pattern of the name on `s` and
on what `mutateImage` makes of `s`: `mutateImage` returns a string `r` on `s`
and returns `r` on `r`. -/
theorem mutateImage_idempotent (re : Regexp) (p : plugin) (s : Str)
    (hName : p.ImageTag.Name ≠ [] ∧ ∀ c ∈ p.ImageTag.Name, c.isAlphanum = true)
    (hNewName : ∀ c ∈ p.ImageTag.NewName, c.isAlphanum = true)
    (hNewTag : ∀ c ∈ p.ImageTag.NewTag, isTagChar c = true)
    (hDigest : p.ImageTag.Digest = [] ∨
      ∃ d, p.ImageTag.Digest = "sha256:".toList ++ d ∧ ∀ c ∈ d, isTagChar c = true)
    (hre : ∀ t, t = s ∨ mutateImage re p (.str s) = .ok (.str t) →
      isImageMatched re t p.ImageTag.Name = .ok (matchesName p.ImageTag.Name t)) :
    ∃ r, mutateImage re p (.str s) = .ok (.str r) ∧
      mutateImage re p (.str r) = .ok (.str r) := by
  have h1 := hre s (Or.inl rfl)
  cases hm : matchesName p.ImageTag.Name s with
  | false =>
    rw [hm] at h1
    have : mutateImage re p (.str s) = .ok (.str s) := by simp only [mutateImage, h1]
    exact ⟨s, this, this⟩
  | true =>
    rw [hm] at h1
    unfold matchesName at hm
    rw [Bool.and_eq_true] at hm
    obtain ⟨x, hx⟩ := List.isPrefixOf_iff_prefix.mp hm.1
    have hsuf : isTagSuffix x = true := by
      have := hm.2
      rw [← hx, List.drop_left] at this
      exact this
    have hsplit : split s = .ok (p.ImageTag.Name, x) := by
      rw [← hx]
      exact split_name_suffix _ x hName.1 hName.2 hsuf
    have hr := mutateImage_of_matched re p s _ x h1 hsplit
    -- the name and the tag of the result
    have hname : ∀ name', name' = (if p.ImageTag.NewName ≠ [] then p.ImageTag.NewName
        else p.ImageTag.Name) → name' ≠ [] ∧ ∀ c ∈ name', c.isAlphanum = true := by
      intro name' hdef
      by_cases hnn : p.ImageTag.NewName = []
      · rw [if_neg (not_not.mpr hnn)] at hdef
        rw [hdef]
        exact hName
      · rw [if_pos hnn] at hdef
        rw [hdef]
        exact ⟨hnn, hNewName⟩
    generalize hn' : (if p.ImageTag.NewName ≠ [] then p.ImageTag.NewName
        else p.ImageTag.Name) = name' at hr
    obtain ⟨hne, hal⟩ := hname name' hn'.symm
    have h₁ : '/' ∉ name' := fun h => (isAlphanum_ne _ (hal _ h)).1 rfl
    have h₃ : '@' ∉ name' := fun h => (isAlphanum_ne _ (hal _ h)).2.2 rfl
    generalize ht' : (if p.ImageTag.Digest ≠ [] then "@".toList ++ p.ImageTag.Digest
        else if p.ImageTag.NewTag ≠ [] then ":".toList ++ p.ImageTag.NewTag else x) = tag'
      at hr
    have hsplit' : split (name' ++ tag') = .ok (name', tag') := by
      by_cases hd : p.ImageTag.Digest = []
      · rw [if_neg (not_not.mpr hd)] at ht'
        by_cases hnt : p.ImageTag.NewTag = []
        · rw [if_neg (not_not.mpr hnt)] at ht'
          rw [← ht']
          exact split_name_suffix name' x hne hal hsuf
        · rw [if_pos hnt] at ht'
          rw [← ht']
          exact split_of_colon name' _ h₁ h₃
            (fun h => (isTagChar_ne _ (hNewTag _ h)).1 rfl)
            (fun h => (isTagChar_ne _ (hNewTag _ h)).2.1 rfl)
            (fun h => (isTagChar_ne _ (hNewTag _ h)).2.2 rfl)
      · rw [if_pos hd] at ht'
        rw [← ht']
        rcases hDigest with h | ⟨d, hdd, hdc⟩
        · exact absurd h hd
        · rw [hdd]
          have k₁ : '/' ∉ "sha256:".toList ++ d := by
            intro h
            rcases List.mem_append.mp h with h | h
            · revert h; decide
            · exact (isTagChar_ne _ (hdc _ h)).1 rfl
          have k₃ : '@' ∉ "sha256:".toList ++ d := by
            intro h
            rcases List.mem_append.mp h with h | h
            · revert h; decide
            · exact (isTagChar_ne _ (hdc _ h)).2.2 rfl
          exact split_of_at name' _ hne h₁ k₁ k₃
    refine ⟨name' ++ tag', hr, ?_⟩
    have h2 := hre (name' ++ tag') (Or.inr hr)
    cases hb : matchesName p.ImageTag.Name (name' ++ tag') with
    | false =>
      rw [hb] at h2
      simp only [mutateImage, h2]
    | true =>
      rw [hb] at h2
      rw [mutateImage_of_matched re p _ name' tag' h2 hsplit']
      have e₁ : (if p.ImageTag.NewName ≠ [] then p.ImageTag.NewName else name') = name' := by
        by_cases hnn : p.ImageTag.NewName = []
        · rw [if_neg (not_not.mpr hnn)]
        · rw [if_pos hnn, ← hn', if_pos hnn]
      have e₂ : (if p.ImageTag.Digest ≠ [] then "@".toList ++ p.ImageTag.Digest
          else if p.ImageTag.NewTag ≠ [] then ":".toList ++ p.ImageTag.NewTag else tag')
          = tag' := by
        by_cases hd : p.ImageTag.Digest = []
        · rw [if_neg (not_not.mpr hd)]
          by_cases hnt : p.ImageTag.NewTag = []
          · rw [if_neg (not_not.mpr hnt)]
          · rw [if_pos hnt, ← ht', if_neg (not_not.mpr hd), if_pos hnt]
        · rw [if_pos hd, ← ht', if_pos hd]
      rw [e₁, e₂]

/-- An instance of C35 with the matcher `goRegexp`: `nginx:1.7.9` becomes
`busybox:v2`, which stays as it is; and under a digest `nginx:1.7.9` becomes
`nginx@sha256:0123abc`, which stays as it is. -/
theorem mutateImage_idempotent_witness :
    mutateImage goRegexp sampleRename (.str "nginx:1.7.9".toList) =
      .ok (.str "busybox:v2".toList) ∧
    mutateImage goRegexp sampleRename (.str "busybox:v2".toList) =
      .ok (.str "busybox:v2".toList) ∧
    mutateImage goRegexp sampleDigest (.str "nginx:1.7.9".toList) =
      .ok (.str "nginx@sha256:0123abc".toList) ∧
    mutateImage goRegexp sampleDigest (.str "nginx@sha256:0123abc".toList) =
      .ok (.str "nginx@sha256:0123abc".toList) ∧
    ∃ r, mutateImage goRegexp sampleDigest (.str "nginx:1.7.9".toList) = .ok (.str r) ∧
      mutateImage goRegexp sampleDigest (.str r) = .ok (.str r) :=
  ⟨rfl, rfl, rfl, rfl,
    mutateImage_idempotent goRegexp sampleDigest "nginx:1.7.9".toList
      ⟨by decide, by decide⟩ (by decide) (by decide)
      (Or.inr ⟨"0123abc".toList, rfl, by decide⟩)
      (by
        intro t ht
        rcases ht with ht | ht
        · subst ht
          decide
        · have hv : mutateImage goRegexp sampleDigest (.str "nginx:1.7.9".toList) =
              .ok (.str "nginx@sha256:0123abc".toList) := rfl
          rw [hv] at ht
          injection ht with ht
          injection ht with ht
          subst ht
          decide)⟩

end ImageTagTransformer

end Kustomize
